import Mathlib

/-!
# Paintball capture-the-flag rules engine (`juego.cpp`)

A shallow embedding of the rules engine of `juego.cpp`: the `Player` and `Cell`
classes, the board (`vector<vector<Cell>>`) and the two resolvers `Player::move`
and `Player::attack`.

Modelling conventions.

* A `Player*` is an index `Fin n` into the table of the `n` player objects of a
  game; a `Cell` stores such indices, so aliasing between cells and rosters is
  kept.  Player objects are never freed during a game, so every pointer is valid.
* `int` is modelled by `Int`.  Coordinates and distances stay far below `2^31`
  for every board the program can allocate, so no wrap-around is involved.
* A `double` is modelled by the rational it is equal to.  A decimal literal
  denotes the nearest binary64 value (`binary64`), and `+` on doubles rounds the
  exact sum (`doubleAdd`), so the cumulative thresholds of `Player::attack` are
  the sums the program computes.  A value drawn from `mt19937` through
  `uniform_real_distribution<>(0, 1)` is an explicit argument of the resolver
  that draws it.
* An out-of-range `vector` index is undefined behaviour in C++; the resolvers
  return `none` when the source would perform such an access.
* The text a resolver returns is kept as a tagged outcome together with a
  function rendering the exact text of the source.
-/

namespace Paintball

/-! ## Directions -/

/-- Value of `UP` in `enum Direction { UP = 1, LEFT, DOWN, RIGHT }`. -/
abbrev UP : Int := 1
/-- Value of `LEFT` in `enum Direction`. -/
abbrev LEFT : Int := 2
/-- Value of `DOWN` in `enum Direction`. -/
abbrev DOWN : Int := 3
/-- Value of `RIGHT` in `enum Direction`. -/
abbrev RIGHT : Int := 4

/-- The `switch (direction)` shared by `Player::move` and `Player::attack`:
the pair `(dx, dy)` of a direction code, `none` for the `default:` branch. -/
def directionDelta (direction : Int) : Option (Int × Int) :=
  if direction = UP then some (0, -1)
  else if direction = DOWN then some (0, 1)
  else if direction = LEFT then some (-1, 0)
  else if direction = RIGHT then some (1, 0)
  else none

/-! ## Doubles -/

/-- The number of binary digits of `n`, computed with `fuel` halvings (`fuel = n`
is enough). -/
def bitLength : Nat → Nat → Nat
  | 0, _ => 0
  | fuel + 1, n => if n = 0 then 0 else bitLength fuel (n / 2) + 1

/-- The numerator of `n / d` scaled by `2 ^ s`. -/
def scaleNum (n : Nat) (s : Int) : Nat := if 0 ≤ s then n * 2 ^ s.toNat else n

/-- The denominator of `n / d` scaled by `2 ^ s`. -/
def scaleDen (d : Nat) (s : Int) : Nat := if 0 ≤ s then d else d * 2 ^ (-s).toNat

/-- The value of type `double` (IEEE 754 binary64) nearest to the rational `q`,
ties to the even significand: the value a decimal literal denotes and the value
an arithmetic operation returns for its exact result.  The significand has 53
bits, or fewer below `2 ^ (-1022)` where the spacing is `2 ^ (-1074)`; overflow
to infinity is not represented (the program's values lie between 0 and 2). -/
def binary64 (q : ℚ) : ℚ :=
  let n := q.num.natAbs
  let d := q.den
  if n = 0 then 0
  else
    let s1 : Int := 53 - ((bitLength n n : Int) - (bitLength d d : Int))
    let s : Int :=
      min (if 2 ^ 53 * scaleDen d s1 ≤ scaleNum n s1 then s1 - 1 else s1) 1074
    let x := scaleNum n s
    let y := scaleDen d s
    let f := x / y
    let r := x % y
    let m := if 2 * r < y then f else if y < 2 * r then f + 1 else if f % 2 = 0 then f else f + 1
    let v : ℚ := if 0 ≤ s then mkRat m (2 ^ s.toNat) else ((m * 2 ^ (-s).toNat : Nat) : ℚ)
    if q.num < 0 then -v else v

/-- The operator `+` on two values of type `double`: the exact sum, rounded. -/
def doubleAdd (a b : ℚ) : ℚ := binary64 (a + b)

/-! ## Player -/

/-- The data members of `class Player`. -/
structure Player where
  id : Int
  team : Char
  x : Int
  y : Int
  hitsToExtremities : Int
  eliminated : Bool
  fast : Bool
  expert : Bool
  maxMovement : Int
  range : Int
  torsoHitChance : ℚ
  extremityHitChance : ℚ
  headHitChance : ℚ
  shooterEliminated : Bool
  eliminationReason : String
  startX : Int
  startY : Int
  moved : Bool
deriving DecidableEq

/-- The constructor `Player::Player(id, team, fast, expert)`.  The hit chances
are the doubles the literals `0.6`, `0.85`, `0.05`, `0.1`, `0.5`, `0.25` denote.
The members `startX`, `startY` are left uninitialised by the constructor; their
indeterminate values are the last two arguments. -/
def Player.new (id : Int) (team : Char) (fast expert : Bool) (startX startY : Int) : Player :=
  { id := id, team := team, x := -1, y := -1, hitsToExtremities := 0,
    eliminated := false, fast := fast, expert := expert,
    maxMovement := if fast then 2 else 1,
    range := if expert then 2 else 1,
    torsoHitChance := if expert then binary64 (6 / 10) else binary64 (1 / 10),
    extremityHitChance := if expert then binary64 (85 / 100) else binary64 (5 / 10),
    headHitChance := if expert then binary64 (5 / 100) else binary64 (25 / 100),
    shooterEliminated := false, eliminationReason := "",
    startX := startX, startY := startY, moved := false }

/-- The method `Player::setPosition`. -/
def Player.setPosition (p : Player) (x y : Int) : Player := { p with x := x, y := y }

/-- The method `Player::setEliminated`: the reason is stored only when `status` is true. -/
def Player.setEliminated (p : Player) (status : Bool) (reason : String) : Player :=
  { p with eliminated := status,
           eliminationReason := if status then reason else p.eliminationReason }

/-- The members the constructor derives from the speed and skill class, which no
method assigns afterwards. -/
def Player.ClassProfile (p : Player) : Prop :=
  p.maxMovement = (if p.fast then 2 else 1) ∧
  p.range = (if p.expert then 2 else 1) ∧
  p.headHitChance = (if p.expert then binary64 (5 / 100) else binary64 (25 / 100)) ∧
  p.torsoHitChance = (if p.expert then binary64 (6 / 10) else binary64 (1 / 10)) ∧
  p.extremityHitChance = (if p.expert then binary64 (85 / 100) else binary64 (5 / 10))

/-! ## Cells, board and world -/

/-- The class `Cell`: the vector of the players standing on a square. -/
structure Cell (n : Nat) where
  players : List (Fin n)
deriving DecidableEq

/-- The board together with the table of player objects the cells point into. -/
structure World (n : Nat) where
  players : Fin n → Player
  board : List (List (Cell n))

variable {n : Nat}

/-- The method `Cell::getPlayers`. -/
def Cell.getPlayers (c : Cell n) : List (Fin n) := c.players

/-- The method `Cell::addPlayer`: `push_back` followed by `std::sort` on the id.
`std::sort` is not stable; for players with pairwise different ids (as `Game`
assigns them) the result is the unique list sorted by id. -/
def Cell.addPlayer (heap : Fin n → Player) (c : Cell n) (p : Fin n) : Cell n :=
  ⟨List.insertionSort (fun a b => (heap a).id ≤ (heap b).id) (c.players ++ [p])⟩

/-- The method `Cell::removePlayer`: erase-remove of every occurrence of the pointer. -/
def Cell.removePlayer (c : Cell n) (p : Fin n) : Cell n :=
  ⟨c.players.filter (fun q => decide (q ≠ p))⟩

/-- The access `board[y][x]` with `int` indices: `none` when an index is
negative or past the end of its vector (undefined behaviour in the source). -/
def cellAt (board : List (List (Cell n))) (x y : Int) : Option (Cell n) :=
  if x < 0 ∨ y < 0 then none
  else (board[y.toNat]?).bind (fun row => row[x.toNat]?)

/-- Writing `c` through the reference `board[y][x]` (used only after the access
`cellAt board x y` succeeded). -/
def setCell (board : List (List (Cell n))) (x y : Int) (c : Cell n) : List (List (Cell n)) :=
  board.set y.toNat (((board[y.toNat]?).getD []).set x.toNat c)

/-- The test `nx < 0 || ny < 0 || ny >= board.size() || nx >= board[0].size()`.
Short-circuit evaluation reaches `board[0]` only when `0 <= ny < board.size()`,
so the board is not empty there. -/
def outOfBounds (board : List (List (Cell n))) (nx ny : Int) : Bool :=
  decide (nx < 0) || decide (ny < 0) || decide ((board.length : Int) ≤ ny)
    || decide (((board.headD []).length : Int) ≤ nx)

/-- The assignment `moved = true` on the acting player. -/
def World.setMoved (w : World n) (self : Fin n) : World n :=
  { w with players := Function.update w.players self { w.players self with moved := true } }

/-! ## Player::move -/

/-- What `Player::move` reports: one constructor per `return` of the source. -/
inductive MoveOutcome where
  | capacityExceeded (squares maxMovement : Int)
  | invalidDirection
  | outOfBounds
  | blockedByOpponent
  | destinationFull
  | moved (id x y : Int)
deriving DecidableEq, Repr

/-- The text returned by `Player::move`. -/
def MoveOutcome.message : MoveOutcome → String
  | .capacityExceeded s m =>
      "Cannot move " ++ toString s ++ " squares. Maximum movement is " ++ toString m ++ "."
  | .invalidDirection => "Invalid direction."
  | .outOfBounds => "Movement would go out of bounds."
  | .blockedByOpponent => "Cannot move into or through a cell occupied by opponent players."
  | .destinationFull => "Destination cell is full (max 4 players per cell)."
  | .moved id x y =>
      "Player " ++ toString id ++ " moved to (" ++ toString x ++ ", " ++ toString y ++ ")."

/-- The move was carried out (the only text containing `Player`). -/
def MoveOutcome.isSuccess : MoveOutcome → Bool
  | .moved _ _ _ => true
  | _ => false

/-- The path loop `for (int i = 1; i <= squares; ++i)` of `Player::move`, started
at `i` with `fuel` iterations left.  `some none`: the loop ran to its end;
`some (some r)`: it returned the rejection `r`; `none`: undefined behaviour. -/
def Player.moveLoop (w : World n) (self : Fin n) (dx dy squares : Int) :
    Nat → Int → Option (Option MoveOutcome)
  | 0, _ => some none
  | fuel + 1, i =>
    let nx := (w.players self).x + dx * i
    let ny := (w.players self).y + dy * i
    if outOfBounds w.board nx ny then some (some MoveOutcome.outOfBounds)
    else
      match cellAt w.board nx ny with
      | none => none
      | some cell =>
        if cell.getPlayers.any (fun p => (w.players p).team != (w.players self).team) then
          some (some MoveOutcome.blockedByOpponent)
        else if i = squares ∧ 4 ≤ cell.getPlayers.length then
          some (some MoveOutcome.destinationFull)
        else Player.moveLoop w self dx dy squares fuel (i + 1)

/-- The automatic-mode block at the head of `Player::move`: when `squares == -1`
a fast player gets 2 squares if `dis(rng) <= 0.5` and 1 otherwise, a slow player
gets 1; any other request is kept. -/
def Player.autoSquares (p : Player) (squares : Int) (roll : ℚ) : Int :=
  if squares = -1 then (if p.fast then (if roll ≤ 1 / 2 then 2 else 1) else 1) else squares

/-- The tail of `Player::move` ("Move the player"): remove the player from
`board[y][x]`, add `dx * squares`, `dy * squares` to the coordinates and add the
player to the cell at the new coordinates. -/
def Player.relocate (w : World n) (self : Fin n) (dx dy squares : Int) :
    Option (MoveOutcome × World n) :=
  let p := w.players self
  match cellAt w.board p.x p.y with
  | none => none
  | some c0 =>
    let b1 := setCell w.board p.x p.y (c0.removePlayer self)
    let p1 := p.setPosition (p.x + dx * squares) (p.y + dy * squares)
    let heap := Function.update w.players self p1
    match cellAt b1 p1.x p1.y with
    | none => none
    | some c1 =>
      some (MoveOutcome.moved p1.id p1.x p1.y,
            { players := heap, board := setCell b1 p1.x p1.y (c1.addPlayer heap self) })

/-- The method `Player::move(direction, squares, board, rng)` called on the
player `self`; `roll` is the value `dis(rng)` drawn in automatic mode
(`squares == -1`, fast player). -/
def Player.move (w : World n) (self : Fin n) (direction squares : Int) (roll : ℚ) :
    Option (MoveOutcome × World n) :=
  let w1 := w.setMoved self
  let p := w1.players self
  let squares := p.autoSquares squares roll
  if squares > p.maxMovement then some (MoveOutcome.capacityExceeded squares p.maxMovement, w1)
  else
    match directionDelta direction with
    | none => some (MoveOutcome.invalidDirection, w1)
    | some (dx, dy) =>
      match Player.moveLoop w1 self dx dy squares squares.toNat 1 with
      | none => none
      | some (some r) => some (r, w1)
      | some none => Player.relocate w1 self dx dy squares

/-! ## Player::attack -/

/-- What `Player::attack` reports: one constructor per `return` of the source. -/
inductive AttackOutcome where
  | invalidDirection
  | invalidRange (expert : Bool)
  | outOfBounds
  | lineOfSightBlocked
  | noValidTarget
  | headshot (id : Int)
  | torso (id targetId : Int)
  | extremity (id targetId hits : Int)
  | missed (id : Int)
deriving DecidableEq, Repr

/-- The `bool` of the pair returned by `Player::attack`. -/
def AttackOutcome.success : AttackOutcome → Bool
  | .headshot _ => true
  | .torso _ _ => true
  | .extremity _ _ _ => true
  | _ => false

/-- The text of the pair returned by `Player::attack`. -/
def AttackOutcome.message : AttackOutcome → String
  | .invalidDirection => "Invalid attack direction. Must be UP(1), LEFT(2), DOWN(3), or RIGHT(4)."
  | .invalidRange expert =>
      "Invalid attack range. " ++
        (if expert then "Expert players can attack 1-2 squares."
         else "Novice players can only attack 1 square.")
  | .outOfBounds => "Attack target is out of bounds."
  | .lineOfSightBlocked => "Line of sight blocked by players in intermediate squares."
  | .noValidTarget => "No valid targets in range."
  | .headshot id =>
      "Player " ++ toString id ++ " hit opponent's head and is eliminated due to rule violation!"
  | .torso id t =>
      "Player " ++ toString id ++ " hit opponent player " ++ toString t ++ "'s torso! Player "
        ++ toString t ++ " is eliminated!"
  | .extremity id t hits =>
      "Player " ++ toString id ++ " hit opponent player " ++ toString t ++ "'s extremity! ("
        ++ toString hits ++ "/3 hits)" ++
        (if 3 ≤ hits then
          " Player " ++ toString t ++ " received 3 hits to extremities and is eliminated!"
         else "")
  | .missed id => "Player " ++ toString id ++ " missed the shot."

/-- The condition `target->getTeam() != team && !target->isEliminated()`. -/
def Player.validTarget (w : World n) (self target : Fin n) : Bool :=
  (w.players target).team != (w.players self).team && !(w.players target).eliminated

/-- The body of the target loop once a valid target is found: draw `hitRoll`
and compare it with `headHitChance`, with `headHitChance + torsoHitChance` and
with `headHitChance + torsoHitChance + extremityHitChance`, the sums being sums
of doubles, evaluated from left to right. -/
def Player.resolveHit (w : World n) (self target : Fin n) (hitRoll : ℚ) :
    AttackOutcome × World n :=
  let p := w.players self
  let t := w.players target
  if hitRoll < p.headHitChance then
    let p1 := { p with eliminated := true, shooterEliminated := true,
                       eliminationReason := "Headshot penalty" }
    (AttackOutcome.headshot p.id, { w with players := Function.update w.players self p1 })
  else if hitRoll < doubleAdd p.headHitChance p.torsoHitChance then
    (AttackOutcome.torso p.id t.id,
     { w with players := Function.update w.players target (t.setEliminated true "Hit in torso") })
  else if hitRoll <
      doubleAdd (doubleAdd p.headHitChance p.torsoHitChance) p.extremityHitChance then
    let t1 := { t with hitsToExtremities := t.hitsToExtremities + 1 }
    let t2 := if 3 ≤ t1.hitsToExtremities then t1.setEliminated true "3 extremity hits" else t1
    (AttackOutcome.extremity p.id t.id t1.hitsToExtremities,
     { w with players := Function.update w.players target t2 })
  else (AttackOutcome.missed p.id, w)

/-- The second loop over `playersInCell` ("select first valid target and perform
attack"): `none` when the loop ends without a `return`. -/
def Player.selectAndResolve (w : World n) (self : Fin n) (hitRoll : ℚ) :
    List (Fin n) → Option (AttackOutcome × World n)
  | [] => none
  | target :: rest =>
    if Player.validTarget w self target then some (Player.resolveHit w self target hitRoll)
    else Player.selectAndResolve w self hitRoll rest

/-- The loop `for (int i = 1; i <= squares; i++)` of `Player::attack`, started at
`i` with `fuel` iterations left.  `some none`: the loop ran to its end without a
`return`; `none`: undefined behaviour. -/
def Player.attackLoop (w : World n) (self : Fin n) (dx dy squares : Int) (hitRoll : ℚ) :
    Nat → Int → Option (Option (AttackOutcome × World n))
  | 0, _ => some none
  | fuel + 1, i =>
    match cellAt w.board ((w.players self).x + dx * i) ((w.players self).y + dy * i) with
    | none => none
    | some checkCell =>
      if i < squares ∧ checkCell.getPlayers ≠ [] then
        some (some (AttackOutcome.lineOfSightBlocked, w))
      else if i = squares then
        if checkCell.getPlayers.any (Player.validTarget w self) then
          match Player.selectAndResolve w self hitRoll checkCell.getPlayers with
          | some r => some (some r)
          | none => Player.attackLoop w self dx dy squares hitRoll fuel (i + 1)
        else some (some (AttackOutcome.noValidTarget, w))
      else Player.attackLoop w self dx dy squares hitRoll fuel (i + 1)

/-- The automatic-mode block of `Player::attack`: when `squares == -1` an expert
gets range 1 if `dis(rng) <= 0.75` and 2 otherwise, a novice gets 1; an explicit
request is kept. -/
def Player.autoRange (p : Player) (squares : Int) (rangeRoll : ℚ) : Int :=
  if squares = -1 then (if p.expert then (if rangeRoll ≤ 75 / 100 then 1 else 2) else 1)
  else squares

/-- The method `Player::attack(direction, squares, board, rng)` called on the
player `self`; `rangeRoll` is the value drawn for the range in automatic mode
(`squares == -1`, expert player) and `hitRoll` the value drawn for the hit. -/
def Player.attack (w : World n) (self : Fin n) (direction squares : Int) (rangeRoll hitRoll : ℚ) :
    Option (AttackOutcome × World n) :=
  let w1 := w.setMoved self
  let p := w1.players self
  match directionDelta direction with
  | none => some (AttackOutcome.invalidDirection, w1)
  | some (dx, dy) =>
    let maxRange : Int := if p.expert then 2 else 1
    if squares ≠ -1 ∧ (squares > maxRange ∨ squares < 1) then
      some (AttackOutcome.invalidRange p.expert, w1)
    else
      let squares := p.autoRange squares rangeRoll
      if outOfBounds w1.board (p.x + dx * squares) (p.y + dy * squares) then
        some (AttackOutcome.outOfBounds, w1)
      else
        match Player.attackLoop w1 self dx dy squares hitRoll squares.toNat 1 with
        | none => none
        | some (some r) => some r
        | some none => some (AttackOutcome.noValidTarget, w1)

/-! ## State predicates used by the statements -/

/-- Every unit is listed in exactly the cell at its position: a cell of the
board lists a unit if and only if the unit's coordinates are that cell's. -/
def World.Consistent (w : World n) : Prop :=
  ∀ (q : Fin n) (cx cy : Int) (c : Cell n), cellAt w.board cx cy = some c →
    (q ∈ c.players ↔ ((w.players q).x = cx ∧ (w.players q).y = cy))

/-- The unit stands on a square of the board. -/
def World.OnBoard (w : World n) (q : Fin n) : Prop :=
  ∃ c, cellAt w.board (w.players q).x (w.players q).y = some c

/-- Every row of the board has the length of row 0, as after
`board.resize(numRows, vector<Cell>(numCols))`. -/
def RectBoard (board : List (List (Cell n))) : Prop :=
  ∀ row ∈ board, row.length = (board.headD []).length

instance (board : List (List (Cell n))) : Decidable (RectBoard board) := by
  unfold RectBoard
  infer_instance

/-- The states in which an attack by `self` in `direction` with the effective
range `range` passes every check of `Player::attack` and reaches hit resolution
against `target`: the direction is valid, the range is within the class maximum,
every square strictly between attacker and target square is on the board and
empty, and the target square lists `pre ++ target :: post` where `target` is
a non-eliminated unit of the other team and no unit of `pre` is one. -/
def Player.ReachesTarget (w : World n) (self : Fin n) (direction range : Int)
    (pre : List (Fin n)) (target : Fin n) (post : List (Fin n)) : Prop :=
  ∃ dx dy : Int, directionDelta direction = some (dx, dy) ∧
    1 ≤ range ∧ range ≤ (if (w.players self).expert then 2 else 1) ∧
    (∀ j : Int, 1 ≤ j → j < range →
      cellAt w.board ((w.players self).x + dx * j) ((w.players self).y + dy * j) = some ⟨[]⟩) ∧
    cellAt w.board ((w.players self).x + dx * range) ((w.players self).y + dy * range)
      = some ⟨pre ++ target :: post⟩ ∧
    (∀ u ∈ pre, (w.players u).team = (w.players self).team ∨ (w.players u).eliminated = true) ∧
    (w.players target).team ≠ (w.players self).team ∧
    (w.players target).eliminated = false

/-! ## Concrete states used to instantiate the statements -/

/-- A one-row board of four squares: Red's fast expert 0 at `(0,0)`, an empty
square, and Blue's novices 1 (with two extremity hits already) and 2 on `(2,0)`. -/
def skirmish : World 3 :=
  { players := ![(Player.new 0 'R' true true 0 0).setPosition 0 0,
                 { (Player.new 1 'B' false false 2 0).setPosition 2 0 with hitsToExtremities := 2 },
                 (Player.new 2 'B' true false 2 0).setPosition 2 0],
    board := [[⟨[0]⟩, ⟨[]⟩, ⟨[1, 2]⟩, ⟨[]⟩]] }

/-- A one-row board of three squares held by Red alone: the fast expert 0 at
`(0,0)`, four team-mates on `(1,0)` and an empty square `(2,0)`. -/
def stack : World 5 :=
  { players := ![(Player.new 0 'R' true true 0 0).setPosition 0 0,
                 (Player.new 1 'R' false false 1 0).setPosition 1 0,
                 (Player.new 2 'R' false false 1 0).setPosition 1 0,
                 (Player.new 3 'R' false false 1 0).setPosition 1 0,
                 (Player.new 4 'R' false false 1 0).setPosition 1 0],
    board := [[⟨[0]⟩, ⟨[1, 2, 3, 4]⟩, ⟨[]⟩]] }

/-- The state `skirmish` after player 0 moved one square to the right. -/
def skirmishMoved : World 3 :=
  ((Player.move skirmish 0 RIGHT 1 0).map Prod.snd).getD skirmish

/-! ## Game -/

/-- The data members of `class Game` the rules read or write: the board and the
player objects (`world`), the two rosters, the team of the human player, the
counter `turns`, the terminal fields and the two flag coordinates.  The action
history, the audio handles and the values used only for display are left out;
the random generator is an explicit argument of the methods that draw from it. -/
structure Game (n : Nat) where
  world : World n
  redTeam : List (Fin n)
  blueTeam : List (Fin n)
  userTeam : Char
  turns : Int
  gameEnded : Bool
  winner : String
  redFlag : Int × Int
  blueFlag : Int × Int
  redTeamMoved : Bool
  blueTeamMoved : Bool

/-- The `return true` of `Game::checkEndConditions` that is taken, in source
order: the two captures, the two eliminations, the two retreats. -/
inductive EndReason where
  | redCapture
  | blueCapture
  | redEliminated
  | blueEliminated
  | redRetreat
  | blueRetreat
deriving DecidableEq, Repr

/-- The value assigned to `winner` before each `return true`. -/
def EndReason.winner : EndReason → String
  | .redCapture => "Red Team"
  | .blueCapture => "Blue Team"
  | .redEliminated => "Blue Team"
  | .blueEliminated => "Red Team"
  | .redRetreat => "Blue Team"
  | .blueRetreat => "Red Team"

/-- The line printed before each `return true`. -/
def EndReason.message : EndReason → String
  | .redCapture => "Red Team wins by capturing Blue's flag area!"
  | .blueCapture => "Blue Team wins by capturing Red's flag area!"
  | .redEliminated => "Blue Team wins by eliminating all Red Team players!"
  | .blueEliminated => "Red Team wins by eliminating all Blue Team players!"
  | .redRetreat =>
      "All active Red Team players are at their flag area. Blue Team wins by opponent's retreat!"
  | .blueRetreat =>
      "All active Blue Team players are at their flag area. Red Team wins by opponent's retreat!"

/-- The loop condition `!p->isEliminated() && p->getX() == flag.first &&
p->getY() == flag.second` of the capture checks. -/
def Game.standsOn (g : Game n) (flag : Int × Int) (p : Fin n) : Bool :=
  !(g.world.players p).eliminated && decide ((g.world.players p).x = flag.1)
    && decide ((g.world.players p).y = flag.2)

/-- The loop condition `!p->isEliminated() && (p->getX() != flag.first ||
p->getY() != flag.second)` of the retreat checks. -/
def Game.activeAwayFrom (g : Game n) (flag : Int × Int) (p : Fin n) : Bool :=
  !(g.world.players p).eliminated &&
    (decide ((g.world.players p).x ≠ flag.1) || decide ((g.world.players p).y ≠ flag.2))

/-- The decision part of `Game::checkEndConditions`: which `return true` is
reached, `none` for the final `return false`.  The leading loops computing
`redAllMoved` and `blueAllMoved` feed an empty `if` and are left out. -/
def Game.endReason (g : Game n) : Option EndReason :=
  if g.redTeam.any (g.standsOn g.blueFlag) then some EndReason.redCapture
  else if g.blueTeam.any (g.standsOn g.redFlag) then some EndReason.blueCapture
  else
    let redEliminated := g.redTeam.all (fun p => (g.world.players p).eliminated)
    let blueEliminated := g.blueTeam.all (fun p => (g.world.players p).eliminated)
    if redEliminated then some EndReason.redEliminated
    else if blueEliminated then some EndReason.blueEliminated
    else
      let redOnlyAtFlag := !g.redTeam.any (g.activeAwayFrom g.redFlag)
      let blueOnlyAtFlag := !g.blueTeam.any (g.activeAwayFrom g.blueFlag)
      if redOnlyAtFlag && !redEliminated then some EndReason.redRetreat
      else if blueOnlyAtFlag && !blueEliminated then some EndReason.blueRetreat
      else none

/-- The method `Game::checkEndConditions`: the returned `bool` and the game with
`winner` and `gameEnded` assigned when a condition holds. -/
def Game.checkEndConditions (g : Game n) : Bool × Game n :=
  match g.endReason with
  | some r => (true, { g with winner := r.winner, gameEnded := true })
  | none => (false, g)

/-- The method `Game::resetPlayersMovedFlag`: `resetMoved()` on every player of
both rosters. -/
def Game.resetPlayersMovedFlag (g : Game n) : Game n :=
  { g with world :=
      { g.world with players := fun p =>
          if p ∈ g.redTeam ∨ p ∈ g.blueTeam then { g.world.players p with moved := false }
          else g.world.players p } }

/-! ## Turns: Game::programTurn, Game::userTurn and the loop of Game::play -/

/-- A resolver call made during a turn, with what it returned.  The calls are
recorded in order, so that statements can speak about which resolvers a turn
invokes; the record is not a member of the source. -/
inductive Call (n : Nat) where
  | attack (unit : Fin n) (direction range : Int) (out : AttackOutcome)
  | move (unit : Fin n) (direction squares : Int) (out : MoveOutcome)
deriving DecidableEq

/-- The player a resolver was called on. -/
def Call.unit : Call n → Fin n
  | .attack u _ _ _ => u
  | .move u _ _ _ => u

/-- The success test the turn applies to the result: `attackResult.first` for an
attack, `moveResult.find("Player") != npos` for a move. -/
def Call.success : Call n → Bool
  | .attack _ _ _ out => out.success
  | .move _ _ _ out => out.isSuccess

/-- The returns of `Player::attack` that follow the draw `hitRoll = dis(rng)`:
the attack reached hit resolution. -/
def AttackOutcome.drewHitRoll : AttackOutcome → Bool
  | .headshot _ => true
  | .torso _ _ => true
  | .extremity _ _ _ => true
  | .missed _ => true
  | _ => false

/-- The call is an attack that reached hit resolution. -/
def Call.drewHitRoll : Call n → Bool
  | .attack _ _ _ out => out.drewHitRoll
  | .move _ _ _ _ => false

/-- The state threaded through a turn: the board and players, the number of
values drawn from `rng` so far in the turn, and the resolver calls made. -/
structure Turn (n : Nat) where
  world : World n
  drawn : Nat
  calls : List (Call n)

/-- A call `player->attack(dir, range, board, rng)` made inside a turn; `rng k`
is the `k`-th value the generator yields in the turn.  In automatic mode
(`range == -1`, valid direction, expert) one value is drawn for the range before
the one for the hit. -/
def Turn.attack (t : Turn n) (rng : Nat → ℚ) (self : Fin n) (dir range : Int) :
    Option (AttackOutcome × Turn n) :=
  let rangeDrawn : Nat :=
    if (directionDelta dir).isSome ∧ range = -1 ∧ (t.world.players self).expert then 1 else 0
  match Player.attack t.world self dir range (rng t.drawn) (rng (t.drawn + rangeDrawn)) with
  | none => none
  | some (out, w) =>
    some (out, { world := w,
                 drawn := t.drawn + rangeDrawn + (if out.drewHitRoll then 1 else 0),
                 calls := t.calls ++ [Call.attack self dir range out] })

/-- A call `player->move(dir, squares, board, rng)` made inside a turn. -/
def Turn.move (t : Turn n) (rng : Nat → ℚ) (self : Fin n) (dir squares : Int) :
    Option (MoveOutcome × Turn n) :=
  match Player.move t.world self dir squares (rng t.drawn) with
  | none => none
  | some (out, w) =>
    some (out, { world := w,
                 drawn := if squares = -1 ∧ (t.world.players self).fast then t.drawn + 1
                          else t.drawn,
                 calls := t.calls ++ [Call.move self dir squares out] })

/-- The inner loop `for (int range = 1; range <= player->getAttackRange();
++range)` of an attack scan, started at `range` with `fuel` iterations left; the
`bool` is `attackPossible`. -/
def Game.scanRanges (rng : Nat → ℚ) (self : Fin n) (dir : Int) :
    Nat → Int → Turn n → Option (Bool × Turn n)
  | 0, _, t => some (false, t)
  | fuel + 1, range, t =>
    match t.attack rng self dir range with
    | none => none
    | some (out, t1) =>
      if out.success then some (true, t1)
      else Game.scanRanges rng self dir fuel (range + 1) t1

/-- The outer loop `for (int dir : attackDirections)` of an attack scan.  The
member `range` read by `getAttackRange()` is assigned by the constructor only, so
the bound of the inner loop is taken once per direction. -/
def Game.scanDirections (rng : Nat → ℚ) (self : Fin n) :
    List Int → Turn n → Option (Bool × Turn n)
  | [], t => some (false, t)
  | dir :: rest, t =>
    match Game.scanRanges rng self dir (t.world.players self).range.toNat 1 t with
    | none => none
    | some (true, t1) => some (true, t1)
    | some (false, t1) => Game.scanDirections rng self rest t1

/-- The loop `for (int dir : moveDirections)` of `Game::programTurn`; the `bool`
is `moved`. -/
def Game.tryMoves (rng : Nat → ℚ) (self : Fin n) (maxSteps : Int) :
    List Int → Turn n → Option (Bool × Turn n)
  | [], t => some (false, t)
  | dir :: rest, t =>
    match t.move rng self dir maxSteps with
    | none => none
    | some (out, t1) =>
      if out.isSuccess then some (true, t1)
      else Game.tryMoves rng self maxSteps rest t1

/-- The vector `moveDirections` of `Game::programTurn`: the direction toward the
flag along the axis with the greater absolute delta first (the horizontal axis
on a tie), then the one along the other axis; an axis with delta 0 gives none. -/
def Game.moveDirections (deltaX deltaY : Int) : List Int :=
  let horizontal : List Int := if deltaX > 0 then [RIGHT] else if deltaX < 0 then [LEFT] else []
  let vertical : List Int := if deltaY > 0 then [DOWN] else if deltaY < 0 then [UP] else []
  if deltaY.natAbs ≤ deltaX.natAbs then horizontal ++ vertical else vertical ++ horizontal

/-- The body of the loop over `activePlayers` in `Game::programTurn` for one
player: the attack scan, then the moves toward the flag, then the second attack
scan; the `bool` is `actionTaken`. -/
def Game.programUnit (rng : Nat → ℚ) (targetFlag : Int × Int) (self : Fin n) (t : Turn n) :
    Option (Bool × Turn n) :=
  let deltaX := targetFlag.1 - (t.world.players self).x
  let deltaY := targetFlag.2 - (t.world.players self).y
  match Game.scanDirections rng self [UP, DOWN, LEFT, RIGHT] t with
  | none => none
  | some (true, t1) => some (true, t1)
  | some (false, t1) =>
    match Game.tryMoves rng self (t1.world.players self).maxMovement
        (Game.moveDirections deltaX deltaY) t1 with
    | none => none
    | some (true, t2) => some (true, t2)
    | some (false, t2) => Game.scanDirections rng self [UP, DOWN, LEFT, RIGHT] t2

/-- The loop `for (Player* player : activePlayers)` of `Game::programTurn`, which
ends at the first player whose body sets `actionTaken`. -/
def Game.programLoop (rng : Nat → ℚ) (targetFlag : Int × Int) :
    List (Fin n) → Turn n → Option (Bool × Turn n)
  | [], t => some (false, t)
  | player :: rest, t =>
    if (t.world.players player).eliminated then Game.programLoop rng targetFlag rest t
    else
      match Game.programUnit rng targetFlag player t with
      | none => none
      | some (true, t1) => some (true, t1)
      | some (false, t1) => Game.programLoop rng targetFlag rest t1

/-- The Manhattan distance `abs(x - flag.first) + abs(y - flag.second)` used to
sort the candidates. -/
def Game.flagDistance (g : Game n) (flag : Int × Int) (p : Fin n) : Nat :=
  ((g.world.players p).x - flag.1).natAbs + ((g.world.players p).y - flag.2).natAbs

/-- What a turn yields: the game after it, whether an action was taken
(`actionTaken` in `programTurn`, `validTurn` in `userTurn`), and the resolver
calls it made. -/
structure TurnResult (n : Nat) where
  game : Game n
  actionTaken : Bool
  calls : List (Call n)

/-- The vector `programTeam` of `Game::programTurn`. -/
def Game.programTeam (g : Game n) : List (Fin n) :=
  if g.userTeam = 'R' then g.blueTeam else g.redTeam

/-- The sorted vector `activePlayers` of `Game::programTurn`: the non-eliminated
players of the program's team by distance to the opponent's flag.  `std::sort`
leaves the order of players at equal distance unspecified; they are kept in
roster order here, as the insertion sort does that the library runs on vectors of
up to 16 elements.  No statement below depends on the order among such players
beyond what holds for every sorted arrangement. -/
def Game.candidates (g : Game n) : List (Fin n) :=
  let targetFlag := if g.programTeam = g.redTeam then g.blueFlag else g.redFlag
  List.insertionSort (fun a b => g.flagDistance targetFlag a ≤ g.flagDistance targetFlag b)
    (g.programTeam.filter (fun p => !(g.world.players p).eliminated))

/-- The method `Game::programTurn`; `rng k` is the `k`-th value the generator
yields during the turn.  When `actionTaken` stays false the source prints
"Program couldn't perform any actions." -/
def Game.programTurn (g : Game n) (rng : Nat → ℚ) : Option (TurnResult n) :=
  if g.programTeam.filter (fun p => !(g.world.players p).eliminated) = [] then
    some { game := g, actionTaken := false, calls := [] }
  else
    let targetFlag := if g.programTeam = g.redTeam then g.blueFlag else g.redFlag
    match Game.programLoop rng targetFlag g.candidates
        { world := g.world, drawn := 0, calls := [] } with
    | none => none
    | some (actionTaken, t) =>
      some { game :=
               { g with world := t.world,
                        redTeamMoved :=
                          if actionTaken ∧ g.programTeam = g.redTeam then true
                          else g.redTeamMoved,
                        blueTeamMoved :=
                          if actionTaken ∧ g.programTeam ≠ g.redTeam then true
                          else g.blueTeamMoved },
             actionTaken := actionTaken, calls := t.calls }

/-- One completed interaction of the human with `Game::userTurn`: the Escape key
at the selection prompt, or a selected player with the action key typed and the
direction and number entered at the prompts that follow.  The arrow keys that
move the selection are not entries of their own. -/
inductive UserInput (n : Nat) where
  | escape
  | act (player : Fin n) (action : Char) (direction squares : Int)

/-- The vector `activePlayers` of `Game::userTurn`. -/
def Game.userActive (g : Game n) : List (Fin n) :=
  (if g.userTeam = 'R' then g.redTeam else g.blueTeam).filter
    (fun p => !(g.world.players p).eliminated)

/-- The entry can come out of the prompts of `Game::userTurn`: the player is one
of `activePlayers`, the direction is an arrow key, and the number is 1 or 2 (the
prompts repeat until such values are entered; for a player that is not asked
for a number the entry carries one all the same and it is not used). -/
def Game.accepts (g : Game n) (player : Fin n) (direction squares : Int) : Bool :=
  decide (player ∈ g.userActive) && (directionDelta direction).isSome
    && (decide (squares = 1) || decide (squares = 2))

/-- The assignment of `redTeamMoved` or `blueTeamMoved` after the human's move. -/
def Game.markTeamMoved (g : Game n) (w : World n) (player : Fin n) : Game n :=
  if (w.players player).team = 'R' then { g with world := w, redTeamMoved := true }
  else { g with world := w, blueTeamMoved := true }

/-- The method `Game::userTurn`, run on the interactions the human enters, with
`rng 0` the value drawn if the attack reaches hit resolution.  The result says
whether `validTurn` was set and which interactions are left; `validTurn` is
false when the entries run out while the method still waits for input.  An entry
the prompts cannot produce is skipped.  The byte of the Escape key is taken by
the first test of the chain, `if (c == '\033')`, as the start of an arrow
sequence, whose remaining two bytes are read next, so the later branch
`else if (c == '\033')` that assigns `gameEnded` is never reached: the entry
selects nothing and the prompt goes on. -/
def Game.userTurn (g : Game n) (rng : Nat → ℚ) :
    List (UserInput n) → Option (TurnResult n × List (UserInput n))
  | [] =>
    if g.userActive = [] then some ({ game := g, actionTaken := true, calls := [] }, [])
    else some ({ game := g, actionTaken := false, calls := [] }, [])
  | input :: rest =>
    if g.userActive = [] then
      some ({ game := g, actionTaken := true, calls := [] }, input :: rest)
    else
      match input with
      | UserInput.escape => Game.userTurn g rng rest
      | UserInput.act player action direction squares =>
        if g.accepts player direction squares then
          if action = 'm' then
            let steps : Int := if (g.world.players player).maxMovement > 1 then squares else 1
            match Player.move g.world player direction steps (rng 0) with
            | none => none
            | some (out, w) =>
              some ({ game := g.markTeamMoved w player, actionTaken := true,
                      calls := [Call.move player direction steps out] }, rest)
          else if action = 'a' then
            let range : Int := if (g.world.players player).expert then squares else 1
            match Player.attack g.world player direction range (rng 0) (rng 0) with
            | none => none
            | some (out, w) =>
              some ({ game := { g with world := w }, actionTaken := true,
                      calls := [Call.attack player direction range out] }, rest)
          else Game.userTurn g rng rest
        else Game.userTurn g rng rest

/-- What one iteration of the loop of `Game::play` reads: the interactions of the
human (used when it is the human's turn) and the values the generator yields. -/
structure PlayInput (n : Nat) where
  keys : List (UserInput n)
  rng : Nat → ℚ

/-- The other team's letter, `(userTeam == 'R' ? 'B' : 'R')`. -/
def Game.programLetter (g : Game n) : Char := if g.userTeam = 'R' then 'B' else 'R'

/-- The test `gameEnded || checkEndConditions()` after a turn, with the game it
leaves (short-circuit: the evaluator runs only when `gameEnded` is false). -/
def Game.endsAfterTurn (g : Game n) : Bool × Game n :=
  if g.gameEnded then (true, g) else g.checkEndConditions

/-- One iteration of `while (!gameEnded)` in `Game::play`: reset the moved flags,
let the current team take its turn, test the end conditions, and if the loop goes
on switch the team and increment `turns`.  The `bool` tells whether the loop
goes on (no `break`).  `none` also when the human's entries run out before the
turn is complete. -/
def Game.playIteration (g : Game n) (currentTeam : Char) (input : PlayInput n) :
    Option (Bool × Game n × Char) :=
  let g1 := g.resetPlayersMovedFlag
  if currentTeam = g1.userTeam then
    match g1.userTurn input.rng input.keys with
    | none => none
    | some (r, _) =>
      if r.actionTaken then
        if r.game.endsAfterTurn.1 then some (false, r.game.endsAfterTurn.2, currentTeam)
        else some (true, { r.game with turns := r.game.turns + 1 }, g1.programLetter)
      else none
  else
    match g1.programTurn input.rng with
    | none => none
    | some r =>
      if r.game.endsAfterTurn.1 then some (false, r.game.endsAfterTurn.2, currentTeam)
      else some (true, { r.game with turns := r.game.turns + 1 }, g1.userTeam)

/-- The loop `while (!gameEnded)` of `Game::play`, run on the inputs of the
successive iterations; it stops early when the inputs run out. -/
def Game.playLoop : List (PlayInput n) → Game n → Char → Option (Game n × Char)
  | [], g, currentTeam => some (g, currentTeam)
  | input :: rest, g, currentTeam =>
    if g.gameEnded then some (g, currentTeam)
    else
      match g.playIteration currentTeam input with
      | none => none
      | some (true, g1, team) => Game.playLoop rest g1 team
      | some (false, g1, team) => some (g1, team)

/-! ## Roster predicates used by the statements about the win evaluator -/

/-- Some non-eliminated unit of the roster stands on the flag square. -/
def Game.LiveOn (g : Game n) (team : List (Fin n)) (flag : Int × Int) : Prop :=
  ∃ p ∈ team, (g.world.players p).eliminated = false ∧
    (g.world.players p).x = flag.1 ∧ (g.world.players p).y = flag.2

/-- The roster has a non-eliminated unit. -/
def Game.HasLive (g : Game n) (team : List (Fin n)) : Prop :=
  ∃ p ∈ team, (g.world.players p).eliminated = false

/-- Every non-eliminated unit of the roster stands on the flag square. -/
def Game.AllLiveOn (g : Game n) (team : List (Fin n)) (flag : Int × Int) : Prop :=
  ∀ p ∈ team, (g.world.players p).eliminated = false →
    (g.world.players p).x = flag.1 ∧ (g.world.players p).y = flag.2

/-- Some non-eliminated unit of the roster stands off the flag square. -/
def Game.LiveOff (g : Game n) (team : List (Fin n)) (flag : Int × Int) : Prop :=
  ∃ p ∈ team, (g.world.players p).eliminated = false ∧
    ¬ ((g.world.players p).x = flag.1 ∧ (g.world.players p).y = flag.2)

instance (g : Game n) (team : List (Fin n)) (flag : Int × Int) :
    Decidable (g.LiveOn team flag) := by
  unfold Game.LiveOn
  infer_instance

instance (g : Game n) (team : List (Fin n)) : Decidable (g.HasLive team) := by
  unfold Game.HasLive
  infer_instance

instance (g : Game n) (team : List (Fin n)) (flag : Int × Int) :
    Decidable (g.AllLiveOn team flag) := by
  unfold Game.AllLiveOn
  infer_instance

instance (g : Game n) (team : List (Fin n)) (flag : Int × Int) :
    Decidable (g.LiveOff team flag) := by
  unfold Game.LiveOff
  infer_instance

/-! ## Concrete games used to instantiate the statements -/

/-- The 3x3 game of the end-to-end scenario with the two units at given
coordinates and elimination flags: Red's flag at `(0,0)`, Blue's flag at `(2,2)`,
Red's fast expert 0 and Blue's slow novice 1; the human plays Red.  The board
lists each unit in the cell at its coordinates (coordinates within the board). -/
def duelAt (rx ry bx by_ : Int) (redOut blueOut : Bool) : Game 2 :=
  let heap : Fin 2 → Player :=
    ![{ (Player.new 0 'R' true true 0 0).setPosition rx ry with eliminated := redOut },
      { (Player.new 1 'B' false false 2 2).setPosition bx by_ with eliminated := blueOut }]
  let empty : List (List (Cell 2)) := List.replicate 3 (List.replicate 3 ⟨[]⟩)
  let b1 := setCell empty rx ry (((cellAt empty rx ry).getD ⟨[]⟩).addPlayer heap 0)
  let b2 := setCell b1 bx by_ (((cellAt b1 bx by_).getD ⟨[]⟩).addPlayer heap 1)
  { world := { players := heap, board := b2 },
    redTeam := [0], blueTeam := [1], userTeam := 'R', turns := 0, gameEnded := false,
    winner := "", redFlag := (0, 0), blueFlag := (2, 2),
    redTeamMoved := false, blueTeamMoved := false }

/-- The initial state of the end-to-end scenario: each unit on its own flag. -/
def duel : Game 2 := duelAt 0 0 2 2 false false

/-- A one-row game of five squares with Red's flag at `(0,0)` and Blue's flag at
`(4,0)`, one slow novice per team at given columns; the human plays Red. -/
def rowGame (redX blueX : Int) : Game 2 :=
  let heap : Fin 2 → Player :=
    ![(Player.new 0 'R' false false redX 0).setPosition redX 0,
      (Player.new 1 'B' false false blueX 0).setPosition blueX 0]
  let empty : List (List (Cell 2)) := [List.replicate 5 ⟨[]⟩]
  let b1 := setCell empty redX 0 (((cellAt empty redX 0).getD ⟨[]⟩).addPlayer heap 0)
  let b2 := setCell b1 blueX 0 (((cellAt b1 blueX 0).getD ⟨[]⟩).addPlayer heap 1)
  { world := { players := heap, board := b2 },
    redTeam := [0], blueTeam := [1], userTeam := 'R', turns := 0, gameEnded := false,
    winner := "", redFlag := (0, 0), blueFlag := (4, 0),
    redTeamMoved := false, blueTeamMoved := false }

/-- Both units away from every flag and out of each other's range. -/
def standoff : Game 2 := rowGame 1 3

/-- Blue's novice stands next to Red's unit, which bars its way to Red's flag. -/
def faceoff : Game 2 := rowGame 1 2

/-- A one-row game of six squares, Red's flag at `(0,0)` and Blue's flag at
`(5,0)`; the program plays Blue with the fast novice 1 on `(1,0)`, next to Red's
flag, and the slow novice 2 on `(2,0)`; Red's slow novice 0 stands on `(4,0)`. -/
def pinned : Game 3 :=
  { world :=
      { players := ![(Player.new 0 'R' false false 4 0).setPosition 4 0,
                     (Player.new 1 'B' true false 1 0).setPosition 1 0,
                     (Player.new 2 'B' false false 2 0).setPosition 2 0],
        board := [[⟨[]⟩, ⟨[1]⟩, ⟨[2]⟩, ⟨[]⟩, ⟨[0]⟩, ⟨[]⟩]] },
    redTeam := [0], blueTeam := [1, 2], userTeam := 'R', turns := 0, gameEnded := false,
    winner := "", redFlag := (0, 0), blueFlag := (5, 0),
    redTeamMoved := false, blueTeamMoved := false }

/-- The world of `duel` after the action sequence of the end-to-end scenario,
"Red's unit moves right 2, then down 2" (a rejected move leaves the world it
returns; an undefined one would leave the world as it was). -/
def duelScenario : World 2 :=
  let w1 := ((Player.move duel.world 0 RIGHT 2 0).map Prod.snd).getD duel.world
  ((Player.move w1 0 DOWN 2 0).map Prod.snd).getD w1

/-- A one-row board of three squares: Red's fast expert 0 at `(0,0)`, Blue's
eliminated novice 1 on `(1,0)` and an empty square `(2,0)`. -/
def graveyard : World 2 :=
  { players := ![(Player.new 0 'R' true true 0 0).setPosition 0 0,
                 { (Player.new 1 'B' false false 1 0).setPosition 1 0 with
                   eliminated := true, eliminationReason := "Hit in torso" }],
    board := [[⟨[0]⟩, ⟨[1]⟩, ⟨[]⟩]] }

/-! ## Predicates used by the statements about turns -/

/-- The world `w'` differs from `w` at most in `moved` flags of players: same
board, and every player record equal once its `moved` flag is disregarded. -/
def World.SameButMoved (w w' : World n) : Prop :=
  w'.board = w.board ∧
    ∀ u : Fin n, { w'.players u with moved := false } = { w.players u with moved := false }

/-- The turn state `t'` comes from `t` by the resolver calls `new`, and `b` tells
whether the last of them succeeded: if not, every call of `new` failed and the
world changed at most in `moved` flags; if so, `new` is a list of failed calls
followed by one successful call. -/
def Turn.Step (t t' : Turn n) (b : Bool) (new : List (Call n)) : Prop :=
  t'.calls = t.calls ++ new ∧
  (b = false → (∀ c ∈ new, c.success = false) ∧ t.world.SameButMoved t'.world) ∧
  (b = true → ∃ init c, new = init ++ [c] ∧ c.success = true ∧
    ∀ c' ∈ init, c'.success = false)

/-- The call is a call of `Player::move`. -/
def Call.isMove : Call n → Bool
  | .attack _ _ _ _ => false
  | .move _ _ _ _ => true

/-- A generator whose every value is `0.9`: any shot of a novice misses. -/
def alwaysMiss : Nat → ℚ := fun _ => 9 / 10

/-- A generator yielding `0.9` first and `0.5` afterwards: a novice misses its
first shot and scores an extremity hit with the next. -/
def missThenHit : Nat → ℚ := fun k => if k = 0 then 9 / 10 else 1 / 2

/-- The result of the program's turn in `faceoff` when the first shot misses and
the second hits. -/
def faceoffSecondShot : TurnResult 2 :=
  (faceoff.programTurn missThenHit).getD { game := faceoff, actionTaken := false, calls := [] }

/-- The human's entries of the first iteration in `standoff`: select unit 0, move,
arrow up, one square (a move that leaves the board); a further entry follows. -/
def upThenRight : List (UserInput 2) :=
  [UserInput.act 0 'm' UP 1, UserInput.act 0 'm' RIGHT 1]

/-- The state of the loop of `Game::play` in `standoff` after two iterations, the
human's rejected move and the program's turn. -/
def standoffPlayed : Game 2 × Char :=
  (Game.playLoop [{ keys := upThenRight, rng := alwaysMiss }, { keys := [], rng := alwaysMiss }]
    standoff 'R').getD (standoff, 'R')

/-- The result of the human's turn in `standoff` on the entries `upThenRight`. -/
def standoffUserTurn : TurnResult 2 × List (UserInput 2) :=
  (standoff.userTurn alwaysMiss upThenRight).getD
    ({ game := standoff, actionTaken := false, calls := [] }, [])

/-- The game `duel` after Red's unit acted: its `moved` flag is set. -/
def duelActed : Game 2 := { duel with world := duel.world.setMoved 0 }

/-! ## Invariants and the worlds a game can reach -/

/-- The extremity-hit invariant of a world: every unit's counter
`hitsToExtremities` lies between 0 and 3, and a unit whose counter is 3 is
eliminated. -/
def World.HitsInvariant (w : World n) : Prop :=
  ∀ u : Fin n, 0 ≤ (w.players u).hitsToExtremities ∧ (w.players u).hitsToExtremities ≤ 3 ∧
    ((w.players u).hitsToExtremities = 3 → (w.players u).eliminated = true)

instance (w : World n) : Decidable w.HitsInvariant := by
  unfold World.HitsInvariant
  infer_instance

/-- The cell-capacity invariant of a world: every cell of the board lists at most
4 units. -/
def World.CellsWithinCap (w : World n) : Prop :=
  ∀ (x y : Int) (c : Cell n), cellAt w.board x y = some c → c.players.length ≤ 4

/-- The worlds a game reaches from `w0`: through calls of `Player::move` with a
requested distance of at least 1 or the automatic sentinel (the human's prompt
yields 1 or 2, the opponent strategy passes the movement capacity), through
calls of `Player::attack`, and through changes of `moved` flags
(`resetPlayersMovedFlag`). -/
inductive World.Reachable (w0 : World n) : World n → Prop where
  | start : World.Reachable w0 w0
  | move (w w' : World n) (self : Fin n) (direction squares : Int) (roll : ℚ)
      (out : MoveOutcome) : World.Reachable w0 w → (1 ≤ squares ∨ squares = -1) →
      Player.move w self direction squares roll = some (out, w') → World.Reachable w0 w'
  | attack (w w' : World n) (self : Fin n) (direction squares : Int) (rangeRoll hitRoll : ℚ)
      (out : AttackOutcome) : World.Reachable w0 w →
      Player.attack w self direction squares rangeRoll hitRoll = some (out, w') →
      World.Reachable w0 w'
  | flags (w w' : World n) : World.Reachable w0 w → w.SameButMoved w' → World.Reachable w0 w'

/-- The state `skirmish` after player 0 shot to the right at range 2 with the hit
roll `0.7`, an extremity hit on player 1. -/
def skirmishThirdHit : World 3 :=
  ((Player.attack skirmish 0 RIGHT 2 0 (7 / 10)).map Prod.snd).getD skirmish

/-- A one-unit-per-team game at its start: the rosters are the single units `r`
(Red) and `b` (Blue), both non-eliminated, each standing on its own flag, and the
two flag squares differ. -/
def Game.OneOnOne (g : Game n) (r b : Fin n) : Prop :=
  g.redTeam = [r] ∧ g.blueTeam = [b] ∧ r ≠ b ∧ g.redFlag ≠ g.blueFlag ∧
  (g.world.players r).eliminated = false ∧ (g.world.players b).eliminated = false ∧
  (g.world.players r).x = g.redFlag.1 ∧ (g.world.players r).y = g.redFlag.2 ∧
  (g.world.players b).x = g.blueFlag.1 ∧ (g.world.players b).y = g.blueFlag.2

/-- The world of `duel` after Red's unit moved one square to the right. -/
def duelFirstMove : World 2 :=
  ((Player.move duel.world 0 RIGHT 1 0).map Prod.snd).getD duel.world

/-! ## Predicates used by the statements about the opponent strategy -/

/-- The flag of the human's team: the enemy flag for the team the program plays. -/
def Game.enemyFlag (g : Game n) : Int × Int :=
  if g.userTeam = 'R' then g.redFlag else g.blueFlag

/-- The resolver call `c`, made in the world `w`, returns the outcome that `c`
records and leaves the world `w'`. -/
def Call.Runs (w : World n) (c : Call n) (w' : World n) : Prop :=
  match c with
  | .attack u d r out =>
    ∃ rangeRoll hitRoll : ℚ, Player.attack w u d r rangeRoll hitRoll = some (out, w')
  | .move u d s out => ∃ roll : ℚ, Player.move w u d s roll = some (out, w')

/-- The arguments of `c` are those `Game::programTurn` passes for the unit in the
world `w`: an attack in one of the four directions with a range from 1 to the
unit's `range`, or a move of `maxMovement` squares in one of the directions of
`moveDirections` computed from the unit's position. -/
def Call.Planned (targetFlag : Int × Int) (w : World n) (c : Call n) : Prop :=
  match c with
  | .attack u d r _ => d ∈ [UP, DOWN, LEFT, RIGHT] ∧ 1 ≤ r ∧ r ≤ (w.players u).range
  | .move u d s _ =>
    d ∈ Game.moveDirections (targetFlag.1 - (w.players u).x) (targetFlag.2 - (w.players u).y) ∧
      s = (w.players u).maxMovement

/-- The calls of the list are made one after the other, the first in the world
`w` and each next one in the world the previous one left, the last leaving `w'`;
each has the arguments the strategy passes. -/
def World.Plays (targetFlag : Int × Int) : World n → List (Call n) → World n → Prop
  | w, [], w' => w' = w
  | w, c :: cs, w' =>
    c.Planned targetFlag w ∧ ∃ w1, c.Runs w w1 ∧ World.Plays targetFlag w1 cs w'

/-- The result of the program's turn in `pinned` when every shot misses. -/
def pinnedTurn : TurnResult 3 :=
  (pinned.programTurn alwaysMiss).getD { game := pinned, actionTaken := false, calls := [] }

/-- The direction toward the flag along one axis, in the words of the
specification: none when the delta on the axis is 0; on the horizontal axis
RIGHT for a positive delta and LEFT for a negative one, on the vertical axis
DOWN for a positive delta and UP for a negative one. -/
def Game.specTowardFlag (horizontal : Bool) (delta : Int) : Option Int :=
  if delta = 0 then none
  else if horizontal then some (if 0 < delta then RIGHT else LEFT)
  else some (if 0 < delta then DOWN else UP)

/-- The order of the move directions in the words of the specification: the
direction along the axis with the greater absolute delta first (the horizontal
axis on a tie), then the direction along the other axis; an axis whose delta is 0
gives no direction. -/
def Game.specMoveDirections (deltaX deltaY : Int) : List Int :=
  if deltaX.natAbs < deltaY.natAbs then
    (Game.specTowardFlag false deltaY).toList ++ (Game.specTowardFlag true deltaX).toList
  else (Game.specTowardFlag true deltaX).toList ++ (Game.specTowardFlag false deltaY).toList

/-- The turn state at the start of the program's turn in `standoff`. -/
def standoffStart : Turn 2 := { world := standoff.world, drawn := 0, calls := [] }

/-- The turn state in `standoff` after the first attack scan of Blue's unit 1,
every shot missing. -/
def standoffScanned : Turn 2 :=
  ((Game.scanDirections alwaysMiss 1 [UP, DOWN, LEFT, RIGHT] standoffStart).map Prod.snd).getD
    standoffStart

/-- The result of the loop body of `Game::programTurn` for Blue's unit 1 in
`standoff`, aiming at Red's flag `(0,0)`. -/
def standoffUnit : Bool × Turn 2 :=
  (Game.programUnit alwaysMiss (0, 0) 1 standoffStart).getD (false, standoffStart)

/-- The unit `u` is fast with capacity 2, stands on the board, and is at
Manhattan distance 1 from the flag, which lies at the corner `(0,0)` or at the
corner `(columns - 1, rows - 1)` of the board (`columns` being the length of row
0, as in the bounds test of `Player::move`). -/
def World.NextToCornerFlag (w : World n) (flag : Int × Int) (u : Fin n) : Prop :=
  (flag = (0, 0) ∨
    flag = (((w.board.headD []).length : Int) - 1, (w.board.length : Int) - 1)) ∧
  (w.players u).maxMovement = 2 ∧
  outOfBounds w.board (w.players u).x (w.players u).y = false ∧
  ((w.players u).x - flag.1).natAbs + ((w.players u).y - flag.2).natAbs = 1

/-- The worlds of a game in progress, as far as the resolvers' vector accesses go:
the board is rectangular, every unit stands on the board, and every unit has a
movement capacity of at least 1. -/
def World.WellPlaced (w : World n) : Prop :=
  RectBoard w.board ∧
  ∀ u : Fin n, outOfBounds w.board (w.players u).x (w.players u).y = false ∧
    1 ≤ (w.players u).maxMovement

instance (w : World n) : Decidable w.WellPlaced := by
  unfold World.WellPlaced
  infer_instance

/-! ## Basic facts -/

theorem setMoved_board (w : World n) (self : Fin n) : (w.setMoved self).board = w.board := rfl

theorem setMoved_players (w : World n) (self q : Fin n) :
    (w.setMoved self).players q =
      if q = self then { w.players q with moved := true } else w.players q := by
  unfold World.setMoved
  by_cases h : q = self
  · subst h; simp
  · simp [h]

theorem setMoved_x (w : World n) (self q : Fin n) :
    ((w.setMoved self).players q).x = (w.players q).x := by
  rw [setMoved_players]; split <;> rfl

theorem setMoved_y (w : World n) (self q : Fin n) :
    ((w.setMoved self).players q).y = (w.players q).y := by
  rw [setMoved_players]; split <;> rfl

theorem setMoved_team (w : World n) (self q : Fin n) :
    ((w.setMoved self).players q).team = (w.players q).team := by
  rw [setMoved_players]; split <;> rfl

theorem setMoved_id (w : World n) (self q : Fin n) :
    ((w.setMoved self).players q).id = (w.players q).id := by
  rw [setMoved_players]; split <;> rfl

theorem setMoved_eliminated (w : World n) (self q : Fin n) :
    ((w.setMoved self).players q).eliminated = (w.players q).eliminated := by
  rw [setMoved_players]; split <;> rfl

theorem setMoved_eliminationReason (w : World n) (self q : Fin n) :
    ((w.setMoved self).players q).eliminationReason = (w.players q).eliminationReason := by
  rw [setMoved_players]; split <;> rfl

theorem setMoved_hits (w : World n) (self q : Fin n) :
    ((w.setMoved self).players q).hitsToExtremities = (w.players q).hitsToExtremities := by
  rw [setMoved_players]; split <;> rfl

theorem setMoved_maxMovement (w : World n) (self q : Fin n) :
    ((w.setMoved self).players q).maxMovement = (w.players q).maxMovement := by
  rw [setMoved_players]; split <;> rfl

theorem setMoved_fast (w : World n) (self q : Fin n) :
    ((w.setMoved self).players q).fast = (w.players q).fast := by
  rw [setMoved_players]; split <;> rfl

theorem setMoved_expert (w : World n) (self q : Fin n) :
    ((w.setMoved self).players q).expert = (w.players q).expert := by
  rw [setMoved_players]; split <;> rfl

theorem setMoved_head (w : World n) (self q : Fin n) :
    ((w.setMoved self).players q).headHitChance = (w.players q).headHitChance := by
  rw [setMoved_players]; split <;> rfl

theorem setMoved_torso (w : World n) (self q : Fin n) :
    ((w.setMoved self).players q).torsoHitChance = (w.players q).torsoHitChance := by
  rw [setMoved_players]; split <;> rfl

theorem setMoved_extremity (w : World n) (self q : Fin n) :
    ((w.setMoved self).players q).extremityHitChance = (w.players q).extremityHitChance := by
  rw [setMoved_players]; split <;> rfl

theorem directionDelta_of_mem (direction dx dy : Int)
    (hdir : (direction, dx, dy) ∈
      [(UP, (0 : Int), (-1 : Int)), (DOWN, 0, 1), (LEFT, -1, 0), (RIGHT, 1, 0)]) :
    directionDelta direction = some (dx, dy) := by
  simp only [List.mem_cons, Prod.mk.injEq, List.mem_singleton, List.not_mem_nil, or_false] at hdir
  rcases hdir with ⟨rfl, rfl, rfl⟩ | ⟨rfl, rfl, rfl⟩ | ⟨rfl, rfl, rfl⟩ | ⟨rfl, rfl, rfl⟩ <;> rfl

/-! ## Board access -/

theorem cellAt_eq_some_iff (b : List (List (Cell n))) (x y : Int) (c : Cell n) :
    cellAt b x y = some c ↔
      0 ≤ x ∧ 0 ≤ y ∧ ∃ row, b[y.toNat]? = some row ∧ row[x.toNat]? = some c := by
  unfold cellAt
  constructor
  · intro h
    by_cases hneg : x < 0 ∨ y < 0
    · rw [if_pos hneg] at h; cases h
    · rw [if_neg hneg] at h
      push_neg at hneg
      cases hr : b[y.toNat]? with
      | none => rw [hr] at h; cases h
      | some row => rw [hr] at h; exact ⟨hneg.1, hneg.2, row, rfl, h⟩
  · rintro ⟨hx, hy, row, hr, hc⟩
    rw [if_neg (by omega), hr]
    exact hc

theorem cellAt_setCell_self (b : List (List (Cell n))) (x y : Int) (c c' : Cell n)
    (h : cellAt b x y = some c) : cellAt (setCell b x y c') x y = some c' := by
  obtain ⟨hx, hy, row, hr, hc⟩ := (cellAt_eq_some_iff b x y c).1 h
  refine (cellAt_eq_some_iff _ x y c').2 ⟨hx, hy, row.set x.toNat c', ?_, ?_⟩
  · obtain ⟨hlt, -⟩ := List.getElem?_eq_some.1 hr
    simp [setCell, hr, List.getElem?_set, hlt]
  · obtain ⟨hlt, -⟩ := List.getElem?_eq_some.1 hc
    simp [List.getElem?_set, hlt]

theorem cellAt_setCell_ne (b : List (List (Cell n))) (x y x' y' : Int) (c c' : Cell n)
    (h : cellAt b x y = some c) (hne : ¬ (x' = x ∧ y' = y)) :
    cellAt (setCell b x y c') x' y' = cellAt b x' y' := by
  obtain ⟨hx, hy, row, hr, hc⟩ := (cellAt_eq_some_iff b x y c).1 h
  unfold cellAt
  by_cases hneg : x' < 0 ∨ y' < 0
  · rw [if_pos hneg, if_pos hneg]
  · rw [if_neg hneg, if_neg hneg]
    push_neg at hneg
    by_cases hyy : y.toNat = y'.toNat
    · have hy' : y' = y := by omega
      subst hy'
      have hx' : x.toNat ≠ x'.toNat := by
        intro hxx
        exact hne ⟨by omega, rfl⟩
      obtain ⟨hlt, -⟩ := List.getElem?_eq_some.1 hr
      simp [setCell, hr, List.getElem?_set, hlt, hx']
    · simp [setCell, List.getElem?_set, hyy]

theorem outOfBounds_eq_false_iff (b : List (List (Cell n))) (x y : Int) :
    outOfBounds b x y = false ↔
      0 ≤ x ∧ 0 ≤ y ∧ y < (b.length : Int) ∧ x < ((b.headD []).length : Int) := by
  unfold outOfBounds
  simp only [Bool.or_eq_false_iff, decide_eq_false_iff_not, not_lt, not_le]
  tauto

theorem cellAt_of_inBounds (b : List (List (Cell n))) (hrect : RectBoard b) (x y : Int)
    (h : outOfBounds b x y = false) : ∃ c, cellAt b x y = some c := by
  obtain ⟨hx, hy, hyl, hxl⟩ := (outOfBounds_eq_false_iff b x y).1 h
  have hyn : y.toNat < b.length := by omega
  have hrow : (b[y.toNat]).length = (b.headD []).length := hrect _ (List.getElem_mem hyn)
  have hxn : x.toNat < (b[y.toNat]).length := by omega
  exact ⟨(b[y.toNat])[x.toNat], (cellAt_eq_some_iff b x y _).2
    ⟨hx, hy, b[y.toNat], List.getElem?_eq_getElem hyn, List.getElem?_eq_getElem hxn⟩⟩

theorem inBounds_of_cellAt (b : List (List (Cell n))) (hrect : RectBoard b) (x y : Int)
    (c : Cell n) (h : cellAt b x y = some c) : outOfBounds b x y = false := by
  obtain ⟨hx, hy, row, hr, hc⟩ := (cellAt_eq_some_iff b x y c).1 h
  obtain ⟨hyn, hrow⟩ := List.getElem?_eq_some.1 hr
  obtain ⟨hxn, -⟩ := List.getElem?_eq_some.1 hc
  have hlen : row.length = (b.headD []).length := hrect row (hrow ▸ List.getElem_mem hyn)
  exact (outOfBounds_eq_false_iff b x y).2 ⟨hx, hy, by omega, by omega⟩

theorem mem_addPlayer (heap : Fin n → Player) (c : Cell n) (p q : Fin n) :
    q ∈ (c.addPlayer heap p).players ↔ q ∈ c.players ∨ q = p := by
  simp [Cell.addPlayer, List.mem_insertionSort]

theorem mem_removePlayer (c : Cell n) (p q : Fin n) :
    q ∈ (c.removePlayer p).players ↔ q ∈ c.players ∧ q ≠ p := by
  simp [Cell.removePlayer, List.mem_filter]

/-! ## The path loop of Player::move -/

theorem any_otherTeam_eq_false (w : World n) (self : Fin n) (l : List (Fin n)) :
    l.any (fun p => (w.players p).team != (w.players self).team) = false ↔
      ∀ q ∈ l, (w.players q).team = (w.players self).team := by
  simp [List.any_eq_false]

/-- The path loop of `Player::move` never reports a completed move. -/
theorem moveLoop_not_success (w : World n) (self : Fin n) (dx dy squares : Int) :
    ∀ (fuel : Nat) (i : Int) (r : MoveOutcome),
      Player.moveLoop w self dx dy squares fuel i = some (some r) → r.isSuccess = false := by
  intro fuel
  induction fuel with
  | zero => intro i r h; simp [Player.moveLoop] at h
  | succ k ih =>
    intro i r h
    unfold Player.moveLoop at h
    simp only at h
    split at h
    · cases h; rfl
    · split at h
      · cases h
      · split at h
        · cases h; rfl
        · split at h
          · cases h; rfl
          · exact ih _ _ h

/-- On a path that stays on the board and meets no unit of the other team, the
loop is decided by the final cell alone. -/
theorem moveLoop_clear (w : World n) (self : Fin n) (dx dy squares : Int) (fin : Cell n)
    (hfin : cellAt w.board ((w.players self).x + dx * squares)
      ((w.players self).y + dy * squares) = some fin) :
    ∀ (fuel : Nat) (i : Int), i + fuel = squares + 1 →
      (∀ j : Int, i ≤ j → j ≤ squares →
        outOfBounds w.board ((w.players self).x + dx * j) ((w.players self).y + dy * j) = false ∧
        ∃ c, cellAt w.board ((w.players self).x + dx * j) ((w.players self).y + dy * j) = some c ∧
          ∀ q ∈ c.players, (w.players q).team = (w.players self).team) →
      Player.moveLoop w self dx dy squares fuel i =
        if fuel = 0 then some none
        else if 4 ≤ fin.players.length then some (some MoveOutcome.destinationFull)
        else some none := by
  intro fuel
  induction fuel with
  | zero => intro i _ _; simp [Player.moveLoop]
  | succ k ih =>
    intro i hi hpath
    obtain ⟨hin, c, hc, hteam⟩ := hpath i (le_refl i) (by omega)
    have hany := (any_otherTeam_eq_false w self c.players).2 hteam
    unfold Player.moveLoop
    simp only [hin, hc, Cell.getPlayers, hany, Bool.false_eq_true, if_false]
    by_cases hk : k = 0
    · subst hk
      have his : i = squares := by omega
      subst his
      rw [hc] at hfin
      cases hfin
      by_cases hfull : 4 ≤ fin.players.length
      · simp [hfull]
      · simp [hfull, Player.moveLoop]
    · have his : i ≠ squares := by omega
      rw [if_neg (fun h => his h.1)]
      rw [ih (i + 1) (by push_cast at hi ⊢; omega) (fun j hj hjs => hpath j (by omega) hjs)]
      simp [hk]

/-- When the first `k` cells from `i` on are on the board and the next one holds a
unit of the other team, the loop reports the blocked-by-opponent rejection. -/
theorem moveLoop_blocked (w : World n) (self : Fin n) (dx dy squares : Int) :
    ∀ (k fuel : Nat) (i : Int), k < fuel → i + k ≤ squares →
      (∀ j : Int, i ≤ j → j ≤ i + k →
        outOfBounds w.board ((w.players self).x + dx * j) ((w.players self).y + dy * j) = false ∧
        ∃ c, cellAt w.board ((w.players self).x + dx * j) ((w.players self).y + dy * j) = some c) →
      (∃ c, cellAt w.board ((w.players self).x + dx * (i + k))
          ((w.players self).y + dy * (i + k)) = some c ∧
        ∃ q ∈ c.players, (w.players q).team ≠ (w.players self).team) →
      Player.moveLoop w self dx dy squares fuel i = some (some MoveOutcome.blockedByOpponent) := by
  intro k
  induction k with
  | zero =>
    intro fuel i hk _ hpath hopp
    obtain ⟨fuel, rfl⟩ : ∃ f, fuel = f + 1 := ⟨fuel - 1, by omega⟩
    obtain ⟨hin, -⟩ := hpath i (le_refl i) (by omega)
    obtain ⟨c, hc, q, hq, hqt⟩ := hopp
    simp only [Nat.cast_zero, add_zero] at hc
    have hany : c.players.any (fun p => (w.players p).team != (w.players self).team) = true :=
      List.any_eq_true.2 ⟨q, hq, by simpa using hqt⟩
    unfold Player.moveLoop
    simp [hin, hc, Cell.getPlayers, hany]
  | succ k ih =>
    intro fuel i hk hik hpath hopp
    obtain ⟨fuel, rfl⟩ : ∃ f, fuel = f + 1 := ⟨fuel - 1, by omega⟩
    obtain ⟨hin, c, hc⟩ := hpath i (le_refl i) (by omega)
    unfold Player.moveLoop
    simp only [hin, hc, Cell.getPlayers, Bool.false_eq_true, if_false]
    by_cases hany : c.players.any (fun p => (w.players p).team != (w.players self).team) = true
    · simp [hany]
    · have his : i ≠ squares := by push_cast at hik; omega
      rw [if_neg hany, if_neg (fun h => his h.1)]
      refine ih fuel (i + 1) (by omega) (by push_cast at hik ⊢; omega)
        (fun j hj hjs => hpath j (by omega) (by push_cast at hjs ⊢; omega)) ?_
      have he : i + 1 + (k : Int) = i + ((k + 1 : Nat) : Int) := by push_cast; ring
      rw [he]
      exact hopp

/-! ## The relocation step and the unfolding of Player::move -/

theorem relocate_spec (w w' : World n) (self : Fin n) (dx dy squares : Int) (out : MoveOutcome)
    (h : Player.relocate w self dx dy squares = some (out, w')) :
    ∃ c0 c1,
      cellAt w.board (w.players self).x (w.players self).y = some c0 ∧
      cellAt (setCell w.board (w.players self).x (w.players self).y (c0.removePlayer self))
        ((w.players self).x + dx * squares) ((w.players self).y + dy * squares) = some c1 ∧
      out = MoveOutcome.moved (w.players self).id ((w.players self).x + dx * squares)
        ((w.players self).y + dy * squares) ∧
      w'.players = Function.update w.players self
        ((w.players self).setPosition ((w.players self).x + dx * squares)
          ((w.players self).y + dy * squares)) ∧
      w'.board = setCell
        (setCell w.board (w.players self).x (w.players self).y (c0.removePlayer self))
        ((w.players self).x + dx * squares) ((w.players self).y + dy * squares)
        (c1.addPlayer w'.players self) := by
  unfold Player.relocate at h
  simp only at h
  cases h0 : cellAt w.board (w.players self).x (w.players self).y with
  | none => rw [h0] at h; cases h
  | some c0 =>
    rw [h0] at h
    simp only [Player.setPosition] at h
    cases h1 : cellAt (setCell w.board (w.players self).x (w.players self).y
        (c0.removePlayer self)) ((w.players self).x + dx * squares)
        ((w.players self).y + dy * squares) with
    | none => rw [h1] at h; cases h
    | some c1 =>
      rw [h1] at h
      cases h
      exact ⟨c0, c1, rfl, h1, rfl, rfl, rfl⟩

/-- After the relocation step the cells of the board list the same units as
before, except that the mover is listed at its new coordinates and no longer at
its old ones. -/
theorem relocate_mem (w w' : World n) (self : Fin n) (dx dy squares : Int) (out : MoveOutcome)
    (h : Player.relocate w self dx dy squares = some (out, w')) (cx cy : Int) :
    (∀ c', cellAt w'.board cx cy = some c' → ∃ c, cellAt w.board cx cy = some c ∧
      ∀ q, q ∈ c'.players ↔
        (q = self ∧ cx = (w.players self).x + dx * squares ∧
            cy = (w.players self).y + dy * squares) ∨
          (q ∈ c.players ∧ (q = self → ¬ (cx = (w.players self).x ∧ cy = (w.players self).y)))) ∧
    ((∃ c, cellAt w.board cx cy = some c) → ∃ c', cellAt w'.board cx cy = some c') := by
  obtain ⟨c0, c1, h0, h1, -, -, hb⟩ := relocate_spec w w' self dx dy squares out h
  rw [hb]
  by_cases hdst : cx = (w.players self).x + dx * squares ∧ cy = (w.players self).y + dy * squares
  · obtain ⟨rfl, rfl⟩ := hdst
    rw [cellAt_setCell_self _ _ _ c1 _ h1]
    refine ⟨?_, fun _ => ⟨_, rfl⟩⟩
    intro c' hc'
    cases hc'
    by_cases hsrc : (w.players self).x + dx * squares = (w.players self).x ∧
        (w.players self).y + dy * squares = (w.players self).y
    · rw [hsrc.1, hsrc.2] at h1 ⊢
      rw [cellAt_setCell_self _ _ _ c0 _ h0] at h1
      cases h1
      refine ⟨c0, h0, fun q => ?_⟩
      rw [mem_addPlayer, mem_removePlayer]
      by_cases hq : q = self <;> simp [hq]
    · rw [cellAt_setCell_ne _ _ _ _ _ c0 _ h0 hsrc] at h1
      refine ⟨c1, h1, fun q => ?_⟩
      rw [mem_addPlayer]
      by_cases hq : q = self
      · simp [hq]
      · simp [hq]
  · rw [cellAt_setCell_ne _ _ _ _ _ c1 _ h1 hdst]
    by_cases hsrc : cx = (w.players self).x ∧ cy = (w.players self).y
    · obtain ⟨rfl, rfl⟩ := hsrc
      rw [cellAt_setCell_self _ _ _ c0 _ h0]
      refine ⟨?_, fun _ => ⟨_, rfl⟩⟩
      intro c' hc'
      cases hc'
      refine ⟨c0, h0, fun q => ?_⟩
      rw [mem_removePlayer]
      by_cases hq : q = self
      · subst hq
        constructor
        · rintro ⟨-, hne⟩
          exact absurd rfl hne
        · rintro (⟨-, hx, hy⟩ | ⟨-, hcontra⟩)
          · exact absurd ⟨hx, hy⟩ hdst
          · exact absurd ⟨rfl, rfl⟩ (hcontra rfl)
      · simp [hq]
    · rw [cellAt_setCell_ne _ _ _ _ _ c0 _ h0 hsrc]
      refine ⟨?_, fun hc => hc⟩
      intro c' hc'
      refine ⟨c', hc', fun q => ?_⟩
      by_cases hq : q = self
      · subst hq; simp [hdst, hsrc]
      · simp [hq]

theorem autoSquares_of_ne (p : Player) (squares : Int) (roll : ℚ) (h : squares ≠ -1) :
    p.autoSquares squares roll = squares := by
  simp [Player.autoSquares, h]

/-- Unfolding of `Player::move` for an explicit distance within capacity and a
valid direction: the result is decided by the path loop. -/
theorem move_eq_of_valid (w : World n) (self : Fin n) (direction dx dy d : Int) (roll : ℚ)
    (hdir : directionDelta direction = some (dx, dy)) (hd : d ≠ -1)
    (hcap : d ≤ (w.players self).maxMovement) :
    Player.move w self direction d roll =
      match Player.moveLoop (w.setMoved self) self dx dy d d.toNat 1 with
      | none => none
      | some (some r) => some (r, w.setMoved self)
      | some none => Player.relocate (w.setMoved self) self dx dy d := by
  unfold Player.move
  simp only [autoSquares_of_ne _ _ _ hd, setMoved_maxMovement, hdir]
  rw [if_neg (by omega)]

/-- A rejected `Player::move` returns the world it was called on, the acting
player's `moved` flag being set. -/
theorem move_rejected_world (w w' : World n) (self : Fin n) (direction squares : Int) (roll : ℚ)
    (out : MoveOutcome) (h : Player.move w self direction squares roll = some (out, w'))
    (hf : out.isSuccess = false) : w' = w.setMoved self := by
  unfold Player.move at h
  simp only at h
  by_cases hc : ((w.setMoved self).players self).autoSquares squares roll
      > ((w.setMoved self).players self).maxMovement
  · rw [if_pos hc] at h; cases h; rfl
  · rw [if_neg hc] at h
    cases hd : directionDelta direction with
    | none => rw [hd] at h; cases h; rfl
    | some d =>
      obtain ⟨dx, dy⟩ := d
      rw [hd] at h
      simp only at h
      cases hl : Player.moveLoop (w.setMoved self) self dx dy
          (((w.setMoved self).players self).autoSquares squares roll)
          (((w.setMoved self).players self).autoSquares squares roll).toNat 1 with
      | none => rw [hl] at h; cases h
      | some r =>
        rw [hl] at h
        cases r with
        | some r => cases h; rfl
        | none =>
          simp only [Player.relocate] at h
          split at h
          · cases h
          · split at h
            · cases h
            · cases h; simp [MoveOutcome.isSuccess] at hf

theorem skirmish_consistent : skirmish.Consistent := by
  intro q cx cy c hc
  obtain ⟨hx, hy, row, hr, hcell⟩ := (cellAt_eq_some_iff _ _ _ _).1 hc
  have hy0 : cy = 0 := by
    rcases hn : cy.toNat with _ | m
    · omega
    · rw [hn] at hr; simp [skirmish] at hr
  subst hy0
  simp [skirmish] at hr
  subst hr
  have hx4 : cx = 0 ∨ cx = 1 ∨ cx = 2 ∨ cx = 3 := by
    rcases hn : cx.toNat with _ | _ | _ | _ | m <;> rw [hn] at hcell <;> simp at hcell <;> omega
  rcases hx4 with rfl | rfl | rfl | rfl <;> simp at hcell <;> subst hcell <;>
    fin_cases q <;> decide

/-! ## Claims about Player::move -/

/-- C1: success postcondition of `Player::move`.  In a state where every unit is
listed in exactly the cell at its position, for an on-board unit, a direction
with its vector `(dx, dy)` (UP `(0,-1)`, DOWN `(0,1)`, LEFT `(-1,0)`, RIGHT
`(1,0)`) and a requested distance `d` with `1 ≤ d ≤` movement capacity: if the
move reports success, the unit's new position is `(x + dx*d, y + dy*d)`, the unit
is listed in the cell at that position and it is listed in no other cell. -/
theorem move_success_position (w w' : World n) (self : Fin n) (direction dx dy d : Int)
    (roll : ℚ) (out : MoveOutcome)
    (hcons : w.Consistent) (_hon : w.OnBoard self)
    (hdir : (direction, dx, dy) ∈
      [(UP, (0 : Int), (-1 : Int)), (DOWN, 0, 1), (LEFT, -1, 0), (RIGHT, 1, 0)])
    (hd1 : 1 ≤ d) (hcap : d ≤ (w.players self).maxMovement)
    (h : Player.move w self direction d roll = some (out, w'))
    (hs : out.isSuccess = true) :
    (w'.players self).x = (w.players self).x + dx * d ∧
    (w'.players self).y = (w.players self).y + dy * d ∧
    (∃ c, cellAt w'.board (w'.players self).x (w'.players self).y = some c ∧ self ∈ c.players) ∧
    (∀ (cx cy : Int) (c : Cell n), cellAt w'.board cx cy = some c → self ∈ c.players →
      cx = (w'.players self).x ∧ cy = (w'.players self).y) := by
  rw [move_eq_of_valid w self direction dx dy d roll (directionDelta_of_mem _ _ _ hdir)
    (by omega) hcap] at h
  cases hl : Player.moveLoop (w.setMoved self) self dx dy d d.toNat 1 with
  | none => rw [hl] at h; cases h
  | some r =>
    rw [hl] at h
    cases r with
    | some r =>
      cases h
      rw [moveLoop_not_success _ _ _ _ _ _ _ _ hl] at hs
      cases hs
    | none =>
      simp only at h
      obtain ⟨c0, c1, h0, h1, -, hp, hb⟩ := relocate_spec _ _ _ _ _ _ _ h
      have hx : (w'.players self).x = (w.players self).x + dx * d := by
        rw [hp]; simp [Player.setPosition, setMoved_x]
      have hy : (w'.players self).y = (w.players self).y + dy * d := by
        rw [hp]; simp [Player.setPosition, setMoved_y]
      refine ⟨hx, hy, ?_, ?_⟩
      · refine ⟨c1.addPlayer w'.players self, ?_, (mem_addPlayer _ _ _ _).2 (Or.inr rfl)⟩
        rw [hb, hx, hy]
        simp only [setMoved_x, setMoved_y] at h1 ⊢
        exact cellAt_setCell_self _ _ _ c1 _ h1
      · intro cx cy c hc hmem
        obtain ⟨cold, hcold, hiff⟩ := (relocate_mem _ _ _ _ _ _ _ h cx cy).1 c hc
        rcases (hiff self).1 hmem with ⟨-, h1x, h1y⟩ | ⟨hin, hnot⟩
        · simp only [setMoved_x, setMoved_y] at h1x h1y
          exact ⟨by rw [hx]; exact h1x, by rw [hy]; exact h1y⟩
        · exfalso
          have hpos := (hcons self cx cy cold hcold).1 hin
          apply hnot rfl
          simp only [setMoved_x, setMoved_y]
          exact ⟨hpos.1.symm, hpos.2.symm⟩

/-- Instance of C1: in `skirmish`, player 0 moves one square to the right and is
then listed at `(1,0)` only. -/
theorem move_success_position_witness :
    (skirmishMoved.players 0).x = 0 + 1 * 1 ∧
    (skirmishMoved.players 0).y = 0 + 0 * 1 ∧
    (∃ c, cellAt skirmishMoved.board (skirmishMoved.players 0).x (skirmishMoved.players 0).y
      = some c ∧ (0 : Fin 3) ∈ c.players) ∧
    (∀ (cx cy : Int) (c : Cell 3), cellAt skirmishMoved.board cx cy = some c →
      (0 : Fin 3) ∈ c.players →
      cx = (skirmishMoved.players 0).x ∧ cy = (skirmishMoved.players 0).y) :=
  move_success_position skirmish skirmishMoved 0 RIGHT 1 0 1 0 (MoveOutcome.moved 0 1 0)
    skirmish_consistent ⟨_, rfl⟩ (by decide) (by decide) (by decide) rfl rfl

/-- C2: a move blocked by an opponent.  For a unit that stands on the board (or is
still unplaced at `(-1,-1)`), a direction with its vector and a distance `d` with
`1 ≤ d ≤` movement capacity: if the cell at some distance `k` in `1..d` along
the path is on the board and lists a unit of the other team (the code does not
look at that unit's elimination flag, so a non-eliminated one in particular),
the move fails with the text "Cannot move into or through a cell occupied by
opponent players." and no cell and no position changes. -/
theorem move_blocked_by_opponent (w : World n) (self q : Fin n) (direction dx dy d k : Int)
    (roll : ℚ) (c : Cell n)
    (hrect : RectBoard w.board)
    (hpos : w.OnBoard self ∨ ((w.players self).x = -1 ∧ (w.players self).y = -1))
    (hdir : (direction, dx, dy) ∈
      [(UP, (0 : Int), (-1 : Int)), (DOWN, 0, 1), (LEFT, -1, 0), (RIGHT, 1, 0)])
    (hd1 : 1 ≤ d) (hcap : d ≤ (w.players self).maxMovement)
    (hk1 : 1 ≤ k) (hkd : k ≤ d)
    (hc : cellAt w.board ((w.players self).x + dx * k) ((w.players self).y + dy * k) = some c)
    (hq : q ∈ c.players) (hteam : (w.players q).team ≠ (w.players self).team)
    (_hlive : (w.players q).eliminated = false) :
    ∃ out w', Player.move w self direction d roll = some (out, w') ∧
      out = MoveOutcome.blockedByOpponent ∧
      out.message = "Cannot move into or through a cell occupied by opponent players." ∧
      w'.board = w.board ∧
      ∀ u : Fin n, (w'.players u).x = (w.players u).x ∧ (w'.players u).y = (w.players u).y := by
  have hdelta := directionDelta_of_mem _ _ _ hdir
  have hkin := (outOfBounds_eq_false_iff _ _ _).1 (inBounds_of_cellAt _ hrect _ _ _ hc)
  have hself : outOfBounds w.board (w.players self).x (w.players self).y = false := by
    rcases hpos with ⟨c0, hc0⟩ | ⟨hx, hy⟩
    · exact inBounds_of_cellAt _ hrect _ _ _ hc0
    · exfalso
      simp only [List.mem_cons, Prod.mk.injEq, List.mem_singleton, List.not_mem_nil,
        or_false] at hdir
      rcases hdir with ⟨-, rfl, rfl⟩ | ⟨-, rfl, rfl⟩ | ⟨-, rfl, rfl⟩ | ⟨-, rfl, rfl⟩ <;> omega
  have hsin := (outOfBounds_eq_false_iff _ _ _).1 hself
  have hpath : ∀ j : Int, 1 ≤ j → j ≤ k →
      outOfBounds w.board ((w.players self).x + dx * j) ((w.players self).y + dy * j) = false := by
    intro j hj1 hjk
    rw [outOfBounds_eq_false_iff]
    simp only [List.mem_cons, Prod.mk.injEq, List.mem_singleton, List.not_mem_nil,
      or_false] at hdir
    rcases hdir with ⟨-, rfl, rfl⟩ | ⟨-, rfl, rfl⟩ | ⟨-, rfl, rfl⟩ | ⟨-, rfl, rfl⟩ <;>
      refine ⟨?_, ?_, ?_, ?_⟩ <;> omega
  have hloop : Player.moveLoop (w.setMoved self) self dx dy d d.toNat 1 =
      some (some MoveOutcome.blockedByOpponent) := by
    have hkk : (1 : Int) + ((k - 1).toNat : Int) = k := by omega
    apply moveLoop_blocked (w.setMoved self) self dx dy d (k - 1).toNat d.toNat 1
      (by omega) (by omega)
    · intro j hj1 hjk
      simp only [setMoved_x, setMoved_y, setMoved_board]
      have hin := hpath j hj1 (by omega)
      exact ⟨hin, cellAt_of_inBounds _ hrect _ _ hin⟩
    · simp only [setMoved_x, setMoved_y, setMoved_board, setMoved_team, hkk]
      exact ⟨c, hc, q, hq, hteam⟩
  refine ⟨MoveOutcome.blockedByOpponent, w.setMoved self, ?_, rfl, rfl, rfl,
    fun u => ⟨setMoved_x w self u, setMoved_y w self u⟩⟩
  rw [move_eq_of_valid w self direction dx dy d roll hdelta (by omega) hcap, hloop]

/-- Instance of C2: in `skirmish`, player 0 asks for two squares to the right and
is blocked by Blue's player 1 on the final square. -/
theorem move_blocked_by_opponent_witness :
    ∃ out w', Player.move skirmish 0 RIGHT 2 0 = some (out, w') ∧
      out = MoveOutcome.blockedByOpponent ∧
      out.message = "Cannot move into or through a cell occupied by opponent players." ∧
      w'.board = skirmish.board ∧
      ∀ u : Fin 3, (w'.players u).x = (skirmish.players u).x ∧
        (w'.players u).y = (skirmish.players u).y :=
  move_blocked_by_opponent skirmish 0 1 RIGHT 1 0 2 2 0 ⟨[1, 2]⟩ (by decide)
    (Or.inl ⟨_, rfl⟩) (by decide) (by decide) (by decide) (by decide) (by decide) rfl
    (by decide) (by decide) rfl

/-- C3: the stacking cap of `Player::move`.  For a move within capacity whose
path cells (distance `1..d`) are all on the board and list no unit of the other
team, the call returns, and it is rejected with the destination-full reason if
and only if the final cell already lists 4 or more units; otherwise the move is
carried out.  Nothing is assumed about the number of units in the intermediate
cells, so they never cause the destination-full rejection. -/
theorem move_destination_full_iff (w : World n) (self : Fin n) (direction dx dy d : Int)
    (roll : ℚ) (fin : Cell n)
    (hrect : RectBoard w.board) (hon : w.OnBoard self)
    (hdir : (direction, dx, dy) ∈
      [(UP, (0 : Int), (-1 : Int)), (DOWN, 0, 1), (LEFT, -1, 0), (RIGHT, 1, 0)])
    (hd1 : 1 ≤ d) (hcap : d ≤ (w.players self).maxMovement)
    (hpath : ∀ j : Int, 1 ≤ j → j ≤ d →
      ∃ c, cellAt w.board ((w.players self).x + dx * j) ((w.players self).y + dy * j) = some c ∧
        ∀ q ∈ c.players, (w.players q).team = (w.players self).team)
    (hfin : cellAt w.board ((w.players self).x + dx * d) ((w.players self).y + dy * d)
      = some fin) :
    ∃ out w', Player.move w self direction d roll = some (out, w') ∧
      (out = MoveOutcome.destinationFull ↔ 4 ≤ fin.players.length) ∧
      (out.isSuccess = true ↔ fin.players.length < 4) := by
  have hdelta := directionDelta_of_mem _ _ _ hdir
  have hloop := moveLoop_clear (w.setMoved self) self dx dy d fin
    (by simpa only [setMoved_x, setMoved_y, setMoved_board] using hfin) d.toNat 1 (by omega)
    (by
      intro j hj1 hjd
      obtain ⟨c, hc, hteam⟩ := hpath j hj1 hjd
      simp only [setMoved_x, setMoved_y, setMoved_board, setMoved_team]
      exact ⟨inBounds_of_cellAt _ hrect _ _ _ hc, c, hc, hteam⟩)
  rw [if_neg (by omega)] at hloop
  rw [move_eq_of_valid w self direction dx dy d roll hdelta (by omega) hcap, hloop]
  by_cases hfull : 4 ≤ fin.players.length
  · rw [if_pos hfull]
    exact ⟨MoveOutcome.destinationFull, w.setMoved self, rfl, by simp [hfull],
      by simp [MoveOutcome.isSuccess]; omega⟩
  · rw [if_neg hfull]
    obtain ⟨c0, hc0⟩ := hon
    have hne : ¬ ((w.players self).x + dx * d = (w.players self).x ∧
        (w.players self).y + dy * d = (w.players self).y) := by
      simp only [List.mem_cons, Prod.mk.injEq, List.mem_singleton, List.not_mem_nil,
        or_false] at hdir
      rcases hdir with ⟨-, rfl, rfl⟩ | ⟨-, rfl, rfl⟩ | ⟨-, rfl, rfl⟩ | ⟨-, rfl, rfl⟩ <;> omega
    have h1 : cellAt (setCell w.board (w.players self).x (w.players self).y
        (c0.removePlayer self)) ((w.players self).x + dx * d)
        ((w.players self).y + dy * d) = some fin := by
      rw [cellAt_setCell_ne _ _ _ _ _ c0 _ hc0 hne]; exact hfin
    simp only [Player.relocate, setMoved_x, setMoved_y, setMoved_board, hc0,
      Player.setPosition, h1]
    exact ⟨_, _, rfl, by simp [hfull], by simp [MoveOutcome.isSuccess]; omega⟩

/-- Instance of C3: in `stack`, the fast player 0 moves two squares to the right
across the square holding four team-mates; the final square is empty, so the
destination-full rejection does not occur and the move is carried out. -/
theorem move_destination_full_iff_witness :
    ∃ out w', Player.move stack 0 RIGHT 2 0 = some (out, w') ∧
      (out = MoveOutcome.destinationFull ↔ 4 ≤ ([] : List (Fin 5)).length) ∧
      (out.isSuccess = true ↔ ([] : List (Fin 5)).length < 4) :=
  move_destination_full_iff stack 0 RIGHT 1 0 2 0 ⟨[]⟩ (by decide) ⟨_, rfl⟩ (by decide)
    (by decide) (by decide)
    (by
      intro j h1 h2
      have hj : j = 1 ∨ j = 2 := by omega
      rcases hj with rfl | rfl
      · exact ⟨⟨[1, 2, 3, 4]⟩, rfl, by decide⟩
      · exact ⟨⟨[]⟩, rfl, by decide⟩)
    rfl

/-- C4: atomicity of `Player::move` on failure.  If the call returns a rejection
(capacity exceeded, invalid direction, out of bounds, blocked by opponent or
destination full), the unit list of every cell and the position of every unit
are the same after the call as before it. -/
theorem move_failure_atomic (w w' : World n) (self : Fin n) (direction squares : Int) (roll : ℚ)
    (out : MoveOutcome) (h : Player.move w self direction squares roll = some (out, w'))
    (hf : out.isSuccess = false) :
    w'.board = w.board ∧
      ∀ q : Fin n, (w'.players q).x = (w.players q).x ∧ (w'.players q).y = (w.players q).y := by
  have hw := move_rejected_world w w' self direction squares roll out h hf
  subst hw
  exact ⟨rfl, fun q => ⟨setMoved_x w self q, setMoved_y w self q⟩⟩

/-- Instance of C4: in `skirmish`, player 0 asks for one square to the left, which
leaves the board; cells and positions are unchanged. -/
theorem move_failure_atomic_witness :
    (skirmish.setMoved 0).board = skirmish.board ∧
      ∀ q : Fin 3, ((skirmish.setMoved 0).players q).x = (skirmish.players q).x ∧
        ((skirmish.setMoved 0).players q).y = (skirmish.players q).y :=
  move_failure_atomic skirmish (skirmish.setMoved 0) 0 LEFT 1 0 MoveOutcome.outOfBounds rfl rfl

/-- Evaluation of `Player::move` at the failing input of C5: in `skirmish`,
player 0 stands on `(0,0)` and asks for `-2` squares to the right.  The capacity
test (`-2 > 2`) and the path loop (no iteration) reject nothing, the destination
`(-2, 0)` is off the board, and the call runs into the out-of-range access
`board[0][-2]` instead of returning a rejection. -/
theorem move_negative_distance_unchecked :
    Player.moveLoop (skirmish.setMoved 0) 0 1 0 (-2) (Int.toNat (-2)) 1 = some none ∧
    outOfBounds skirmish.board ((skirmish.players 0).x + 1 * (-2))
      ((skirmish.players 0).y + 0 * (-2)) = true ∧
    Player.move skirmish 0 RIGHT (-2) 0 = none := by
  refine ⟨rfl, by decide, rfl⟩

/-! ## Hit resolution and the loops of Player::attack -/

/-- The cumulative thresholds of a novice, as the program computes them:
`0.25 + 0.1` is the double `0.35` and `0.25 + 0.1 + 0.5` is the double `0.85`,
both a little below the decimals. -/
theorem novice_thresholds :
    binary64 (25 / 100) = 1 / 4 ∧
    doubleAdd (binary64 (25 / 100)) (binary64 (1 / 10)) = binary64 (35 / 100) ∧
    doubleAdd (doubleAdd (binary64 (25 / 100)) (binary64 (1 / 10))) (binary64 (5 / 10))
      = binary64 (85 / 100) ∧
    binary64 (35 / 100) = 3152519739159347 / 9007199254740992 ∧
    binary64 (85 / 100) = 7656119366529843 / 9007199254740992 := by
  refine ⟨?_, ?_, ?_, ?_, ?_⟩ <;> with_unfolding_all rfl

/-- The cumulative thresholds of an expert, as the program computes them:
`0.05 + 0.6` is the double `0.65` and `0.05 + 0.6 + 0.85` is exactly `1.5`. -/
theorem expert_thresholds :
    binary64 (5 / 100) = 3602879701896397 / 72057594037927936 ∧
    doubleAdd (binary64 (5 / 100)) (binary64 (6 / 10)) = binary64 (65 / 100) ∧
    doubleAdd (doubleAdd (binary64 (5 / 100)) (binary64 (6 / 10))) (binary64 (85 / 100))
      = 3 / 2 ∧
    binary64 (65 / 100) = 5854679515581645 / 9007199254740992 := by
  refine ⟨?_, ?_, ?_, ?_⟩ <;> with_unfolding_all rfl

/-- For the thresholds of either class the three cumulative thresholds increase:
`head ≤ head + torso ≤ head + torso + extremity`, the sums being sums of doubles. -/
theorem thresholds_increase (p : Player) (hprof : p.ClassProfile) :
    p.headHitChance ≤ doubleAdd p.headHitChance p.torsoHitChance ∧
    doubleAdd p.headHitChance p.torsoHitChance
      ≤ doubleAdd (doubleAdd p.headHitChance p.torsoHitChance) p.extremityHitChance := by
  obtain ⟨-, -, hhead, htorso, hext⟩ := hprof
  rw [hhead, htorso, hext]
  cases p.expert with
  | true =>
    simp only [if_true]
    rw [expert_thresholds.2.2.1, expert_thresholds.2.1, expert_thresholds.2.2.2,
      expert_thresholds.1]
    constructor <;> norm_num
  | false =>
    simp only [Bool.false_eq_true, if_false]
    rw [novice_thresholds.2.2.1, novice_thresholds.2.1, novice_thresholds.2.2.2.1,
      novice_thresholds.2.2.2.2, novice_thresholds.1]
    constructor <;> norm_num

theorem resolveHit_head (w : World n) (self target : Fin n) (r : ℚ)
    (h : r < (w.players self).headHitChance) :
    Player.resolveHit w self target r =
      (AttackOutcome.headshot (w.players self).id,
       { w with players := (Function.update w.players self
          { w.players self with eliminated := true, shooterEliminated := true,
                                eliminationReason := "Headshot penalty" }) }) := by
  unfold Player.resolveHit
  simp only
  rw [if_pos h]

theorem resolveHit_torso (w : World n) (self target : Fin n) (r : ℚ)
    (h1 : (w.players self).headHitChance ≤ r)
    (h2 : r < doubleAdd (w.players self).headHitChance (w.players self).torsoHitChance) :
    Player.resolveHit w self target r =
      (AttackOutcome.torso (w.players self).id (w.players target).id,
       { w with players := (Function.update w.players target
          ((w.players target).setEliminated true "Hit in torso")) }) := by
  unfold Player.resolveHit
  simp only
  rw [if_neg (not_lt.2 h1), if_pos h2]

theorem resolveHit_extremity (w : World n) (self target : Fin n) (r : ℚ)
    (h1 : (w.players self).headHitChance ≤ r)
    (h2 : doubleAdd (w.players self).headHitChance (w.players self).torsoHitChance ≤ r)
    (h3 : r < doubleAdd (doubleAdd (w.players self).headHitChance (w.players self).torsoHitChance)
      (w.players self).extremityHitChance) :
    Player.resolveHit w self target r =
      (AttackOutcome.extremity (w.players self).id (w.players target).id
        ((w.players target).hitsToExtremities + 1),
       { w with players := (Function.update w.players target
          (if 3 ≤ (w.players target).hitsToExtremities + 1 then
            Player.setEliminated
              { w.players target with
                hitsToExtremities := (w.players target).hitsToExtremities + 1 }
              true "3 extremity hits"
           else { w.players target with
                  hitsToExtremities := (w.players target).hitsToExtremities + 1 })) }) := by
  unfold Player.resolveHit
  simp only
  rw [if_neg (not_lt.2 h1), if_neg (not_lt.2 h2), if_pos h3]

theorem resolveHit_miss (w : World n) (self target : Fin n) (r : ℚ)
    (h1 : (w.players self).headHitChance ≤ r)
    (h2 : doubleAdd (w.players self).headHitChance (w.players self).torsoHitChance ≤ r)
    (h3 : doubleAdd (doubleAdd (w.players self).headHitChance (w.players self).torsoHitChance)
      (w.players self).extremityHitChance ≤ r) :
    Player.resolveHit w self target r = (AttackOutcome.missed (w.players self).id, w) := by
  unfold Player.resolveHit
  simp only
  rw [if_neg (not_lt.2 h1), if_neg (not_lt.2 h2), if_neg (not_lt.2 h3)]

theorem resolveHit_failure (w : World n) (self target : Fin n) (hitRoll : ℚ)
    (h : (Player.resolveHit w self target hitRoll).1.success = false) :
    (Player.resolveHit w self target hitRoll).2 = w := by
  unfold Player.resolveHit at h ⊢
  simp only at h ⊢
  split_ifs at h ⊢ <;> first | rfl | (simp [AttackOutcome.success] at h)

theorem selectAndResolve_failure (w w' : World n) (self : Fin n) (hitRoll : ℚ)
    (out : AttackOutcome) :
    ∀ l : List (Fin n), Player.selectAndResolve w self hitRoll l = some (out, w') →
      out.success = false → w' = w := by
  intro l
  induction l with
  | nil => intro h; simp [Player.selectAndResolve] at h
  | cons t rest ih =>
    intro h hf
    unfold Player.selectAndResolve at h
    split_ifs at h
    · have he := Option.some.inj h
      have hres := resolveHit_failure w self t hitRoll (by rw [he]; exact hf)
      rw [he] at hres
      exact hres
    · exact ih h hf

theorem selectAndResolve_first (w : World n) (self : Fin n) (hitRoll : ℚ) (target : Fin n)
    (post : List (Fin n)) (ht : Player.validTarget w self target = true) :
    ∀ pre : List (Fin n), (∀ u ∈ pre, Player.validTarget w self u = false) →
      Player.selectAndResolve w self hitRoll (pre ++ target :: post) =
        some (Player.resolveHit w self target hitRoll) := by
  intro pre
  induction pre with
  | nil => intro _; simp [Player.selectAndResolve, ht]
  | cons u rest ih =>
    intro hpre
    have hu : Player.validTarget w self u = false := hpre u (List.mem_cons_self _ _)
    simp only [List.cons_append, Player.selectAndResolve, hu, Bool.false_eq_true, if_false]
    exact ih (fun v hv => hpre v (List.mem_cons_of_mem _ hv))

theorem attackLoop_failure (w w' : World n) (self : Fin n) (dx dy squares : Int) (hitRoll : ℚ)
    (out : AttackOutcome) :
    ∀ (fuel : Nat) (i : Int),
      Player.attackLoop w self dx dy squares hitRoll fuel i = some (some (out, w')) →
      out.success = false → w' = w := by
  intro fuel
  induction fuel with
  | zero => intro i h; simp [Player.attackLoop] at h
  | succ k ih =>
    intro i h hf
    unfold Player.attackLoop at h
    split at h
    · cases h
    · split_ifs at h
      · cases h; rfl
      · split at h
        · cases h
          exact selectAndResolve_failure w w' self hitRoll out _ (by assumption) hf
        · exact ih _ h hf
      · cases h; rfl
      · exact ih _ h hf

/-- With empty squares up to the target square and a first valid target there,
the loop of `Player::attack` returns the hit resolved against that target. -/
theorem attackLoop_reaches (w : World n) (self : Fin n) (dx dy range : Int) (hitRoll : ℚ)
    (pre post : List (Fin n)) (target : Fin n)
    (hcell : cellAt w.board ((w.players self).x + dx * range) ((w.players self).y + dy * range)
      = some ⟨pre ++ target :: post⟩)
    (hpre : ∀ u ∈ pre, Player.validTarget w self u = false)
    (ht : Player.validTarget w self target = true) :
    ∀ (fuel : Nat) (i : Int), i + fuel = range + 1 → 1 ≤ fuel →
      (∀ j : Int, i ≤ j → j < range →
        cellAt w.board ((w.players self).x + dx * j) ((w.players self).y + dy * j)
          = some ⟨[]⟩) →
      Player.attackLoop w self dx dy range hitRoll fuel i =
        some (some (Player.resolveHit w self target hitRoll)) := by
  intro fuel
  induction fuel with
  | zero => intro i _ h; omega
  | succ k ih =>
    intro i hi _ hempty
    unfold Player.attackLoop
    by_cases hlast : i = range
    · subst hlast
      have hany : (pre ++ target :: post).any (Player.validTarget w self) = true :=
        List.any_eq_true.2 ⟨target, by simp, ht⟩
      simp only [hcell, lt_irrefl, false_and, if_false, if_true, Cell.getPlayers, hany,
        selectAndResolve_first w self hitRoll target post ht pre hpre]
    · have hlt : i < range := by omega
      simp only [hempty i (le_refl i) hlt, Cell.getPlayers, ne_eq, not_true_eq_false, and_false,
        if_false, hlast]
      exact ih (i + 1) (by push_cast at hi ⊢; omega) (by omega)
        (fun j hj hjr => hempty j (by omega) hjr)

/-- A cell that lists some non-eliminated unit of the other team splits, in its
order, at the first such unit. -/
theorem exists_first_valid_target (w : World n) (self : Fin n) :
    ∀ l : List (Fin n),
      (∃ u ∈ l, (w.players u).team ≠ (w.players self).team ∧ (w.players u).eliminated = false) →
      ∃ pre target post, l = pre ++ target :: post ∧
        (∀ u ∈ pre, (w.players u).team = (w.players self).team ∨
          (w.players u).eliminated = true) ∧
        (w.players target).team ≠ (w.players self).team ∧
        (w.players target).eliminated = false := by
  intro l
  induction l with
  | nil => rintro ⟨u, hu, -⟩; cases hu
  | cons a rest ih =>
    rintro ⟨u, hu, hteam, hlive⟩
    by_cases ha : (w.players a).team ≠ (w.players self).team ∧ (w.players a).eliminated = false
    · exact ⟨[], a, rest, rfl, by simp, ha.1, ha.2⟩
    · have hrest : ∃ v ∈ rest, (w.players v).team ≠ (w.players self).team ∧
          (w.players v).eliminated = false := by
        rcases List.mem_cons.1 hu with rfl | hmem
        · exact absurd ⟨hteam, hlive⟩ ha
        · exact ⟨u, hmem, hteam, hlive⟩
      obtain ⟨pre, target, post, hsplit, hpre, ht, hl⟩ := ih hrest
      refine ⟨a :: pre, target, post, by rw [hsplit]; rfl, ?_, ht, hl⟩
      intro v hv
      rcases List.mem_cons.1 hv with rfl | hvp
      · by_cases hteamv : (w.players v).team = (w.players self).team
        · exact Or.inl hteamv
        · right
          cases he : (w.players v).eliminated with
          | true => rfl
          | false => exact absurd ⟨hteamv, he⟩ ha
      · exact hpre v hvp

theorem reachesTarget_ne (w : World n) (self : Fin n) (direction range : Int)
    (pre post : List (Fin n)) (target : Fin n)
    (h : Player.ReachesTarget w self direction range pre target post) : target ≠ self := by
  obtain ⟨dx, dy, -, -, -, -, -, -, hteam, -⟩ := h
  intro he
  rw [he] at hteam
  exact hteam rfl

/-- An attack that passes every check returns the hit resolved against the
selected target, in the world where the attacker's `moved` flag is set. -/
theorem attack_of_reaches (w : World n) (self : Fin n) (direction squares range : Int)
    (rangeRoll hitRoll : ℚ) (pre post : List (Fin n)) (target : Fin n)
    (hrect : RectBoard w.board)
    (hrange : (w.players self).autoRange squares rangeRoll = range)
    (h : Player.ReachesTarget w self direction range pre target post) :
    Player.attack w self direction squares rangeRoll hitRoll =
      some (Player.resolveHit (w.setMoved self) self target hitRoll) := by
  obtain ⟨dx, dy, hdir, hr1, hr2, hempty, hcell, hpre, hteam, hlive⟩ := h
  have hauto : ((w.setMoved self).players self).autoRange squares rangeRoll = range := by
    rw [← hrange]; simp [Player.autoRange, setMoved_expert]
  have hvalid : ¬ (squares ≠ -1 ∧
      (squares > (if ((w.setMoved self).players self).expert = true then (2 : Int) else 1)
        ∨ squares < 1)) := by
    rintro ⟨hne, hbad⟩
    have hs : squares = range := by
      rw [← hrange]; simp [Player.autoRange, hne]
    rw [setMoved_expert, hs] at hbad
    omega
  have hin := inBounds_of_cellAt _ hrect _ _ _ hcell
  have hloop := attackLoop_reaches (w.setMoved self) self dx dy range hitRoll pre post target
    (by simpa only [setMoved_x, setMoved_y, setMoved_board] using hcell)
    (by
      intro u hu
      simp only [Player.validTarget, setMoved_team, setMoved_eliminated]
      rcases hpre u hu with ht | he
      · simp [ht]
      · simp [he])
    (by
      simp only [Player.validTarget, setMoved_team, setMoved_eliminated, hlive]
      simpa using hteam)
    range.toNat 1 (by omega) (by omega)
    (by
      intro j hj1 hjr
      simp only [setMoved_x, setMoved_y, setMoved_board]
      exact hempty j hj1 hjr)
  unfold Player.attack
  simp only [hdir, if_neg hvalid, hauto, setMoved_x, setMoved_y, setMoved_board, hin,
    Bool.false_eq_true, if_false, hloop]

/-- A failed `Player::attack` returns the world it was called on, the attacker's
`moved` flag being set. -/
theorem attack_failed_world (w w' : World n) (self : Fin n) (direction squares : Int)
    (rangeRoll hitRoll : ℚ) (out : AttackOutcome)
    (h : Player.attack w self direction squares rangeRoll hitRoll = some (out, w'))
    (hf : out.success = false) : w' = w.setMoved self := by
  unfold Player.attack at h
  simp only at h
  split at h
  · cases h; rfl
  · split_ifs at h
    all_goals first
      | (cases h; rfl)
      | (split at h
         · cases h
         · cases h
           exact attackLoop_failure _ _ _ _ _ _ _ _ _ _ (by assumption) hf
         · cases h; rfl)

/-- In `skirmish`, an attack by player 0 to the right with range 2 reaches hit
resolution against player 1, the first unit listed on `(2,0)`. -/
theorem skirmish_reaches : Player.ReachesTarget skirmish 0 RIGHT 2 [] 1 [2] := by
  refine ⟨1, 0, rfl, by decide, by decide, ?_, rfl, by simp, by decide, rfl⟩
  intro j h1 h2
  have hj : j = 1 := by omega
  subst hj
  rfl

/-! ## Claims about Player::attack -/

/-- C6: hit-kind selection of `Player::attack`.  For an attack that reaches hit
resolution against `target` and a roll `r` in `[0,1)`, with `(head, torso,
extremity)` the doubles `(0.05, 0.60, 0.85)` for an expert attacker and `(0.25,
0.10, 0.50)` for a novice, and the sums being the sums of doubles the program
computes: `r < head` eliminates the attacker; `head ≤ r < head+torso` eliminates
the target with reason "Hit in torso"; `head+torso ≤ r < head+torso+extremity`
adds exactly 1 to the target's extremity hits; `r ≥ head+torso+extremity` is a
miss.  These four cases cover every roll, and the sums are the doubles `0.65`
and `1.5` for an expert, `0.35` and `0.85` for a novice. -/
theorem attack_hit_kind (w : World n) (self : Fin n) (direction squares range : Int)
    (rangeRoll r : ℚ) (pre post : List (Fin n)) (target : Fin n) (head torso ext : ℚ)
    (hrect : RectBoard w.board)
    (hrange : (w.players self).autoRange squares rangeRoll = range)
    (hreach : Player.ReachesTarget w self direction range pre target post)
    (hprof : (w.players self).ClassProfile)
    (hth : (head, torso, ext) =
      if (w.players self).expert then (binary64 (5 / 100), binary64 (6 / 10), binary64 (85 / 100))
      else (binary64 (25 / 100), binary64 (1 / 10), binary64 (5 / 10)))
    (_h0 : 0 ≤ r) (_h1 : r < 1) :
    (head ≤ doubleAdd head torso ∧ doubleAdd head torso ≤ doubleAdd (doubleAdd head torso) ext ∧
      (doubleAdd head torso, doubleAdd (doubleAdd head torso) ext) =
        if (w.players self).expert then (binary64 (65 / 100), 3 / 2)
        else (binary64 (35 / 100), binary64 (85 / 100))) ∧
    ∃ out w', Player.attack w self direction squares rangeRoll r = some (out, w') ∧
      (r < head →
        out = AttackOutcome.headshot (w.players self).id ∧ out.success = true ∧
        (w'.players self).eliminated = true ∧
        (w'.players self).eliminationReason = "Headshot penalty" ∧
        w'.players target = w.players target) ∧
      (head ≤ r → r < doubleAdd head torso →
        out = AttackOutcome.torso (w.players self).id (w.players target).id ∧
        out.success = true ∧
        (w'.players target).eliminated = true ∧
        (w'.players target).eliminationReason = "Hit in torso") ∧
      (doubleAdd head torso ≤ r → r < doubleAdd (doubleAdd head torso) ext →
        out = AttackOutcome.extremity (w.players self).id (w.players target).id
          ((w.players target).hitsToExtremities + 1) ∧
        out.success = true ∧
        (w'.players target).hitsToExtremities = (w.players target).hitsToExtremities + 1) ∧
      (doubleAdd (doubleAdd head torso) ext ≤ r →
        out = AttackOutcome.missed (w.players self).id ∧ out.success = false ∧
        w'.players target = w.players target) := by
  have hne := reachesTarget_ne w self direction range pre post target hreach
  have hinc := thresholds_increase (w.players self) hprof
  obtain ⟨-, -, hhead, htorso, hext⟩ := hprof
  have hfields : head = (w.players self).headHitChance ∧
      torso = (w.players self).torsoHitChance ∧
      ext = (w.players self).extremityHitChance := by
    rw [hhead, htorso, hext]
    cases hexp : (w.players self).expert <;> rw [hexp] at hth <;>
      simp only [Bool.false_eq_true, if_false, if_true, Prod.mk.injEq] at hth <;>
      obtain ⟨h1, h2, h3⟩ := hth <;> subst h1 h2 h3 <;> exact ⟨rfl, rfl, rfl⟩
  obtain ⟨hh, ht, he⟩ := hfields
  rw [← hh, ← ht, ← he] at hinc
  have hsums : (doubleAdd head torso, doubleAdd (doubleAdd head torso) ext) =
      if (w.players self).expert then (binary64 (65 / 100), 3 / 2)
      else (binary64 (35 / 100), binary64 (85 / 100)) := by
    cases hexp : (w.players self).expert <;> rw [hexp] at hth <;>
      simp only [Bool.false_eq_true, if_false, if_true, Prod.mk.injEq] at hth ⊢ <;>
      obtain ⟨h1, h2, h3⟩ := hth <;> subst h1 h2 h3
    · exact ⟨novice_thresholds.2.1, novice_thresholds.2.2.1⟩
    · exact ⟨expert_thresholds.2.1, expert_thresholds.2.2.1⟩
  refine ⟨⟨hinc.1, hinc.2, hsums⟩, ?_⟩
  have hh' : head = ((w.setMoved self).players self).headHitChance := by
    rw [setMoved_head]; exact hh
  have ht' : torso = ((w.setMoved self).players self).torsoHitChance := by
    rw [setMoved_torso]; exact ht
  have he' : ext = ((w.setMoved self).players self).extremityHitChance := by
    rw [setMoved_extremity]; exact he
  have htm : (w.setMoved self).players target = w.players target := by
    rw [setMoved_players, if_neg hne]
  have hatt := attack_of_reaches w self direction squares range rangeRoll r pre post target
    hrect hrange hreach
  generalize hres : Player.resolveHit (w.setMoved self) self target r = res at hatt
  obtain ⟨out, w'⟩ := res
  refine ⟨out, w', hatt, ?_, ?_, ?_, ?_⟩
  · intro hz
    rw [resolveHit_head _ _ _ _ (hh' ▸ hz), setMoved_id] at hres
    obtain ⟨rfl, rfl⟩ := Prod.mk.inj hres
    refine ⟨rfl, rfl, by simp, by simp, ?_⟩
    simp only [Function.update_noteq hne, htm]
  · intro hz1 hz2
    rw [resolveHit_torso _ _ _ _ (hh' ▸ hz1) (hh' ▸ ht' ▸ hz2), setMoved_id, htm] at hres
    obtain ⟨rfl, rfl⟩ := Prod.mk.inj hres
    exact ⟨rfl, rfl, by simp [Player.setEliminated], by simp [Player.setEliminated]⟩
  · intro hz1 hz2
    rw [resolveHit_extremity _ _ _ _ (hh' ▸ (le_trans hinc.1 hz1 : head ≤ r))
      (hh' ▸ ht' ▸ hz1) (hh' ▸ ht' ▸ he' ▸ hz2), setMoved_id, htm] at hres
    obtain ⟨rfl, rfl⟩ := Prod.mk.inj hres
    refine ⟨rfl, rfl, ?_⟩
    simp only [Function.update_same]
    split_ifs <;> simp [Player.setEliminated]
  · intro hz
    rw [resolveHit_miss _ _ _ _
      (hh' ▸ (le_trans hinc.1 (le_trans hinc.2 hz) : head ≤ r))
      (hh' ▸ ht' ▸ (le_trans hinc.2 hz : doubleAdd head torso ≤ r))
      (hh' ▸ ht' ▸ he' ▸ hz), setMoved_id] at hres
    obtain ⟨rfl, rfl⟩ := Prod.mk.inj hres
    exact ⟨rfl, rfl, htm⟩

/-- In `faceoff`, an attack by Red's novice 0 to the right with range 1 reaches
hit resolution against Blue's unit 1 on `(2,0)`. -/
theorem faceoff_reaches : Player.ReachesTarget faceoff.world 0 RIGHT 1 [] 1 [] := by
  refine ⟨1, 0, rfl, by decide, by decide, ?_, by decide, by simp, by decide, rfl⟩
  intro j h1 h2
  omega

/-- Instance of C6: in `faceoff` Red's novice 0 shoots to the right at range 1
with a roll equal to the double `0.35`, the sum `0.25 + 0.1` the program
computes.  The roll is not below that sum, so the shot is an extremity hit, not
a torso hit. -/
theorem attack_hit_kind_witness :
    (binary64 (25 / 100) ≤ doubleAdd (binary64 (25 / 100)) (binary64 (1 / 10)) ∧
      doubleAdd (binary64 (25 / 100)) (binary64 (1 / 10))
        ≤ doubleAdd (doubleAdd (binary64 (25 / 100)) (binary64 (1 / 10))) (binary64 (5 / 10)) ∧
      (doubleAdd (binary64 (25 / 100)) (binary64 (1 / 10)),
        doubleAdd (doubleAdd (binary64 (25 / 100)) (binary64 (1 / 10))) (binary64 (5 / 10))) =
        if (faceoff.world.players 0).expert then (binary64 (65 / 100), 3 / 2)
        else (binary64 (35 / 100), binary64 (85 / 100))) ∧
    ∃ out w', Player.attack faceoff.world 0 RIGHT 1 0 (binary64 (35 / 100)) = some (out, w') ∧
      (binary64 (35 / 100) < binary64 (25 / 100) →
        out = AttackOutcome.headshot (faceoff.world.players 0).id ∧ out.success = true ∧
        (w'.players 0).eliminated = true ∧
        (w'.players 0).eliminationReason = "Headshot penalty" ∧
        w'.players 1 = faceoff.world.players 1) ∧
      (binary64 (25 / 100) ≤ binary64 (35 / 100) →
        binary64 (35 / 100) < doubleAdd (binary64 (25 / 100)) (binary64 (1 / 10)) →
        out = AttackOutcome.torso (faceoff.world.players 0).id (faceoff.world.players 1).id ∧
        out.success = true ∧
        (w'.players 1).eliminated = true ∧
        (w'.players 1).eliminationReason = "Hit in torso") ∧
      (doubleAdd (binary64 (25 / 100)) (binary64 (1 / 10)) ≤ binary64 (35 / 100) →
        binary64 (35 / 100)
          < doubleAdd (doubleAdd (binary64 (25 / 100)) (binary64 (1 / 10))) (binary64 (5 / 10)) →
        out = AttackOutcome.extremity (faceoff.world.players 0).id (faceoff.world.players 1).id
          ((faceoff.world.players 1).hitsToExtremities + 1) ∧
        out.success = true ∧
        (w'.players 1).hitsToExtremities = (faceoff.world.players 1).hitsToExtremities + 1) ∧
      (doubleAdd (doubleAdd (binary64 (25 / 100)) (binary64 (1 / 10))) (binary64 (5 / 10))
          ≤ binary64 (35 / 100) →
        out = AttackOutcome.missed (faceoff.world.players 0).id ∧ out.success = false ∧
        w'.players 1 = faceoff.world.players 1) :=
  attack_hit_kind faceoff.world 0 RIGHT 1 1 0 (binary64 (35 / 100)) [] [] 1
    (binary64 (25 / 100)) (binary64 (1 / 10)) (binary64 (5 / 10))
    (by decide) rfl faceoff_reaches ⟨rfl, rfl, rfl, rfl, rfl⟩ rfl
    (by rw [novice_thresholds.2.2.2.1]; norm_num)
    (by rw [novice_thresholds.2.2.2.1]; norm_num)

/-- C7: extremity hits.  For an attack that reaches hit resolution against a
live target with a roll for which the program takes the extremity branch (not
below `head + torso`, below `head + torso + extremity`, sums of doubles): a
target that had 2 extremity hits ends with exactly 3, is eliminated and carries
the reason "3 extremity hits"; a target that had 0 or 1 is not eliminated by the
hit. -/
theorem extremity_hit_elimination (w : World n) (self : Fin n) (direction squares range : Int)
    (rangeRoll r : ℚ) (pre post : List (Fin n)) (target : Fin n)
    (hrect : RectBoard w.board)
    (hrange : (w.players self).autoRange squares rangeRoll = range)
    (hreach : Player.ReachesTarget w self direction range pre target post)
    (hz0 : (w.players self).headHitChance ≤ r)
    (hz1 : doubleAdd (w.players self).headHitChance (w.players self).torsoHitChance ≤ r)
    (hz2 : r < doubleAdd
      (doubleAdd (w.players self).headHitChance (w.players self).torsoHitChance)
      (w.players self).extremityHitChance) :
    ∃ out w', Player.attack w self direction squares rangeRoll r = some (out, w') ∧
      out.success = true ∧
      out = AttackOutcome.extremity (w.players self).id (w.players target).id
        ((w.players target).hitsToExtremities + 1) ∧
      ((w.players target).hitsToExtremities = 2 →
        (w'.players target).hitsToExtremities = 3 ∧
        (w'.players target).eliminated = true ∧
        (w'.players target).eliminationReason = "3 extremity hits") ∧
      ((w.players target).hitsToExtremities = 0 ∨ (w.players target).hitsToExtremities = 1 →
        (w'.players target).eliminated = false) := by
  have hne := reachesTarget_ne w self direction range pre post target hreach
  have hlive : (w.players target).eliminated = false := by
    obtain ⟨-, -, -, -, -, -, -, -, -, hl⟩ := hreach
    exact hl
  have htm : (w.setMoved self).players target = w.players target := by
    rw [setMoved_players, if_neg hne]
  have hatt := attack_of_reaches w self direction squares range rangeRoll r pre post target
    hrect hrange hreach
  generalize hres : Player.resolveHit (w.setMoved self) self target r = res at hatt
  obtain ⟨out, w'⟩ := res
  rw [resolveHit_extremity _ _ _ _ (by rw [setMoved_head]; exact hz0)
    (by rw [setMoved_head, setMoved_torso]; exact hz1)
    (by rw [setMoved_head, setMoved_torso, setMoved_extremity]; exact hz2), htm,
    setMoved_id] at hres
  obtain ⟨rfl, rfl⟩ := Prod.mk.inj hres
  refine ⟨_, _, hatt, rfl, rfl, ?_, ?_⟩
  · intro h2
    simp only [Function.update_same, h2]
    simp [Player.setEliminated]
  · intro h01
    simp only [Function.update_same]
    rw [if_neg (by omega)]
    exact hlive

/-- Instance of C7: in `skirmish` player 1 already has two extremity hits; the
roll `0.75` of the expert player 0 is not below the double `0.65` and below
`1.5`, so the program takes the extremity branch. -/
theorem extremity_hit_elimination_witness :
    ∃ out w', Player.attack skirmish 0 RIGHT 2 0 (3 / 4) = some (out, w') ∧
      out.success = true ∧
      out = AttackOutcome.extremity (skirmish.players 0).id (skirmish.players 1).id
        ((skirmish.players 1).hitsToExtremities + 1) ∧
      ((skirmish.players 1).hitsToExtremities = 2 →
        (w'.players 1).hitsToExtremities = 3 ∧
        (w'.players 1).eliminated = true ∧
        (w'.players 1).eliminationReason = "3 extremity hits") ∧
      ((skirmish.players 1).hitsToExtremities = 0 ∨ (skirmish.players 1).hitsToExtremities = 1 →
        (w'.players 1).eliminated = false) :=
  extremity_hit_elimination skirmish 0 RIGHT 2 2 0 (3 / 4) [] [2] 1 (by decide) rfl
    skirmish_reaches
    (by
      show binary64 (5 / 100) ≤ 3 / 4
      rw [expert_thresholds.1]; norm_num)
    (by
      show doubleAdd (binary64 (5 / 100)) (binary64 (6 / 10)) ≤ 3 / 4
      rw [expert_thresholds.2.1, expert_thresholds.2.2.2]; norm_num)
    (by
      show (3 / 4 : ℚ) < doubleAdd (doubleAdd (binary64 (5 / 100)) (binary64 (6 / 10)))
        (binary64 (85 / 100))
      rw [expert_thresholds.2.2.1]; norm_num)

/-- C8: line of sight in `Player::attack`.  For an expert attacker, a direction
with its vector and the explicit range 2 with the target square on the board: if
the square at distance 1 lists any unit at all, the attack fails with the text
"Line of sight blocked by players in intermediate squares.", whatever the target
square contains and whatever the rolls are; the board is unchanged and no unit's
eliminated flag, elimination reason or extremity hits changes. -/
theorem attack_line_of_sight_blocked (w : World n) (self : Fin n) (direction dx dy : Int)
    (rangeRoll hitRoll : ℚ) (mid tgt : Cell n)
    (hrect : RectBoard w.board)
    (hexp : (w.players self).expert = true)
    (hdir : (direction, dx, dy) ∈
      [(UP, (0 : Int), (-1 : Int)), (DOWN, 0, 1), (LEFT, -1, 0), (RIGHT, 1, 0)])
    (htgt : cellAt w.board ((w.players self).x + dx * 2) ((w.players self).y + dy * 2)
      = some tgt)
    (hmid : cellAt w.board ((w.players self).x + dx * 1) ((w.players self).y + dy * 1)
      = some mid)
    (hocc : mid.players ≠ []) :
    ∃ out w', Player.attack w self direction 2 rangeRoll hitRoll = some (out, w') ∧
      out = AttackOutcome.lineOfSightBlocked ∧ out.success = false ∧
      out.message = "Line of sight blocked by players in intermediate squares." ∧
      w'.board = w.board ∧
      ∀ u : Fin n, (w'.players u).eliminated = (w.players u).eliminated ∧
        (w'.players u).eliminationReason = (w.players u).eliminationReason ∧
        (w'.players u).hitsToExtremities = (w.players u).hitsToExtremities := by
  have hdelta := directionDelta_of_mem _ _ _ hdir
  have hin := inBounds_of_cellAt _ hrect _ _ _ htgt
  refine ⟨AttackOutcome.lineOfSightBlocked, w.setMoved self, ?_, rfl, rfl, rfl, rfl,
    fun u => ⟨setMoved_eliminated w self u, setMoved_eliminationReason w self u,
      setMoved_hits w self u⟩⟩
  have hvalid : ¬ ((2 : Int) ≠ -1 ∧
      ((2 : Int) > (if ((w.setMoved self).players self).expert = true then (2 : Int) else 1)
        ∨ (2 : Int) < 1)) := by
    rw [setMoved_expert, hexp]; simp
  have hauto : ((w.setMoved self).players self).autoRange 2 rangeRoll = 2 := by
    simp [Player.autoRange]
  have hloop : Player.attackLoop (w.setMoved self) self dx dy 2 hitRoll (Int.toNat 2) 1 =
      some (some (AttackOutcome.lineOfSightBlocked, w.setMoved self)) := by
    have h2 : Int.toNat 2 = 1 + 1 := rfl
    rw [h2]
    unfold Player.attackLoop
    simp only [setMoved_x, setMoved_y, setMoved_board, hmid, Cell.getPlayers]
    rw [if_pos ⟨by norm_num, hocc⟩]
  unfold Player.attack
  simp only [hdelta, if_neg hvalid, hauto, setMoved_x, setMoved_y, setMoved_board, hin,
    Bool.false_eq_true, if_false, hloop]

/-- Instance of C8: in `stack` the expert player 0 shoots to the right at range 2
over the square holding four team-mates. -/
theorem attack_line_of_sight_blocked_witness :
    ∃ out w', Player.attack stack 0 RIGHT 2 0 0 = some (out, w') ∧
      out = AttackOutcome.lineOfSightBlocked ∧ out.success = false ∧
      out.message = "Line of sight blocked by players in intermediate squares." ∧
      w'.board = stack.board ∧
      ∀ u : Fin 5, (w'.players u).eliminated = (stack.players u).eliminated ∧
        (w'.players u).eliminationReason = (stack.players u).eliminationReason ∧
        (w'.players u).hitsToExtremities = (stack.players u).hitsToExtremities :=
  attack_line_of_sight_blocked stack 0 RIGHT 1 0 0 0 ⟨[1, 2, 3, 4]⟩ ⟨[]⟩ (by decide) rfl
    (by decide) rfl rfl (by decide)

/-- C9: `Player::attack` resolves a single target.  For an attack that reaches a
target square listing `pre ++ target :: post`, where `target` is the first
non-eliminated unit of the other team in the cell's order: the outcome is the
attacker's head-shot penalty, a torso or extremity hit on `target`, or a miss;
the board is unchanged; every unit other than the attacker and `target` (other
eligible opponents of the cell and the attacker's own team included) keeps its
whole record, so its eliminated flag, elimination reason, extremity hits and
position; and when the cell is sorted by id, `target` has the lowest id among
the non-eliminated units of the other team in the cell. -/
theorem attack_single_target (w : World n) (self : Fin n) (direction squares range : Int)
    (rangeRoll r : ℚ) (pre post : List (Fin n)) (target : Fin n)
    (hrect : RectBoard w.board)
    (hrange : (w.players self).autoRange squares rangeRoll = range)
    (hreach : Player.ReachesTarget w self direction range pre target post) :
    ∃ out w', Player.attack w self direction squares rangeRoll r = some (out, w') ∧
      (out = AttackOutcome.headshot (w.players self).id ∨
        out = AttackOutcome.torso (w.players self).id (w.players target).id ∨
        out = AttackOutcome.extremity (w.players self).id (w.players target).id
          ((w.players target).hitsToExtremities + 1) ∨
        out = AttackOutcome.missed (w.players self).id) ∧
      w'.board = w.board ∧
      (∀ u : Fin n, u ≠ self → u ≠ target → w'.players u = w.players u) ∧
      ((pre ++ target :: post).Pairwise (fun a b => (w.players a).id ≤ (w.players b).id) →
        ∀ u ∈ pre ++ target :: post, (w.players u).team ≠ (w.players self).team →
          (w.players u).eliminated = false → (w.players target).id ≤ (w.players u).id) := by
  have hne := reachesTarget_ne w self direction range pre post target hreach
  have htm : (w.setMoved self).players target = w.players target := by
    rw [setMoved_players, if_neg hne]
  have hatt := attack_of_reaches w self direction squares range rangeRoll r pre post target
    hrect hrange hreach
  have hsorted : (pre ++ target :: post).Pairwise
        (fun a b => (w.players a).id ≤ (w.players b).id) →
      ∀ u ∈ pre ++ target :: post, (w.players u).team ≠ (w.players self).team →
        (w.players u).eliminated = false → (w.players target).id ≤ (w.players u).id := by
    obtain ⟨-, -, -, -, -, -, -, hpre, -, -⟩ := hreach
    intro hpw u hu hteam hlive
    rcases List.mem_append.1 hu with hup | hut
    · rcases hpre u hup with h | h
      · exact absurd h hteam
      · rw [h] at hlive; cases hlive
    · rcases List.mem_cons.1 hut with rfl | hupost
      · exact le_refl _
      · have hp := (List.pairwise_append.1 hpw).2.1
        exact (List.pairwise_cons.1 hp).1 u hupost
  have hframe : ∀ (v : Player) (u : Fin n), u ≠ self → u ≠ target →
      Function.update (w.setMoved self).players target v u = w.players u := by
    intro v u hus hut
    rw [Function.update_noteq hut, setMoved_players, if_neg hus]
  generalize hres : Player.resolveHit (w.setMoved self) self target r = res at hatt
  obtain ⟨out, w'⟩ := res
  refine ⟨out, w', hatt, ?_⟩
  by_cases h1 : r < ((w.setMoved self).players self).headHitChance
  · rw [resolveHit_head _ _ _ _ h1, setMoved_id] at hres
    obtain ⟨rfl, rfl⟩ := Prod.mk.inj hres
    refine ⟨Or.inl rfl, rfl, ?_, hsorted⟩
    intro u hus hut
    simp only [Function.update_noteq hus, setMoved_players, if_neg hus]
  · by_cases h2 : r < doubleAdd ((w.setMoved self).players self).headHitChance
        ((w.setMoved self).players self).torsoHitChance
    · rw [resolveHit_torso _ _ _ _ (not_lt.1 h1) h2, setMoved_id, htm] at hres
      obtain ⟨rfl, rfl⟩ := Prod.mk.inj hres
      exact ⟨Or.inr (Or.inl rfl), rfl, fun u hus hut => hframe _ u hus hut, hsorted⟩
    · by_cases h3 : r < doubleAdd
          (doubleAdd ((w.setMoved self).players self).headHitChance
            ((w.setMoved self).players self).torsoHitChance)
          ((w.setMoved self).players self).extremityHitChance
      · rw [resolveHit_extremity _ _ _ _ (not_lt.1 h1) (not_lt.1 h2) h3, setMoved_id, htm]
          at hres
        obtain ⟨rfl, rfl⟩ := Prod.mk.inj hres
        exact ⟨Or.inr (Or.inr (Or.inl rfl)), rfl, fun u hus hut => hframe _ u hus hut, hsorted⟩
      · rw [resolveHit_miss _ _ _ _ (not_lt.1 h1) (not_lt.1 h2) (not_lt.1 h3), setMoved_id]
          at hres
        obtain ⟨rfl, rfl⟩ := Prod.mk.inj hres
        refine ⟨Or.inr (Or.inr (Or.inr rfl)), rfl, ?_, hsorted⟩
        intro u hus _
        rw [setMoved_players, if_neg hus]

/-- Instance of C9: in `skirmish` the target square `(2,0)` lists the eligible
units 1 and 2; the shot of player 0 is resolved against player 1 and player 2
keeps its record. -/
theorem attack_single_target_witness :
    ∃ out w', Player.attack skirmish 0 RIGHT 2 0 (7 / 10) = some (out, w') ∧
      (out = AttackOutcome.headshot (skirmish.players 0).id ∨
        out = AttackOutcome.torso (skirmish.players 0).id (skirmish.players 1).id ∨
        out = AttackOutcome.extremity (skirmish.players 0).id (skirmish.players 1).id
          ((skirmish.players 1).hitsToExtremities + 1) ∨
        out = AttackOutcome.missed (skirmish.players 0).id) ∧
      w'.board = skirmish.board ∧
      (∀ u : Fin 3, u ≠ 0 → u ≠ 1 → w'.players u = skirmish.players u) ∧
      (([] ++ (1 : Fin 3) :: [2]).Pairwise
          (fun a b => (skirmish.players a).id ≤ (skirmish.players b).id) →
        ∀ u ∈ [] ++ (1 : Fin 3) :: [2],
          (skirmish.players u).team ≠ (skirmish.players 0).team →
          (skirmish.players u).eliminated = false →
          (skirmish.players 1).id ≤ (skirmish.players u).id) :=
  attack_single_target skirmish 0 RIGHT 2 2 0 (7 / 10) [] [2] 1 (by decide) rfl skirmish_reaches

/-- C10: `Player::attack` mutates nothing on failure.  If the call returns the
failure flag (invalid direction, invalid range, target off-board, line of sight
blocked, no valid target, or a miss), every cell's unit list is unchanged and
every unit's record is unchanged, except that the attacker's acted-this-round
flag `moved` is set. -/
theorem attack_failure_no_mutation (w w' : World n) (self : Fin n) (direction squares : Int)
    (rangeRoll hitRoll : ℚ) (out : AttackOutcome)
    (h : Player.attack w self direction squares rangeRoll hitRoll = some (out, w'))
    (hf : out.success = false) :
    w'.board = w.board ∧
      ∀ u : Fin n, w'.players u =
        if u = self then { w.players u with moved := true } else w.players u := by
  have hw := attack_failed_world w w' self direction squares rangeRoll hitRoll out h hf
  subst hw
  exact ⟨rfl, fun u => setMoved_players w self u⟩

/-- Instance of C10: in `skirmish` player 2 shoots to the left at range 1 at the
empty square `(1,0)`; the attack fails and only its `moved` flag is set. -/
theorem attack_failure_no_mutation_witness :
    (skirmish.setMoved 2).board = skirmish.board ∧
      ∀ u : Fin 3, (skirmish.setMoved 2).players u =
        if u = 2 then { skirmish.players u with moved := true } else skirmish.players u :=
  attack_failure_no_mutation skirmish (skirmish.setMoved 2) 2 LEFT 1 0 0
    AttackOutcome.noValidTarget rfl rfl

/-! ## The win evaluator -/

theorem any_standsOn_iff (g : Game n) (team : List (Fin n)) (flag : Int × Int) :
    team.any (g.standsOn flag) = true ↔ g.LiveOn team flag := by
  simp [List.any_eq_true, Game.standsOn, Game.LiveOn, and_assoc]

theorem all_eliminated_iff (g : Game n) (team : List (Fin n)) :
    team.all (fun p => (g.world.players p).eliminated) = true ↔ ¬ g.HasLive team := by
  simp [List.all_eq_true, Game.HasLive]

theorem any_activeAwayFrom_iff (g : Game n) (team : List (Fin n)) (flag : Int × Int) :
    team.any (g.activeAwayFrom flag) = true ↔ ¬ g.AllLiveOn team flag := by
  simp only [List.any_eq_true, Game.activeAwayFrom, Game.AllLiveOn, Bool.and_eq_true,
    Bool.not_eq_true', Bool.or_eq_true, decide_eq_true_eq, not_forall]
  constructor
  · rintro ⟨p, hp, hl, hoff⟩
    exact ⟨p, hp, hl, fun h => by rcases hoff with h1 | h1 <;> [exact h1 h.1; exact h1 h.2]⟩
  · rintro ⟨p, hp, hl, hoff⟩
    refine ⟨p, hp, hl, ?_⟩
    by_cases hx : (g.world.players p).x = flag.1
    · exact Or.inr (fun hy => hoff ⟨hx, hy⟩)
    · exact Or.inl hx

/-- The branch `Game::checkEndConditions` takes, in terms of the rosters. -/
theorem endReason_eq (g : Game n) :
    g.endReason =
      if g.LiveOn g.redTeam g.blueFlag then some EndReason.redCapture
      else if g.LiveOn g.blueTeam g.redFlag then some EndReason.blueCapture
      else if ¬ g.HasLive g.redTeam then some EndReason.redEliminated
      else if ¬ g.HasLive g.blueTeam then some EndReason.blueEliminated
      else if g.AllLiveOn g.redTeam g.redFlag then some EndReason.redRetreat
      else if g.AllLiveOn g.blueTeam g.blueFlag then some EndReason.blueRetreat
      else none := by
  unfold Game.endReason
  by_cases h1 : g.LiveOn g.redTeam g.blueFlag
  · rw [if_pos ((any_standsOn_iff g _ _).2 h1), if_pos h1]
  rw [if_neg (fun h => h1 ((any_standsOn_iff g _ _).1 h)), if_neg h1]
  by_cases h2 : g.LiveOn g.blueTeam g.redFlag
  · rw [if_pos ((any_standsOn_iff g _ _).2 h2), if_pos h2]
  rw [if_neg (fun h => h2 ((any_standsOn_iff g _ _).1 h)), if_neg h2]
  simp only
  by_cases h3 : g.HasLive g.redTeam
  · have h3' : ¬ (g.redTeam.all (fun p => (g.world.players p).eliminated) = true) :=
      fun h => (all_eliminated_iff g _).1 h h3
    rw [if_neg h3', if_neg (not_not.2 h3)]
    by_cases h4 : g.HasLive g.blueTeam
    · have h4' : ¬ (g.blueTeam.all (fun p => (g.world.players p).eliminated) = true) :=
        fun h => (all_eliminated_iff g _).1 h h4
      rw [if_neg h4', if_neg (not_not.2 h4)]
      simp only [Bool.not_eq_true] at h3' h4'
      simp only [h3', h4', Bool.not_false, Bool.and_true, Bool.not_eq_true']
      by_cases h5 : g.AllLiveOn g.redTeam g.redFlag
      · have h5' : g.redTeam.any (g.activeAwayFrom g.redFlag) = false := by
          rw [← Bool.not_eq_true]
          exact fun h => (any_activeAwayFrom_iff g _ _).1 h h5
        rw [if_pos h5', if_pos h5]
      · have h5' : g.redTeam.any (g.activeAwayFrom g.redFlag) = true :=
          (any_activeAwayFrom_iff g _ _).2 h5
        rw [if_neg (by rw [h5']; simp), if_neg h5]
        by_cases h6 : g.AllLiveOn g.blueTeam g.blueFlag
        · have h6' : g.blueTeam.any (g.activeAwayFrom g.blueFlag) = false := by
            rw [← Bool.not_eq_true]
            exact fun h => (any_activeAwayFrom_iff g _ _).1 h h6
          rw [if_pos h6', if_pos h6]
        · have h6' : g.blueTeam.any (g.activeAwayFrom g.blueFlag) = true :=
            (any_activeAwayFrom_iff g _ _).2 h6
          rw [if_neg (by rw [h6']; simp), if_neg h6]
    · rw [if_pos ((all_eliminated_iff g _).2 h4), if_pos h4]
  · rw [if_pos ((all_eliminated_iff g _).2 h3), if_pos h3]

theorem checkEnd_of_reason (g : Game n) (r : EndReason) (h : g.endReason = some r) :
    g.checkEndConditions.1 = true ∧ g.checkEndConditions.2.winner = r.winner ∧
      g.checkEndConditions.2.gameEnded = true := by
  simp [Game.checkEndConditions, h]

theorem checkEnd_of_none (g : Game n) (h : g.endReason = none) :
    g.checkEndConditions = (false, g) := by
  simp [Game.checkEndConditions, h]

/-- C12: capture has top priority in `Game::checkEndConditions`.  For every
state: if some non-eliminated Red unit stands on Blue's flag the evaluator
returns true with winner "Red Team"; otherwise, if some non-eliminated Blue unit
stands on Red's flag it returns true with winner "Blue Team".  Nothing is assumed
about eliminations or units on their own flag, so neither result depends on the
elimination and retreat conditions. -/
theorem checkEnd_capture_priority (g : Game n) :
    (g.LiveOn g.redTeam g.blueFlag →
      g.checkEndConditions.1 = true ∧ g.checkEndConditions.2.winner = "Red Team" ∧
      g.checkEndConditions.2.gameEnded = true ∧ g.endReason = some EndReason.redCapture) ∧
    (¬ g.LiveOn g.redTeam g.blueFlag → g.LiveOn g.blueTeam g.redFlag →
      g.checkEndConditions.1 = true ∧ g.checkEndConditions.2.winner = "Blue Team" ∧
      g.checkEndConditions.2.gameEnded = true ∧ g.endReason = some EndReason.blueCapture) := by
  constructor
  · intro h
    have hr : g.endReason = some EndReason.redCapture := by rw [endReason_eq, if_pos h]
    obtain ⟨h1, h2, h3⟩ := checkEnd_of_reason g _ hr
    exact ⟨h1, h2, h3, hr⟩
  · intro h1 h2
    have hr : g.endReason = some EndReason.blueCapture := by
      rw [endReason_eq, if_neg h1, if_pos h2]
    obtain ⟨h3, h4, h5⟩ := checkEnd_of_reason g _ hr
    exact ⟨h3, h4, h5, hr⟩

/-- Instance of C12: Red's only unit stands on Blue's flag `(2,2)` while Blue's
unit sits on its own flag as well; Red wins by capture. -/
theorem checkEnd_capture_priority_witness :
    (duelAt 2 2 2 2 false false).checkEndConditions.1 = true ∧
    (duelAt 2 2 2 2 false false).checkEndConditions.2.winner = "Red Team" ∧
    (duelAt 2 2 2 2 false false).checkEndConditions.2.gameEnded = true ∧
    (duelAt 2 2 2 2 false false).endReason = some EndReason.redCapture :=
  (checkEnd_capture_priority (duelAt 2 2 2 2 false false)).1 (by decide)

/-- C13: elimination in `Game::checkEndConditions`.  For every state in which
one team has no non-eliminated unit and the other has at least one, the evaluator
returns true with the other team as winner, wherever the survivors stand. -/
theorem checkEnd_elimination (g : Game n) :
    (¬ g.HasLive g.redTeam → g.HasLive g.blueTeam →
      g.checkEndConditions.1 = true ∧ g.checkEndConditions.2.winner = "Blue Team" ∧
      g.checkEndConditions.2.gameEnded = true) ∧
    (¬ g.HasLive g.blueTeam → g.HasLive g.redTeam →
      g.checkEndConditions.1 = true ∧ g.checkEndConditions.2.winner = "Red Team" ∧
      g.checkEndConditions.2.gameEnded = true) := by
  have hno : ∀ (team : List (Fin n)) (flag : Int × Int), ¬ g.HasLive team →
      ¬ g.LiveOn team flag := by
    rintro team flag h ⟨p, hp, hl, -⟩
    exact h ⟨p, hp, hl⟩
  constructor
  · intro hred _
    by_cases hcap : g.LiveOn g.blueTeam g.redFlag
    · exact checkEnd_of_reason g EndReason.blueCapture
        (by rw [endReason_eq, if_neg (hno _ _ hred), if_pos hcap])
    · exact checkEnd_of_reason g EndReason.redEliminated
        (by rw [endReason_eq, if_neg (hno _ _ hred), if_neg hcap, if_pos hred])
  · intro hblue hred
    by_cases hcap : g.LiveOn g.redTeam g.blueFlag
    · exact checkEnd_of_reason g EndReason.redCapture (by rw [endReason_eq, if_pos hcap])
    · exact checkEnd_of_reason g EndReason.blueEliminated
        (by rw [endReason_eq, if_neg hcap, if_neg (hno _ _ hblue), if_neg (not_not.2 hred),
          if_pos hblue])

/-- Instance of C13: Red's unit is eliminated and Blue's survivor sits on Blue's
own flag; Blue wins. -/
theorem checkEnd_elimination_witness :
    (duelAt 0 0 2 2 true false).checkEndConditions.1 = true ∧
    (duelAt 0 0 2 2 true false).checkEndConditions.2.winner = "Blue Team" ∧
    (duelAt 0 0 2 2 true false).checkEndConditions.2.gameEnded = true :=
  (checkEnd_elimination (duelAt 0 0 2 2 true false)).1 (by decide) (by decide)

/-- Amended C14: retreat in `Game::checkEndConditions`.  In a state with no
capture and a non-eliminated unit on each team: if every live Red unit stands on
Red's flag, the evaluator returns true with winner "Blue Team", wherever Blue's
units stand (also when every live Blue unit stands on Blue's flag: Red's retreat
is tested first); if some live Red unit stands off Red's flag and every live
Blue unit stands on Blue's flag, it returns true with winner "Red Team"; and if
neither team has all its live units on its own flag, it returns false and leaves
the game (so `gameEnded` and `winner`) unchanged. -/
theorem checkEnd_retreat (g : Game n)
    (hcapR : ¬ g.LiveOn g.redTeam g.blueFlag) (hcapB : ¬ g.LiveOn g.blueTeam g.redFlag)
    (hliveR : g.HasLive g.redTeam) (hliveB : g.HasLive g.blueTeam) :
    (g.AllLiveOn g.redTeam g.redFlag →
      g.checkEndConditions.1 = true ∧ g.checkEndConditions.2.winner = "Blue Team" ∧
      g.endReason = some EndReason.redRetreat) ∧
    (g.AllLiveOn g.blueTeam g.blueFlag → g.LiveOff g.redTeam g.redFlag →
      g.checkEndConditions.1 = true ∧ g.checkEndConditions.2.winner = "Red Team" ∧
      g.endReason = some EndReason.blueRetreat) ∧
    (¬ g.AllLiveOn g.redTeam g.redFlag → ¬ g.AllLiveOn g.blueTeam g.blueFlag →
      g.checkEndConditions = (false, g)) := by
  have hoff : ∀ (team : List (Fin n)) (flag : Int × Int), g.LiveOff team flag →
      ¬ g.AllLiveOn team flag := by
    rintro team flag ⟨p, hp, hl, hn⟩ hall
    exact hn (hall p hp hl)
  refine ⟨?_, ?_, ?_⟩
  · intro hall
    have hr : g.endReason = some EndReason.redRetreat := by
      rw [endReason_eq, if_neg hcapR, if_neg hcapB, if_neg (not_not.2 hliveR),
        if_neg (not_not.2 hliveB), if_pos hall]
    exact ⟨(checkEnd_of_reason g _ hr).1, (checkEnd_of_reason g _ hr).2.1, hr⟩
  · intro hall hredoff
    have hr : g.endReason = some EndReason.blueRetreat := by
      rw [endReason_eq, if_neg hcapR, if_neg hcapB, if_neg (not_not.2 hliveR),
        if_neg (not_not.2 hliveB), if_neg (hoff _ _ hredoff), if_pos hall]
    exact ⟨(checkEnd_of_reason g _ hr).1, (checkEnd_of_reason g _ hr).2.1, hr⟩
  · intro hred hblue
    apply checkEnd_of_none
    rw [endReason_eq, if_neg hcapR, if_neg hcapB, if_neg (not_not.2 hliveR),
      if_neg (not_not.2 hliveB), if_neg hred, if_neg hblue]

/-- Instance of amended C14: Blue's unit sits on Blue's flag `(2,2)` and Red's
unit stands on `(1,1)`, off Red's flag; Red wins by Blue's retreat. -/
theorem checkEnd_retreat_witness :
    (duelAt 1 1 2 2 false false).checkEndConditions.1 = true ∧
    (duelAt 1 1 2 2 false false).checkEndConditions.2.winner = "Red Team" ∧
    (duelAt 1 1 2 2 false false).endReason = some EndReason.blueRetreat :=
  (checkEnd_retreat (duelAt 1 1 2 2 false false) (by decide) (by decide) (by decide)
    (by decide)).2.1 (by decide) (by decide)

/-- Counterexample to C14 as stated: in `duel` each unit sits on its own flag.
There is no capture and no eliminated team, and for neither team does the
retreat of the claim hold (all its live units on its own flag while the other
team has a live unit off its flag), so the claim has the evaluator return false;
it returns true with winner "Blue Team", because Red's units are all on Red's
flag and that test comes first. -/
theorem checkEnd_both_on_own_flags :
    ¬ duel.LiveOn duel.redTeam duel.blueFlag ∧ ¬ duel.LiveOn duel.blueTeam duel.redFlag ∧
    duel.HasLive duel.redTeam ∧ duel.HasLive duel.blueTeam ∧
    ¬ (duel.AllLiveOn duel.redTeam duel.redFlag ∧ duel.LiveOff duel.blueTeam duel.blueFlag) ∧
    ¬ (duel.AllLiveOn duel.blueTeam duel.blueFlag ∧ duel.LiveOff duel.redTeam duel.redFlag) ∧
    duel.checkEndConditions.1 = true ∧ duel.checkEndConditions.2.winner = "Blue Team" ∧
    duel.checkEndConditions.2.gameEnded = true := by
  refine ⟨by decide, by decide, by decide, by decide, by decide, by decide, ?_, ?_, ?_⟩ <;> rfl

/-! ## Range validation of Player::attack -/

theorem resolveHit_ne_invalidRange (w : World n) (self target : Fin n) (r : ℚ) (e : Bool) :
    (Player.resolveHit w self target r).1 ≠ AttackOutcome.invalidRange e := by
  unfold Player.resolveHit
  simp only
  split_ifs <;> simp

theorem selectAndResolve_ne_invalidRange (w w' : World n) (self : Fin n) (r : ℚ)
    (out : AttackOutcome) (e : Bool) :
    ∀ l : List (Fin n), Player.selectAndResolve w self r l = some (out, w') →
      out ≠ AttackOutcome.invalidRange e := by
  intro l
  induction l with
  | nil => intro h; simp [Player.selectAndResolve] at h
  | cons t rest ih =>
    intro h
    unfold Player.selectAndResolve at h
    split_ifs at h
    · have he := Option.some.inj h
      have hne := resolveHit_ne_invalidRange w self t r e
      rw [he] at hne
      exact hne
    · exact ih h

theorem attackLoop_ne_invalidRange (w w' : World n) (self : Fin n) (dx dy squares : Int)
    (r : ℚ) (out : AttackOutcome) (e : Bool) :
    ∀ (fuel : Nat) (i : Int),
      Player.attackLoop w self dx dy squares r fuel i = some (some (out, w')) →
      out ≠ AttackOutcome.invalidRange e := by
  intro fuel
  induction fuel with
  | zero => intro i h; simp [Player.attackLoop] at h
  | succ k ih =>
    intro i h
    unfold Player.attackLoop at h
    split at h
    · cases h
    · split_ifs at h
      · cases h; simp
      · split at h
        · cases h
          exact selectAndResolve_ne_invalidRange w w' self r out e _ (by assumption)
        · exact ih _ h
      · cases h; simp
      · exact ih _ h

/-- C11: range validation of `Player::attack`.  For a valid direction and an
explicit range `r` other than the sentinel `-1`: if `r < 1` or `r` exceeds the
class maximum (2 for an expert, 1 for a novice) the attack is rejected with the
invalid-range text, in a world that differs from the given one in the attacker's
`moved` flag only; and whenever a call returns the invalid-range rejection, `r`
is out of that range.  Nothing is assumed about the board, which the rejected
call does not read; range 0 and range 2 by a novice are instances. -/
theorem attack_range_validation (w : World n) (self : Fin n) (direction dx dy r : Int)
    (rangeRoll hitRoll : ℚ)
    (hdir : (direction, dx, dy) ∈
      [(UP, (0 : Int), (-1 : Int)), (DOWN, 0, 1), (LEFT, -1, 0), (RIGHT, 1, 0)])
    (hr : r ≠ -1) :
    ((r < 1 ∨ r > (if (w.players self).expert then 2 else 1)) →
      Player.attack w self direction r rangeRoll hitRoll =
        some (AttackOutcome.invalidRange (w.players self).expert, w.setMoved self) ∧
      (AttackOutcome.invalidRange (w.players self).expert).message =
        "Invalid attack range. " ++
          (if (w.players self).expert then "Expert players can attack 1-2 squares."
           else "Novice players can only attack 1 square.")) ∧
    (∀ (out : AttackOutcome) (w' : World n) (e : Bool),
      Player.attack w self direction r rangeRoll hitRoll = some (out, w') →
      out = AttackOutcome.invalidRange e →
      r < 1 ∨ r > (if (w.players self).expert then 2 else 1)) := by
  have hdelta := directionDelta_of_mem _ _ _ hdir
  constructor
  · intro hbad
    refine ⟨?_, rfl⟩
    have hv : r ≠ -1 ∧
        (r > (if (w.players self).expert = true then (2 : Int) else 1) ∨ r < 1) :=
      ⟨hr, hbad.symm⟩
    unfold Player.attack
    simp only [hdelta, setMoved_expert, if_pos hv]
  · intro out w' e h hout
    by_contra hgood
    have hv : ¬ (r ≠ -1 ∧
        (r > (if ((w.setMoved self).players self).expert = true then (2 : Int) else 1)
          ∨ r < 1)) := by
      rw [setMoved_expert]
      rintro ⟨-, hbad⟩
      exact hgood hbad.symm
    unfold Player.attack at h
    simp only [hdelta, if_neg hv] at h
    subst hout
    split_ifs at h
    · cases h
    · split at h
      · cases h
      · cases h
        exact attackLoop_ne_invalidRange _ _ _ _ _ _ _ _ e _ _ (by assumption) rfl
      · cases h

/-- Instance of C11: in `skirmish` the novice player 2 asks for range 2 to the
left and is rejected. -/
theorem attack_range_validation_witness :
    Player.attack skirmish 2 LEFT 2 0 0 =
      some (AttackOutcome.invalidRange (skirmish.players 2).expert, skirmish.setMoved 2) ∧
    (AttackOutcome.invalidRange (skirmish.players 2).expert).message =
      "Invalid attack range. " ++
        (if (skirmish.players 2).expert then "Expert players can attack 1-2 squares."
         else "Novice players can only attack 1 square.") :=
  (attack_range_validation skirmish 2 LEFT (-1) 0 2 0 0 (by decide) (by decide)).1
    (Or.inr (by decide))

/-! ## The end-to-end scenario and eliminated units on a path -/

/-- Amended C15: the end-to-end scenario on the 3x3 board `duel`.  "Red moves
right 2" is carried out and puts Red's unit on `(2,0)`; "Red moves down 2" is
rejected as blocked by the opponent, because Blue's unit stands on the final
square `(2,2)`; Red's unit stays on `(2,0)`, and the win evaluator then returns
true with winner "Red Team" through the retreat branch (Blue's only live unit is
on Blue's flag), not through the capture branch. -/
theorem scenario_blocked_then_retreat_win :
    (Player.move duel.world 0 RIGHT 2 0).map Prod.fst = some (MoveOutcome.moved 0 2 0) ∧
    (Player.move (((Player.move duel.world 0 RIGHT 2 0).map Prod.snd).getD duel.world)
      0 DOWN 2 0).map Prod.fst = some MoveOutcome.blockedByOpponent ∧
    (duelScenario.players 0).x = 2 ∧ (duelScenario.players 0).y = 0 ∧
    ({ duel with world := duelScenario } : Game 2).endReason = some EndReason.blueRetreat ∧
    ({ duel with world := duelScenario } : Game 2).checkEndConditions.1 = true ∧
    ({ duel with world := duelScenario } : Game 2).checkEndConditions.2.winner = "Red Team" := by
  refine ⟨rfl, rfl, rfl, rfl, rfl, rfl, rfl⟩

/-- Counterexample to C15 as stated: after "Red moves right 2, then down 2" on
`duel`, Red's unit is not on `(2,2)` and the evaluator does not take the capture
branch. -/
theorem scenario_no_capture :
    ¬ ((duelScenario.players 0).x = 2 ∧ (duelScenario.players 0).y = 2) ∧
    ({ duel with world := duelScenario } : Game 2).endReason ≠ some EndReason.redCapture := by
  constructor
  · rintro ⟨-, hy⟩
    have h0 : (duelScenario.players 0).y = 0 := rfl
    rw [h0] at hy
    exact absurd hy (by decide)
  · have hr : ({ duel with world := duelScenario } : Game 2).endReason
        = some EndReason.blueRetreat := rfl
    rw [hr]
    decide

/-- A unit of the other team on the path, eliminated or not, blocks the move. -/
theorem move_blocked_of_other_team (w : World n) (self q : Fin n) (direction dx dy d k : Int)
    (roll : ℚ) (c : Cell n)
    (hrect : RectBoard w.board)
    (hon : w.OnBoard self)
    (hdir : (direction, dx, dy) ∈
      [(UP, (0 : Int), (-1 : Int)), (DOWN, 0, 1), (LEFT, -1, 0), (RIGHT, 1, 0)])
    (hd1 : 1 ≤ d) (hcap : d ≤ (w.players self).maxMovement)
    (hk1 : 1 ≤ k) (hkd : k ≤ d)
    (hc : cellAt w.board ((w.players self).x + dx * k) ((w.players self).y + dy * k) = some c)
    (hq : q ∈ c.players) (hteam : (w.players q).team ≠ (w.players self).team) :
    Player.move w self direction d roll
      = some (MoveOutcome.blockedByOpponent, w.setMoved self) := by
  have hdelta := directionDelta_of_mem _ _ _ hdir
  have hkin := (outOfBounds_eq_false_iff _ _ _).1 (inBounds_of_cellAt _ hrect _ _ _ hc)
  obtain ⟨c0, hc0⟩ := hon
  have hsin := (outOfBounds_eq_false_iff _ _ _).1 (inBounds_of_cellAt _ hrect _ _ _ hc0)
  have hpath : ∀ j : Int, 1 ≤ j → j ≤ k →
      outOfBounds w.board ((w.players self).x + dx * j) ((w.players self).y + dy * j) = false := by
    intro j hj1 hjk
    rw [outOfBounds_eq_false_iff]
    simp only [List.mem_cons, Prod.mk.injEq, List.mem_singleton, List.not_mem_nil,
      or_false] at hdir
    rcases hdir with ⟨-, rfl, rfl⟩ | ⟨-, rfl, rfl⟩ | ⟨-, rfl, rfl⟩ | ⟨-, rfl, rfl⟩ <;>
      refine ⟨?_, ?_, ?_, ?_⟩ <;> omega
  have hloop : Player.moveLoop (w.setMoved self) self dx dy d d.toNat 1 =
      some (some MoveOutcome.blockedByOpponent) := by
    have hkk : (1 : Int) + ((k - 1).toNat : Int) = k := by omega
    apply moveLoop_blocked (w.setMoved self) self dx dy d (k - 1).toNat d.toNat 1
      (by omega) (by omega)
    · intro j hj1 hjk
      simp only [setMoved_x, setMoved_y, setMoved_board]
      have hin := hpath j hj1 (by omega)
      exact ⟨hin, cellAt_of_inBounds _ hrect _ _ hin⟩
    · simp only [setMoved_x, setMoved_y, setMoved_board, setMoved_team, hkk]
      exact ⟨c, hc, q, hq, hteam⟩
  rw [move_eq_of_valid w self direction dx dy d roll hdelta (by omega) hcap, hloop]

/-- On an on-board path that lists no unit of the other team and ends in a cell
of fewer than 4 units, the move is carried out. -/
theorem move_of_clear_path (w : World n) (self : Fin n) (direction dx dy d : Int)
    (roll : ℚ) (fin : Cell n)
    (hrect : RectBoard w.board) (hon : w.OnBoard self)
    (hdir : (direction, dx, dy) ∈
      [(UP, (0 : Int), (-1 : Int)), (DOWN, 0, 1), (LEFT, -1, 0), (RIGHT, 1, 0)])
    (hd1 : 1 ≤ d) (hcap : d ≤ (w.players self).maxMovement)
    (hpath : ∀ j : Int, 1 ≤ j → j ≤ d →
      ∃ c, cellAt w.board ((w.players self).x + dx * j) ((w.players self).y + dy * j) = some c ∧
        ∀ q ∈ c.players, (w.players q).team = (w.players self).team)
    (hfin : cellAt w.board ((w.players self).x + dx * d) ((w.players self).y + dy * d)
      = some fin)
    (hroom : fin.players.length < 4) :
    ∃ w', Player.move w self direction d roll =
      some (MoveOutcome.moved (w.players self).id ((w.players self).x + dx * d)
        ((w.players self).y + dy * d), w') := by
  have hdelta := directionDelta_of_mem _ _ _ hdir
  have hloop := moveLoop_clear (w.setMoved self) self dx dy d fin
    (by simpa only [setMoved_x, setMoved_y, setMoved_board] using hfin) d.toNat 1 (by omega)
    (by
      intro j hj1 hjd
      obtain ⟨c, hc, hteam⟩ := hpath j hj1 hjd
      simp only [setMoved_x, setMoved_y, setMoved_board, setMoved_team]
      exact ⟨inBounds_of_cellAt _ hrect _ _ _ hc, c, hc, hteam⟩)
  rw [if_neg (by omega), if_neg (by omega)] at hloop
  rw [move_eq_of_valid w self direction dx dy d roll hdelta (by omega) hcap, hloop]
  obtain ⟨c0, hc0⟩ := hon
  have hne : ¬ ((w.players self).x + dx * d = (w.players self).x ∧
      (w.players self).y + dy * d = (w.players self).y) := by
    simp only [List.mem_cons, Prod.mk.injEq, List.mem_singleton, List.not_mem_nil,
      or_false] at hdir
    rcases hdir with ⟨-, rfl, rfl⟩ | ⟨-, rfl, rfl⟩ | ⟨-, rfl, rfl⟩ | ⟨-, rfl, rfl⟩ <;> omega
  have h1 : cellAt (setCell w.board (w.players self).x (w.players self).y
      (c0.removePlayer self)) ((w.players self).x + dx * d)
      ((w.players self).y + dy * d) = some fin := by
    rw [cellAt_setCell_ne _ _ _ _ _ c0 _ hc0 hne]; exact hfin
  simp only [Player.relocate, setMoved_x, setMoved_y, setMoved_board, hc0,
    Player.setPosition, h1, setMoved_id]
  exact ⟨_, rfl⟩

/-- Amended C16: eliminated units of the other team do block movement.  For a
unit on a rectangular board, a direction with its vector and a distance `d` with
`1 ≤ d ≤` movement capacity: if the path cells (distance `1..d`) are on the
board and list no unit of the other team at all, eliminated or not, and the
final cell holds fewer than 4 units, the move succeeds; and if a path cell lists
an eliminated unit of the other team, the move is rejected with the
blocked-by-opponent reason, as it is for a live one. -/
theorem move_blocked_by_eliminated_too (w : World n) (self : Fin n)
    (direction dx dy d : Int) (roll : ℚ)
    (hrect : RectBoard w.board) (hon : w.OnBoard self)
    (hdir : (direction, dx, dy) ∈
      [(UP, (0 : Int), (-1 : Int)), (DOWN, 0, 1), (LEFT, -1, 0), (RIGHT, 1, 0)])
    (hd1 : 1 ≤ d) (hcap : d ≤ (w.players self).maxMovement) :
    (∀ fin : Cell n,
      (∀ j : Int, 1 ≤ j → j ≤ d →
        ∃ c, cellAt w.board ((w.players self).x + dx * j) ((w.players self).y + dy * j)
            = some c ∧
          ∀ q ∈ c.players, (w.players q).team = (w.players self).team) →
      cellAt w.board ((w.players self).x + dx * d) ((w.players self).y + dy * d) = some fin →
      fin.players.length < 4 →
      ∃ out w', Player.move w self direction d roll = some (out, w') ∧
        out.isSuccess = true) ∧
    (∀ (k : Int) (c : Cell n) (q : Fin n), 1 ≤ k → k ≤ d →
      cellAt w.board ((w.players self).x + dx * k) ((w.players self).y + dy * k) = some c →
      q ∈ c.players → (w.players q).team ≠ (w.players self).team →
      (w.players q).eliminated = true →
      ∃ out w', Player.move w self direction d roll = some (out, w') ∧
        out = MoveOutcome.blockedByOpponent ∧ out.isSuccess = false) := by
  constructor
  · intro fin hpath hfin hroom
    obtain ⟨w', hw'⟩ := move_of_clear_path w self direction dx dy d roll fin hrect hon hdir
      hd1 hcap hpath hfin hroom
    exact ⟨_, w', hw', rfl⟩
  · intro k c q hk1 hkd hc hq hteam _
    exact ⟨_, _, move_blocked_of_other_team w self q direction dx dy d k roll c hrect hon hdir
      hd1 hcap hk1 hkd hc hq hteam, rfl, rfl⟩

/-- Instance of amended C16: in `graveyard` Red's unit asks for one square to the
right, where Blue's eliminated unit lies, and is blocked. -/
theorem move_blocked_by_eliminated_too_witness :
    ∃ out w', Player.move graveyard 0 RIGHT 1 0 = some (out, w') ∧
      out = MoveOutcome.blockedByOpponent ∧ out.isSuccess = false :=
  (move_blocked_by_eliminated_too graveyard 0 RIGHT 1 0 1 0 (by decide) ⟨_, rfl⟩ (by decide)
    (by decide) (by decide)).2 1 ⟨[1]⟩ 1 (by decide) (by decide) rfl (by decide) (by decide) rfl

/-- Counterexample to C16 as stated: in `graveyard` the request "one square to
the right" is within capacity, the path square `(1,0)` is on the board and lists
no non-eliminated unit of the other team (only Blue's eliminated unit 1), and it
holds fewer than 4 units; yet the move does not succeed: it is rejected with the
blocked-by-opponent reason. -/
theorem move_eliminated_opponent_blocks :
    (1 : Int) ≤ (graveyard.players 0).maxMovement ∧
    cellAt graveyard.board ((graveyard.players 0).x + 1 * 1) ((graveyard.players 0).y + 0 * 1)
      = some ⟨[1]⟩ ∧
    (∀ q ∈ ([1] : List (Fin 2)), ¬ ((graveyard.players q).team ≠ (graveyard.players 0).team ∧
      (graveyard.players q).eliminated = false)) ∧
    ([1] : List (Fin 2)).length < 4 ∧
    (Player.move graveyard 0 RIGHT 1 0).map Prod.fst = some MoveOutcome.blockedByOpponent ∧
    MoveOutcome.blockedByOpponent.isSuccess = false := by
  refine ⟨by decide, rfl, by decide, by decide, rfl, rfl⟩

/-! ## The resolver calls of a turn -/

theorem sameButMoved_refl (w : World n) : w.SameButMoved w := ⟨rfl, fun _ => rfl⟩

theorem sameButMoved_trans (w1 w2 w3 : World n) (h12 : w1.SameButMoved w2)
    (h23 : w2.SameButMoved w3) : w1.SameButMoved w3 :=
  ⟨h23.1.trans h12.1, fun u => (h23.2 u).trans (h12.2 u)⟩

theorem sameButMoved_setMoved (w : World n) (self : Fin n) : w.SameButMoved (w.setMoved self) := by
  refine ⟨rfl, fun u => ?_⟩
  rw [setMoved_players]
  split <;> rfl

/-- What `SameButMoved` keeps of a player: every member but `moved`. -/
theorem sameButMoved_fields (w w' : World n) (h : w.SameButMoved w') (u : Fin n) :
    (w'.players u).x = (w.players u).x ∧ (w'.players u).y = (w.players u).y ∧
    (w'.players u).eliminated = (w.players u).eliminated ∧
    (w'.players u).eliminationReason = (w.players u).eliminationReason ∧
    (w'.players u).hitsToExtremities = (w.players u).hitsToExtremities ∧
    (w'.players u).range = (w.players u).range ∧
    (w'.players u).team = (w.players u).team := by
  have hu := h.2 u
  have h1 := congrArg Player.x hu
  have h2 := congrArg Player.y hu
  have h3 := congrArg Player.eliminated hu
  have h4 := congrArg Player.eliminationReason hu
  have h5 := congrArg Player.hitsToExtremities hu
  have h6 := congrArg Player.range hu
  have h7 := congrArg Player.team hu
  exact ⟨h1, h2, h3, h4, h5, h6, h7⟩

theorem step_nil (t : Turn n) : t.Step t false [] :=
  ⟨by simp, fun _ => ⟨by simp, sameButMoved_refl _⟩, fun h => by cases h⟩

theorem step_trans (t t1 t2 : Turn n) (b : Bool) (new1 new2 : List (Call n))
    (h1 : t.Step t1 false new1) (h2 : t1.Step t2 b new2) : t.Step t2 b (new1 ++ new2) := by
  obtain ⟨hc1, hf1, -⟩ := h1
  obtain ⟨hc2, hf2, hs2⟩ := h2
  obtain ⟨hall1, hw1⟩ := hf1 rfl
  refine ⟨by rw [hc2, hc1, List.append_assoc], ?_, ?_⟩
  · intro hb
    obtain ⟨hall2, hw2⟩ := hf2 hb
    refine ⟨?_, sameButMoved_trans _ _ _ hw1 hw2⟩
    intro c hc
    rcases List.mem_append.1 hc with h | h
    · exact hall1 c h
    · exact hall2 c h
  · intro hb
    obtain ⟨init, c, hnew, hc, hinit⟩ := hs2 hb
    refine ⟨new1 ++ init, c, by rw [hnew, List.append_assoc], hc, ?_⟩
    intro c' hc'
    rcases List.mem_append.1 hc' with h | h
    · exact hall1 c' h
    · exact hinit c' h

theorem turn_attack_step (t t1 : Turn n) (rng : Nat → ℚ) (self : Fin n) (dir range : Int)
    (out : AttackOutcome) (h : t.attack rng self dir range = some (out, t1)) :
    t.Step t1 out.success [Call.attack self dir range out] := by
  unfold Turn.attack at h
  simp only at h
  split at h
  · cases h
  · rename_i o w hatt
    cases h
    refine ⟨rfl, ?_, ?_⟩
    · intro hb
      refine ⟨by simpa [Call.success] using hb, ?_⟩
      have hw := attack_failed_world _ _ _ _ _ _ _ _ hatt hb
      simp only [hw]
      exact sameButMoved_setMoved _ _
    · intro hb
      exact ⟨[], _, rfl, by simpa [Call.success] using hb, by simp⟩

theorem turn_move_step (t t1 : Turn n) (rng : Nat → ℚ) (self : Fin n) (dir squares : Int)
    (out : MoveOutcome) (h : t.move rng self dir squares = some (out, t1)) :
    t.Step t1 out.isSuccess [Call.move self dir squares out] := by
  unfold Turn.move at h
  split at h
  · cases h
  · rename_i o w hmv
    cases h
    refine ⟨rfl, ?_, ?_⟩
    · intro hb
      refine ⟨by simpa [Call.success] using hb, ?_⟩
      have hw := move_rejected_world _ _ _ _ _ _ _ hmv hb
      simp only [hw]
      exact sameButMoved_setMoved _ _
    · intro hb
      exact ⟨[], _, rfl, by simpa [Call.success] using hb, by simp⟩

theorem scanRanges_step (rng : Nat → ℚ) (self : Fin n) (dir : Int) :
    ∀ (fuel : Nat) (range : Int) (t t' : Turn n) (b : Bool),
      Game.scanRanges rng self dir fuel range t = some (b, t') →
      ∃ new, t.Step t' b new ∧ (∀ c ∈ new, c.unit = self) ∧ (1 ≤ fuel → new ≠ []) := by
  intro fuel
  induction fuel with
  | zero =>
    intro range t t' b h
    simp only [Game.scanRanges, Option.some.injEq, Prod.mk.injEq] at h
    obtain ⟨rfl, rfl⟩ := h
    exact ⟨[], step_nil t, by simp, by omega⟩
  | succ k ih =>
    intro range t t' b h
    unfold Game.scanRanges at h
    cases hatt : t.attack rng self dir range with
    | none => rw [hatt] at h; cases h
    | some p =>
      obtain ⟨out, t1⟩ := p
      rw [hatt] at h
      simp only at h
      have hstep := turn_attack_step t t1 rng self dir range out hatt
      by_cases hs : out.success = true
      · rw [if_pos hs] at h
        simp only [Option.some.injEq, Prod.mk.injEq] at h
        obtain ⟨rfl, rfl⟩ := h
        rw [hs] at hstep
        exact ⟨_, hstep, by simp [Call.unit], by simp⟩
      · rw [if_neg hs] at h
        rw [Bool.not_eq_true] at hs
        rw [hs] at hstep
        obtain ⟨new, hnew, hunits, -⟩ := ih _ _ _ _ h
        refine ⟨_, step_trans _ _ _ _ _ _ hstep hnew, ?_, by simp⟩
        intro c hc
        rcases List.mem_append.1 hc with h1 | h1
        · simp only [List.mem_singleton] at h1
          subst h1
          rfl
        · exact hunits c h1

theorem scanDirections_step (rng : Nat → ℚ) (self : Fin n) :
    ∀ (dirs : List Int) (t t' : Turn n) (b : Bool),
      Game.scanDirections rng self dirs t = some (b, t') →
      ∃ new, t.Step t' b new ∧ (∀ c ∈ new, c.unit = self) ∧
        (dirs ≠ [] → 1 ≤ (t.world.players self).range → new ≠ []) := by
  intro dirs
  induction dirs with
  | nil =>
    intro t t' b h
    simp only [Game.scanDirections, Option.some.injEq, Prod.mk.injEq] at h
    obtain ⟨rfl, rfl⟩ := h
    exact ⟨[], step_nil t, by simp, by simp⟩
  | cons dir rest ih =>
    intro t t' b h
    unfold Game.scanDirections at h
    cases hscan : Game.scanRanges rng self dir (t.world.players self).range.toNat 1 t with
    | none => rw [hscan] at h; cases h
    | some p =>
      obtain ⟨b1, t1⟩ := p
      rw [hscan] at h
      obtain ⟨new1, hstep1, hunits1, hne1⟩ := scanRanges_step rng self dir _ _ _ _ _ hscan
      cases b1 with
      | true =>
        simp only [Option.some.injEq, Prod.mk.injEq] at h
        obtain ⟨rfl, rfl⟩ := h
        exact ⟨new1, hstep1, hunits1, fun _ hr => hne1 (by omega)⟩
      | false =>
        simp only at h
        obtain ⟨new2, hstep2, hunits2, -⟩ := ih _ _ _ h
        refine ⟨_, step_trans _ _ _ _ _ _ hstep1 hstep2, ?_, ?_⟩
        · intro c hc
          rcases List.mem_append.1 hc with h1 | h1
          · exact hunits1 c h1
          · exact hunits2 c h1
        · intro _ hr
          have := hne1 (by omega)
          simp [this]

theorem tryMoves_step (rng : Nat → ℚ) (self : Fin n) (maxSteps : Int) :
    ∀ (dirs : List Int) (t t' : Turn n) (b : Bool),
      Game.tryMoves rng self maxSteps dirs t = some (b, t') →
      ∃ new, t.Step t' b new ∧ (∀ c ∈ new, c.unit = self) := by
  intro dirs
  induction dirs with
  | nil =>
    intro t t' b h
    simp only [Game.tryMoves, Option.some.injEq, Prod.mk.injEq] at h
    obtain ⟨rfl, rfl⟩ := h
    exact ⟨[], step_nil t, by simp⟩
  | cons dir rest ih =>
    intro t t' b h
    unfold Game.tryMoves at h
    cases hmv : t.move rng self dir maxSteps with
    | none => rw [hmv] at h; cases h
    | some p =>
      obtain ⟨out, t1⟩ := p
      rw [hmv] at h
      simp only at h
      have hstep := turn_move_step t t1 rng self dir maxSteps out hmv
      by_cases hs : out.isSuccess = true
      · rw [if_pos hs] at h
        simp only [Option.some.injEq, Prod.mk.injEq] at h
        obtain ⟨rfl, rfl⟩ := h
        rw [hs] at hstep
        exact ⟨_, hstep, by simp [Call.unit]⟩
      · rw [if_neg hs] at h
        rw [Bool.not_eq_true] at hs
        rw [hs] at hstep
        obtain ⟨new, hnew, hunits⟩ := ih _ _ _ h
        refine ⟨_, step_trans _ _ _ _ _ _ hstep hnew, ?_⟩
        intro c hc
        rcases List.mem_append.1 hc with h1 | h1
        · simp only [List.mem_singleton] at h1
          subst h1
          rfl
        · exact hunits c h1

theorem programUnit_step (rng : Nat → ℚ) (flag : Int × Int) (self : Fin n) (t t' : Turn n)
    (b : Bool) (h : Game.programUnit rng flag self t = some (b, t')) :
    ∃ new, t.Step t' b new ∧ (∀ c ∈ new, c.unit = self) ∧
      (1 ≤ (t.world.players self).range → new ≠ []) := by
  unfold Game.programUnit at h
  simp only at h
  cases hscan : Game.scanDirections rng self [UP, DOWN, LEFT, RIGHT] t with
  | none => rw [hscan] at h; cases h
  | some p =>
    obtain ⟨b1, t1⟩ := p
    rw [hscan] at h
    obtain ⟨new1, hstep1, hunits1, hne1⟩ := scanDirections_step rng self _ _ _ _ hscan
    cases b1 with
    | true =>
      simp only [Option.some.injEq, Prod.mk.injEq] at h
      obtain ⟨rfl, rfl⟩ := h
      exact ⟨new1, hstep1, hunits1, fun hr => hne1 (by simp) hr⟩
    | false =>
      simp only at h
      cases hmv : Game.tryMoves rng self (t1.world.players self).maxMovement
          (Game.moveDirections (flag.1 - (t.world.players self).x)
            (flag.2 - (t.world.players self).y)) t1 with
      | none => rw [hmv] at h; cases h
      | some p2 =>
        obtain ⟨b2, t2⟩ := p2
        rw [hmv] at h
        obtain ⟨new2, hstep2, hunits2⟩ := tryMoves_step rng self _ _ _ _ _ hmv
        have hunits12 : ∀ c ∈ new1 ++ new2, c.unit = self := by
          intro c hc
          rcases List.mem_append.1 hc with h1 | h1
          · exact hunits1 c h1
          · exact hunits2 c h1
        cases b2 with
        | true =>
          simp only [Option.some.injEq, Prod.mk.injEq] at h
          obtain ⟨rfl, rfl⟩ := h
          refine ⟨_, step_trans _ _ _ _ _ _ hstep1 hstep2, hunits12, ?_⟩
          intro hr
          have := hne1 (by simp) hr
          simp [this]
        | false =>
          simp only at h
          obtain ⟨new3, hstep3, hunits3, -⟩ := scanDirections_step rng self _ _ _ _ h
          refine ⟨_, step_trans _ _ _ _ _ _ (step_trans _ _ _ _ _ _ hstep1 hstep2) hstep3,
            ?_, ?_⟩
          · intro c hc
            rcases List.mem_append.1 hc with h1 | h1
            · exact hunits12 c h1
            · exact hunits3 c h1
          · intro hr
            have := hne1 (by simp) hr
            simp [this]

theorem programLoop_step (rng : Nat → ℚ) (flag : Int × Int) :
    ∀ (l : List (Fin n)) (t t' : Turn n) (b : Bool),
      Game.programLoop rng flag l t = some (b, t') →
      ∃ new, t.Step t' b new ∧
        (b = false → ∀ u ∈ l, (t.world.players u).eliminated = false →
          1 ≤ (t.world.players u).range → ∃ c ∈ new, c.unit = u) := by
  intro l
  induction l with
  | nil =>
    intro t t' b h
    simp only [Game.programLoop, Option.some.injEq, Prod.mk.injEq] at h
    obtain ⟨rfl, rfl⟩ := h
    exact ⟨[], step_nil t, by simp⟩
  | cons player rest ih =>
    intro t t' b h
    unfold Game.programLoop at h
    by_cases hel : (t.world.players player).eliminated = true
    · rw [if_pos hel] at h
      obtain ⟨new, hstep, htried⟩ := ih _ _ _ h
      refine ⟨new, hstep, ?_⟩
      intro hb u hu hlive hr
      rcases List.mem_cons.1 hu with rfl | hrest
      · rw [hel] at hlive; cases hlive
      · exact htried hb u hrest hlive hr
    · rw [if_neg hel] at h
      cases hunit : Game.programUnit rng flag player t with
      | none => rw [hunit] at h; cases h
      | some p =>
        obtain ⟨b1, t1⟩ := p
        rw [hunit] at h
        obtain ⟨new1, hstep1, hunits1, hne1⟩ := programUnit_step rng flag player _ _ _ hunit
        cases b1 with
        | true =>
          simp only [Option.some.injEq, Prod.mk.injEq] at h
          obtain ⟨rfl, rfl⟩ := h
          exact ⟨new1, hstep1, fun hb => by cases hb⟩
        | false =>
          simp only at h
          obtain ⟨new2, hstep2, htried2⟩ := ih _ _ _ h
          refine ⟨_, step_trans _ _ _ _ _ _ hstep1 hstep2, ?_⟩
          intro hb u hu hlive hr
          rcases List.mem_cons.1 hu with rfl | hrest
          · obtain ⟨c, hc⟩ := List.exists_mem_of_ne_nil _ (hne1 hr)
            exact ⟨c, List.mem_append_left _ hc, hunits1 c hc⟩
          · have hsame := (hstep1.2.1 rfl).2
            obtain ⟨-, -, he, -, -, hrg, -⟩ := sameButMoved_fields _ _ hsame u
            obtain ⟨c, hc, hcu⟩ := htried2 hb u hrest (by rw [he]; exact hlive)
              (by rw [hrg]; exact hr)
            exact ⟨c, List.mem_append_right _ hc, hcu⟩

theorem eq_some_getD {α : Type} (o : Option α) (d : α) (h : o.isSome = true) :
    o = some (o.getD d) := by
  cases o with
  | none => cases h
  | some a => rfl

theorem mem_candidates (g : Game n) (u : Fin n) :
    u ∈ g.candidates ↔ u ∈ g.programTeam ∧ (g.world.players u).eliminated = false := by
  simp [Game.candidates, List.mem_insertionSort, List.mem_filter]

/-- The resolver calls of `Game::programTurn`: without an action every call
failed, the world changed at most in `moved` flags and every non-eliminated unit
of the program's team was tried; with an action the calls are failed ones
followed by a single successful one. -/
theorem programTurn_calls (g : Game n) (rng : Nat → ℚ) (r : TurnResult n)
    (h : g.programTurn rng = some r) :
    (r.actionTaken = false →
      (∀ c ∈ r.calls, c.success = false) ∧ g.world.SameButMoved r.game.world ∧
      (∀ u ∈ g.programTeam, (g.world.players u).eliminated = false →
        1 ≤ (g.world.players u).range → ∃ c ∈ r.calls, c.unit = u)) ∧
    (r.actionTaken = true → ∃ init c, r.calls = init ++ [c] ∧ c.success = true ∧
      ∀ c' ∈ init, c'.success = false) := by
  unfold Game.programTurn at h
  by_cases hempty : g.programTeam.filter (fun p => !(g.world.players p).eliminated) = []
  · rw [if_pos hempty] at h
    cases h
    refine ⟨fun _ => ⟨by simp, sameButMoved_refl _, ?_⟩, fun hb => by cases hb⟩
    intro u hu hlive _
    have hmem : u ∈ g.programTeam.filter (fun p => !(g.world.players p).eliminated) :=
      List.mem_filter.2 ⟨hu, by simp [hlive]⟩
    rw [hempty] at hmem
    cases hmem
  · rw [if_neg hempty] at h
    simp only at h
    cases hloop : Game.programLoop rng
        (if g.programTeam = g.redTeam then g.blueFlag else g.redFlag) g.candidates
        { world := g.world, drawn := 0, calls := [] } with
    | none => rw [hloop] at h; cases h
    | some p =>
      obtain ⟨b, t⟩ := p
      rw [hloop] at h
      simp only [Option.some.injEq] at h
      subst h
      obtain ⟨new, ⟨hcalls, hfail, hsucc⟩, htried⟩ := programLoop_step rng _ _ _ _ _ hloop
      simp only [List.nil_append] at hcalls
      simp only
      rw [hcalls]
      refine ⟨?_, hsucc⟩
      intro hb
      obtain ⟨hall, hsame⟩ := hfail hb
      refine ⟨hall, hsame, ?_⟩
      intro u hu hlive hr
      exact htried hb u ((mem_candidates g u).2 ⟨hu, hlive⟩) hlive hr

/-- Amended C18: `Game::programTurn` takes at most one successful action, at the
end.  Either no action is taken and every resolver call of the turn failed, or an
action is taken and the calls of the turn are failed calls followed by exactly
one successful call, after which no resolver is invoked.  A miss reaches hit
resolution but is a failed call (`Player::attack` returns the failure flag), so
it does not end the turn. -/
theorem programTurn_one_success (g : Game n) (rng : Nat → ℚ) (r : TurnResult n)
    (h : g.programTurn rng = some r) :
    (∀ id : Int, (AttackOutcome.missed id).drewHitRoll = true ∧
      (AttackOutcome.missed id).success = false) ∧
    ((r.actionTaken = false ∧ ∀ c ∈ r.calls, c.success = false) ∨
      (r.actionTaken = true ∧ ∃ init c, r.calls = init ++ [c] ∧ c.success = true ∧
        ∀ c' ∈ init, c'.success = false)) := by
  refine ⟨fun _ => ⟨rfl, rfl⟩, ?_⟩
  cases hb : r.actionTaken with
  | false => exact Or.inl ⟨rfl, ((programTurn_calls g rng r h).1 hb).1⟩
  | true => exact Or.inr ⟨rfl, (programTurn_calls g rng r h).2 hb⟩

/-- Instance of amended C18: in `faceoff`, with a first shot that misses and a
second that hits, the turn's only successful call is its last one. -/
theorem programTurn_one_success_witness :
    (∀ id : Int, (AttackOutcome.missed id).drewHitRoll = true ∧
      (AttackOutcome.missed id).success = false) ∧
    ((faceoffSecondShot.actionTaken = false ∧ ∀ c ∈ faceoffSecondShot.calls, c.success = false) ∨
      (faceoffSecondShot.actionTaken = true ∧
        ∃ init c, faceoffSecondShot.calls = init ++ [c] ∧ c.success = true ∧
          ∀ c' ∈ init, c'.success = false)) :=
  programTurn_one_success faceoff missThenHit faceoffSecondShot (eq_some_getD _ _ (by with_unfolding_all rfl))

/-- Counterexample to C18 as stated: in `faceoff` with every shot missing, the
turn of Blue's unit 1 makes nine resolver calls; the third and the eighth are
attacks on Red's unit that reach hit resolution (two hit rolls are drawn), and
the fifth is a move attempt made after the first shot was resolved. -/
theorem programTurn_two_shots :
    (faceoff.programTurn alwaysMiss).map
        (fun r => (r.calls.map Call.drewHitRoll, (r.calls.filter Call.drewHitRoll).length,
          r.calls.map Call.isMove)) =
      some ([false, false, true, false, false, false, false, true, false], 2,
        [false, false, false, false, true, false, false, false, false]) := by
  with_unfolding_all rfl

/-! ## Game::userTurn and the loop of Game::play -/

theorem markTeamMoved_fields (g : Game n) (w : World n) (player : Fin n) :
    (g.markTeamMoved w player).turns = g.turns ∧
    (g.markTeamMoved w player).gameEnded = g.gameEnded := by
  unfold Game.markTeamMoved
  split <;> exact ⟨rfl, rfl⟩

theorem userTurn_turns (rng : Nat → ℚ) :
    ∀ (keys rest : List (UserInput n)) (g : Game n) (r : TurnResult n),
      g.userTurn rng keys = some (r, rest) → r.game.turns = g.turns := by
  intro keys
  induction keys with
  | nil =>
    intro rest g r h
    unfold Game.userTurn at h
    split_ifs at h <;> cases h <;> rfl
  | cons input tail ih =>
    intro rest g r h
    unfold Game.userTurn at h
    by_cases hact : g.userActive = []
    · rw [if_pos hact] at h
      cases h
      rfl
    · rw [if_neg hact] at h
      cases input with
      | escape =>
        simp only at h
        have hih := ih _ _ _ h
        exact hih
      | act player action direction squares =>
        simp only at h
        split_ifs at h
        all_goals first
          | (have hih := ih _ _ _ h
             exact hih)
          | (split at h
             · cases h
             · cases h
               first
                 | exact (markTeamMoved_fields _ _ _).1
                 | rfl)

theorem programTurn_turns (g : Game n) (rng : Nat → ℚ) (r : TurnResult n)
    (h : g.programTurn rng = some r) :
    r.game.turns = g.turns ∧ r.game.gameEnded = g.gameEnded := by
  unfold Game.programTurn at h
  by_cases hempty : g.programTeam.filter (fun p => !(g.world.players p).eliminated) = []
  · rw [if_pos hempty] at h
    cases h
    exact ⟨rfl, rfl⟩
  · rw [if_neg hempty] at h
    simp only at h
    cases hloop : Game.programLoop rng
        (if g.programTeam = g.redTeam then g.blueFlag else g.redFlag) g.candidates
        { world := g.world, drawn := 0, calls := [] } with
    | none => rw [hloop] at h; cases h
    | some p =>
      obtain ⟨b, t⟩ := p
      rw [hloop] at h
      cases h
      exact ⟨rfl, rfl⟩

theorem endsAfterTurn_false (g : Game n) (h : g.endsAfterTurn.1 = false) :
    g.gameEnded = false := by
  unfold Game.endsAfterTurn at h
  by_cases hg : g.gameEnded = true
  · rw [if_pos hg] at h
    cases h
  · simpa using hg

theorem endsAfterTurn_true (g : Game n) (h : g.endsAfterTurn.1 = true) :
    g.endsAfterTurn.2.gameEnded = true := by
  unfold Game.endsAfterTurn at h ⊢
  by_cases hg : g.gameEnded = true
  · rw [if_pos hg]
    exact hg
  · rw [if_neg hg] at h ⊢
    unfold Game.checkEndConditions at h ⊢
    split at h
    · rfl
    · cases h

/-- An iteration of the loop of `Game::play` that goes on adds 1 to `turns` and
leaves `gameEnded` false; one that breaks leaves `gameEnded` true. -/
theorem playIteration_turns (g g1 : Game n) (c team : Char) (input : PlayInput n) (b : Bool)
    (h : g.playIteration c input = some (b, g1, team)) :
    (b = true → g1.turns = g.turns + 1 ∧ g1.gameEnded = false ∧
      team = (if c = g.userTeam then g.programLetter else g.userTeam)) ∧
    (b = false → g1.gameEnded = true) := by
  unfold Game.playIteration at h
  simp only at h
  by_cases hc : c = g.resetPlayersMovedFlag.userTeam
  · rw [if_pos hc] at h
    have hc' : c = g.userTeam := hc
    cases hu : g.resetPlayersMovedFlag.userTurn input.rng input.keys with
    | none => rw [hu] at h; cases h
    | some p =>
      obtain ⟨r, rest⟩ := p
      rw [hu] at h
      simp only at h
      have hturns0 := userTurn_turns _ _ _ _ _ hu
      have hturns : r.game.turns = g.turns := hturns0
      by_cases hvalid : r.actionTaken = true
      · rw [if_pos hvalid] at h
        by_cases hend : r.game.endsAfterTurn.1 = true
        · rw [if_pos hend] at h
          cases h
          exact ⟨fun hb => (by cases hb), fun _ => endsAfterTurn_true _ hend⟩
        · rw [if_neg hend] at h
          cases h
          refine ⟨fun _ => ⟨?_, ?_, ?_⟩, fun hb => by cases hb⟩
          · show r.game.turns + 1 = g.turns + 1
            rw [hturns]
          · show r.game.gameEnded = false
            exact endsAfterTurn_false _ (by simpa using hend)
          · rw [if_pos hc']; rfl
      · rw [if_neg hvalid] at h
        cases h
  · rw [if_neg hc] at h
    have hc' : ¬ c = g.userTeam := hc
    cases hp : g.resetPlayersMovedFlag.programTurn input.rng with
    | none => rw [hp] at h; cases h
    | some r =>
      rw [hp] at h
      simp only at h
      have hturns0 := (programTurn_turns _ _ _ hp).1
      have hturns : r.game.turns = g.turns := hturns0
      by_cases hend : r.game.endsAfterTurn.1 = true
      · rw [if_pos hend] at h
        cases h
        exact ⟨fun hb => (by cases hb), fun _ => endsAfterTurn_true _ hend⟩
      · rw [if_neg hend] at h
        cases h
        refine ⟨fun _ => ⟨?_, ?_, ?_⟩, fun hb => by cases hb⟩
        · show r.game.turns + 1 = g.turns + 1
          rw [hturns]
        · show r.game.gameEnded = false
          exact endsAfterTurn_false _ (by simpa using hend)
        · rw [if_neg hc']; rfl

theorem resetPlayersMovedFlag_idem (g : Game n) :
    g.resetPlayersMovedFlag.resetPlayersMovedFlag = g.resetPlayersMovedFlag := by
  unfold Game.resetPlayersMovedFlag
  simp only
  congr 2
  funext p
  split <;> rfl

theorem playLoop_turns :
    ∀ (inputs : List (PlayInput n)) (g g' : Game n) (c c' : Char),
      Game.playLoop inputs g c = some (g', c') → g'.gameEnded = false →
      g'.turns = g.turns + inputs.length := by
  intro inputs
  induction inputs with
  | nil =>
    intro g g' c c' h _
    simp only [Game.playLoop, Option.some.injEq, Prod.mk.injEq] at h
    rw [← h.1]
    simp
  | cons input rest ih =>
    intro g g' c c' h hgo
    unfold Game.playLoop at h
    by_cases hg : g.gameEnded = true
    · rw [if_pos hg] at h
      simp only [Option.some.injEq, Prod.mk.injEq] at h
      rw [← h.1, hg] at hgo
      cases hgo
    · rw [if_neg hg] at h
      cases hit : g.playIteration c input with
      | none => rw [hit] at h; cases h
      | some p =>
        obtain ⟨b, g1, team⟩ := p
        rw [hit] at h
        have hstep := playIteration_turns g g1 c team input b hit
        cases b with
        | true =>
          simp only at h
          have := ih _ _ _ _ h hgo
          rw [this, (hstep.1 rfl).1]
          simp only [List.length_cons]
          push_cast
          ring
        | false =>
          simp only [Option.some.injEq, Prod.mk.injEq] at h
          rw [← h.1, hstep.2 rfl] at hgo
          cases hgo

/-- Amended C19: the counter of `Game::play`.  `turns` is incremented once per
completed non-terminal single-team turn, that is once per iteration of the loop
and not once per two-team cycle: when the loop has run through `k` iterations
without ending the game, `turns` is its initial value plus `k`.  The moved flags
are reset at the start of every iteration, so an iteration gives the same result
on a game and on that game with the flags already reset. -/
theorem play_counts_turns (inputs : List (PlayInput n)) (g g' : Game n) (c c' : Char)
    (h : Game.playLoop inputs g c = some (g', c')) (hgo : g'.gameEnded = false) :
    g'.turns = g.turns + inputs.length ∧
    ∀ (team : Char) (input : PlayInput n),
      g.playIteration team input = g.resetPlayersMovedFlag.playIteration team input := by
  refine ⟨playLoop_turns inputs g g' c c' h hgo, ?_⟩
  intro team input
  unfold Game.playIteration
  rw [resetPlayersMovedFlag_idem]

/-- Instance of amended C19: in `standoff` the loop runs through the human's turn
and the program's turn; the game goes on and `turns` is 2. -/
theorem play_counts_turns_witness :
    standoffPlayed.1.turns = standoff.turns + ([({ keys := upThenRight, rng := alwaysMiss } :
      PlayInput 2), { keys := [], rng := alwaysMiss }]).length ∧
    ∀ (team : Char) (input : PlayInput 2),
      standoff.playIteration team input
        = standoff.resetPlayersMovedFlag.playIteration team input :=
  play_counts_turns _ standoff standoffPlayed.1 'R' standoffPlayed.2
    (eq_some_getD _ (standoff, 'R') (by with_unfolding_all rfl)) (by with_unfolding_all rfl)

/-- Counterexample to C19 as stated: in `standoff`, after one completed
non-terminal turn (the human's) the counter is 1, not `1 / 2 = 0`, and Red's
unit 0 has its moved flag set; after the second turn (the program's), still
within the first two-team cycle, the counter is 2, not `2 / 2 = 1`, and the
moved flag of unit 0 has been reset again. -/
theorem play_counter_counts_single_turns :
    (Game.playLoop [{ keys := upThenRight, rng := alwaysMiss }] standoff 'R').map
        (fun r => (r.1.gameEnded, r.1.turns, r.2, (r.1.world.players 0).moved))
      = some (false, 1, 'B', true) ∧
    (1 : Int) / 2 = 0 ∧
    (Game.playLoop [{ keys := upThenRight, rng := alwaysMiss }, { keys := [], rng := alwaysMiss }]
        standoff 'R').map
        (fun r => (r.1.gameEnded, r.1.turns, r.2, (r.1.world.players 0).moved))
      = some (false, 2, 'R', false) ∧
    (2 : Int) / 2 = 1 := by
  refine ⟨?_, by decide, ?_, by decide⟩ <;> with_unfolding_all rfl

/-- The assignment `validTurn = true` of `Game::userTurn` follows the call of
`move` or `attack` unconditionally: when the method has a live unit to select and
reads an entry with the action key `m` or `a`, it makes exactly one resolver call
for the selected unit and returns with `validTurn` set, without reading further
entries, whatever the call returned; and when an iteration of `Game::play` for
the human's team goes on, control has passed to the program's team and `turns`
has grown by one. -/
theorem userTurn_action_ends_turn (g : Game n) (rng : Nat → ℚ) (player : Fin n) (action : Char)
    (direction squares : Int) (rest rest' : List (UserInput n)) (r : TurnResult n)
    (hactive : g.userActive ≠ [])
    (hacc : g.accepts player direction squares = true)
    (hact : action = 'm' ∨ action = 'a')
    (h : g.userTurn rng (UserInput.act player action direction squares :: rest)
      = some (r, rest')) :
    (r.actionTaken = true ∧ rest' = rest ∧ ∃ c, r.calls = [c] ∧ c.unit = player) ∧
    (∀ (input : PlayInput n) (g1 : Game n) (team : Char),
      g.playIteration g.userTeam input = some (true, g1, team) →
      team = g.programLetter ∧ g1.turns = g.turns + 1) := by
  constructor
  · unfold Game.userTurn at h
    rw [if_neg hactive] at h
    simp only [hacc, if_true] at h
    rcases hact with rfl | rfl
    · simp only [if_true] at h
      split at h
      · cases h
      · cases h
        exact ⟨rfl, rfl, _, rfl, rfl⟩
    · rw [if_neg (by decide), if_pos rfl] at h
      split at h
      · cases h
      · cases h
        exact ⟨rfl, rfl, _, rfl, rfl⟩
  · intro input g1 team hit
    obtain ⟨h1, -, h3⟩ := (playIteration_turns g g1 g.userTeam team input true hit).1 rfl
    rw [if_pos rfl] at h3
    exact ⟨h3, h1⟩

/-- In `standoff` the human's first entry is a move that leaves the board; the
turn is over after it. -/
theorem userTurn_action_ends_turn_witness :
    (standoffUserTurn.1.actionTaken = true ∧ standoffUserTurn.2 = [UserInput.act 0 'm' RIGHT 1] ∧
      ∃ c, standoffUserTurn.1.calls = [c] ∧ c.unit = 0) ∧
    (∀ (input : PlayInput 2) (g1 : Game 2) (team : Char),
      standoff.playIteration standoff.userTeam input = some (true, g1, team) →
      team = standoff.programLetter ∧ g1.turns = standoff.turns + 1) :=
  userTurn_action_ends_turn standoff alwaysMiss 0 'm' UP 1 [UserInput.act 0 'm' RIGHT 1]
    standoffUserTurn.2 standoffUserTurn.1 (by decide) (by decide) (Or.inl rfl)
    (eq_some_getD _ ({ game := standoff, actionTaken := false, calls := [] }, [])
      (by with_unfolding_all rfl))

/-- Evaluation of `Game::userTurn` at the failing input of C20: in `standoff` the
human selects unit 0 and asks for one square up, which `Player::move` rejects as
out of bounds; the next entry would be a move to the right.  The loop
`while (!validTurn)` does not repeat the prompt: `userTurn` returns with
`validTurn` set after that single rejected call, leaving the next entry unread,
and the iteration of `Game::play` goes on with the program's team `B` and `turns`
incremented. -/
theorem userTurn_rejected_move_consumes_turn :
    (standoff.userTurn alwaysMiss upThenRight).map
        (fun r => (r.1.actionTaken, r.1.calls, r.2.length))
      = some (true, [Call.move 0 UP 1 MoveOutcome.outOfBounds], 1) ∧
    MoveOutcome.outOfBounds.isSuccess = false ∧
    (standoff.playIteration 'R' { keys := upThenRight, rng := alwaysMiss }).map
        (fun r => (r.1, r.2.1.turns, r.2.2))
      = some (true, 1, 'B') := by
  refine ⟨?_, rfl, ?_⟩ <;> with_unfolding_all rfl

/-! ## The shape of the results of the two resolvers -/

/-- A call of `Player::move` that returns either rejects, leaving the world with
the mover's `moved` flag set, or passes the path loop and relocates the mover. -/
theorem move_result (w w' : World n) (self : Fin n) (direction squares : Int) (roll : ℚ)
    (out : MoveOutcome) (h : Player.move w self direction squares roll = some (out, w')) :
    (out.isSuccess = false ∧ w' = w.setMoved self) ∨
    (∃ dx dy : Int, directionDelta direction = some (dx, dy) ∧
      ((w.setMoved self).players self).autoSquares squares roll ≤ (w.players self).maxMovement ∧
      Player.moveLoop (w.setMoved self) self dx dy
        (((w.setMoved self).players self).autoSquares squares roll)
        (((w.setMoved self).players self).autoSquares squares roll).toNat 1 = some none ∧
      Player.relocate (w.setMoved self) self dx dy
        (((w.setMoved self).players self).autoSquares squares roll) = some (out, w')) := by
  unfold Player.move at h
  simp only at h
  by_cases hc : ((w.setMoved self).players self).autoSquares squares roll
      > ((w.setMoved self).players self).maxMovement
  · rw [if_pos hc] at h; cases h; exact Or.inl ⟨rfl, rfl⟩
  · rw [if_neg hc] at h
    cases hd : directionDelta direction with
    | none => rw [hd] at h; cases h; exact Or.inl ⟨rfl, rfl⟩
    | some d =>
      obtain ⟨dx, dy⟩ := d
      rw [hd] at h
      simp only at h
      cases hl : Player.moveLoop (w.setMoved self) self dx dy
          (((w.setMoved self).players self).autoSquares squares roll)
          (((w.setMoved self).players self).autoSquares squares roll).toNat 1 with
      | none => rw [hl] at h; cases h
      | some r =>
        rw [hl] at h
        cases r with
        | some r =>
          cases h
          exact Or.inl ⟨moveLoop_not_success _ _ _ _ _ _ _ _ hl, rfl⟩
        | none =>
          simp only at h
          rw [setMoved_maxMovement] at hc
          exact Or.inr ⟨dx, dy, rfl, not_lt.1 hc, hl, h⟩

theorem selectAndResolve_result (w w' : World n) (self : Fin n) (hitRoll : ℚ)
    (out : AttackOutcome) :
    ∀ l : List (Fin n), Player.selectAndResolve w self hitRoll l = some (out, w') →
      ∃ t ∈ l, Player.validTarget w self t = true ∧
        Player.resolveHit w self t hitRoll = (out, w') := by
  intro l
  induction l with
  | nil => intro h; simp [Player.selectAndResolve] at h
  | cons t rest ih =>
    intro h
    unfold Player.selectAndResolve at h
    by_cases hv : Player.validTarget w self t = true
    · rw [if_pos hv] at h
      exact ⟨t, List.mem_cons_self _ _, hv, Option.some.inj h⟩
    · rw [if_neg hv] at h
      obtain ⟨u, hu, hvu, hres⟩ := ih h
      exact ⟨u, List.mem_cons_of_mem _ hu, hvu, hres⟩

theorem attackLoop_result (w w' : World n) (self : Fin n) (dx dy squares : Int) (hitRoll : ℚ)
    (out : AttackOutcome) :
    ∀ (fuel : Nat) (i : Int),
      Player.attackLoop w self dx dy squares hitRoll fuel i = some (some (out, w')) →
      (out.success = false ∧ out.drewHitRoll = false ∧ w' = w) ∨
      (∃ t, Player.validTarget w self t = true ∧
        Player.resolveHit w self t hitRoll = (out, w')) := by
  intro fuel
  induction fuel with
  | zero => intro i h; simp [Player.attackLoop] at h
  | succ k ih =>
    intro i h
    unfold Player.attackLoop at h
    split at h
    · cases h
    · split_ifs at h
      · cases h; exact Or.inl ⟨rfl, rfl, rfl⟩
      · split at h
        · cases h
          obtain ⟨t, -, hv, hres⟩ := selectAndResolve_result w w' self hitRoll out _
            (by assumption)
          exact Or.inr ⟨t, hv, hres⟩
        · exact ih _ h
      · cases h; exact Or.inl ⟨rfl, rfl, rfl⟩
      · exact ih _ h

/-- A call of `Player::attack` that returns either fails before hit resolution,
leaving the world with the attacker's `moved` flag set, or resolves the hit
against a valid target in that world. -/
theorem attack_result (w w' : World n) (self : Fin n) (direction squares : Int)
    (rangeRoll hitRoll : ℚ) (out : AttackOutcome)
    (h : Player.attack w self direction squares rangeRoll hitRoll = some (out, w')) :
    (out.success = false ∧ out.drewHitRoll = false ∧ w' = w.setMoved self) ∨
    (∃ t, Player.validTarget (w.setMoved self) self t = true ∧
      Player.resolveHit (w.setMoved self) self t hitRoll = (out, w')) := by
  unfold Player.attack at h
  simp only at h
  split at h
  · cases h; exact Or.inl ⟨rfl, rfl, rfl⟩
  · split_ifs at h
    all_goals first
      | (cases h; exact Or.inl ⟨rfl, rfl, rfl⟩)
      | (split at h
         · cases h
         · cases h
           exact attackLoop_result _ _ _ _ _ _ _ _ _ _ (by assumption)
         · cases h; exact Or.inl ⟨rfl, rfl, rfl⟩)

theorem validTarget_ne (w : World n) (self t : Fin n)
    (h : Player.validTarget w self t = true) :
    t ≠ self ∧ (w.players t).eliminated = false := by
  unfold Player.validTarget at h
  simp only [Bool.and_eq_true, bne_iff_ne, ne_eq, Bool.not_eq_true'] at h
  refine ⟨?_, h.2⟩
  intro he
  rw [he] at h
  exact h.1 rfl

/-- What hit resolution against a target other than the attacker leaves
untouched: the board, every position and `moved` flag, and every unit other than
attacker and target. -/
theorem resolveHit_frame (w : World n) (self t : Fin n) (r : ℚ) (hne : t ≠ self) :
    (Player.resolveHit w self t r).2.board = w.board ∧
    (∀ u : Fin n, ((Player.resolveHit w self t r).2.players u).x = (w.players u).x ∧
      ((Player.resolveHit w self t r).2.players u).y = (w.players u).y ∧
      ((Player.resolveHit w self t r).2.players u).moved = (w.players u).moved) ∧
    (∀ u : Fin n, u ≠ self → u ≠ t →
      (Player.resolveHit w self t r).2.players u = w.players u) := by
  unfold Player.resolveHit
  simp only
  split_ifs
  all_goals
    refine ⟨rfl, fun u => ?_, fun u hus hut => by
      simp [Function.update_noteq hus, Function.update_noteq hut]⟩
    by_cases hs : u = self
    · subst hs
      simp [Function.update_noteq (Ne.symm hne)]
    · by_cases ht : u = t
      · subst ht
        simp [Function.update_noteq hs, Player.setEliminated]
      · simp [Function.update_noteq hs, Function.update_noteq ht]

/-- `Player::attack` never changes the board, a position, or the `moved` flag of
a unit other than the attacker. -/
theorem attack_frame (w w' : World n) (self : Fin n) (direction squares : Int)
    (rangeRoll hitRoll : ℚ) (out : AttackOutcome)
    (h : Player.attack w self direction squares rangeRoll hitRoll = some (out, w')) :
    w'.board = w.board ∧
    (∀ u : Fin n, (w'.players u).x = (w.players u).x ∧ (w'.players u).y = (w.players u).y) ∧
    (w'.players self).moved = true := by
  have hself : ((w.setMoved self).players self).moved = true := by
    rw [setMoved_players, if_pos rfl]
  rcases attack_result w w' self direction squares rangeRoll hitRoll out h with
    ⟨-, -, rfl⟩ | ⟨t, hv, hres⟩
  · exact ⟨rfl, fun u => ⟨setMoved_x w self u, setMoved_y w self u⟩, hself⟩
  · obtain ⟨hne, -⟩ := validTarget_ne _ _ _ hv
    obtain ⟨hb, hpos, -⟩ := resolveHit_frame (w.setMoved self) self t hitRoll hne
    rw [hres] at hb hpos
    simp only at hb hpos
    refine ⟨hb, fun u => ?_, ?_⟩
    · rw [(hpos u).1, (hpos u).2.1]
      exact ⟨setMoved_x w self u, setMoved_y w self u⟩
    · rw [(hpos self).2.2]
      exact hself

theorem directionDelta_some (direction dx dy : Int)
    (h : directionDelta direction = some (dx, dy)) :
    (direction = UP ∧ dx = 0 ∧ dy = -1) ∨ (direction = DOWN ∧ dx = 0 ∧ dy = 1) ∨
    (direction = LEFT ∧ dx = -1 ∧ dy = 0) ∨ (direction = RIGHT ∧ dx = 1 ∧ dy = 0) := by
  unfold directionDelta at h
  split_ifs at h with h1 h2 h3 h4
  all_goals
    simp only [Option.some.injEq, Prod.mk.injEq] at h
    obtain ⟨rfl, rfl⟩ := h
    simp [*]

/-- When the path loop of `Player::move` runs to its end, every square it
visited is on the board, exists, lists no unit of the other team, and the final
one lists fewer than 4 units. -/
theorem moveLoop_pass (w : World n) (self : Fin n) (dx dy squares : Int) :
    ∀ (fuel : Nat) (i : Int), i + fuel = squares + 1 →
      Player.moveLoop w self dx dy squares fuel i = some none →
      ∀ j : Int, i ≤ j → j ≤ squares →
        outOfBounds w.board ((w.players self).x + dx * j) ((w.players self).y + dy * j) = false ∧
        ∃ c, cellAt w.board ((w.players self).x + dx * j) ((w.players self).y + dy * j) = some c ∧
          (∀ q ∈ c.players, (w.players q).team = (w.players self).team) ∧
          (j = squares → c.players.length < 4) := by
  intro fuel
  induction fuel with
  | zero => intro i hi _ j hj hjs; omega
  | succ k ih =>
    intro i hi h j hj hjs
    unfold Player.moveLoop at h
    simp only at h
    by_cases hout : outOfBounds w.board ((w.players self).x + dx * i)
        ((w.players self).y + dy * i) = true
    · rw [if_pos hout] at h; cases h
    · rw [if_neg hout] at h
      cases hc : cellAt w.board ((w.players self).x + dx * i) ((w.players self).y + dy * i) with
      | none => rw [hc] at h; cases h
      | some c =>
        rw [hc] at h
        simp only at h
        by_cases hany : c.getPlayers.any
            (fun p => (w.players p).team != (w.players self).team) = true
        · rw [if_pos hany] at h; cases h
        · rw [if_neg hany] at h
          by_cases hfull : i = squares ∧ 4 ≤ c.getPlayers.length
          · rw [if_pos hfull] at h; cases h
          · rw [if_neg hfull] at h
            by_cases hji : j = i
            · subst hji
              rw [Bool.not_eq_true] at hout hany
              refine ⟨hout, c, hc, (any_otherTeam_eq_false w self c.players).1 hany, ?_⟩
              intro hjs'
              by_contra hlen
              exact hfull ⟨hjs', by simpa [Cell.getPlayers] using hlen⟩
            · exact ih (i + 1) (by push_cast at hi ⊢; omega) h j (by omega) hjs

/-- On a rectangular board the path loop of `Player::move` always returns. -/
theorem moveLoop_isSome (w : World n) (self : Fin n) (dx dy squares : Int)
    (hrect : RectBoard w.board) :
    ∀ (fuel : Nat) (i : Int), (Player.moveLoop w self dx dy squares fuel i).isSome = true := by
  intro fuel
  induction fuel with
  | zero => intro i; rfl
  | succ k ih =>
    intro i
    unfold Player.moveLoop
    simp only
    by_cases hout : outOfBounds w.board ((w.players self).x + dx * i)
        ((w.players self).y + dy * i) = true
    · rw [if_pos hout]; rfl
    · rw [if_neg hout]
      rw [Bool.not_eq_true] at hout
      obtain ⟨c, hc⟩ := cellAt_of_inBounds w.board hrect _ _ hout
      rw [hc]
      simp only
      split_ifs
      · rfl
      · rfl
      · exact ih _

/-- `Player::move` writes the mover's record only: every other unit is as before. -/
theorem move_other (w w' : World n) (self u : Fin n) (direction squares : Int) (roll : ℚ)
    (out : MoveOutcome) (h : Player.move w self direction squares roll = some (out, w'))
    (hu : u ≠ self) : w'.players u = w.players u := by
  rcases move_result w w' self direction squares roll out h with
    ⟨-, rfl⟩ | ⟨dx, dy, -, -, -, hrel⟩
  · rw [setMoved_players, if_neg hu]
  · obtain ⟨c0, c1, -, -, -, hp, -⟩ := relocate_spec _ _ _ _ _ _ _ hrel
    rw [hp, Function.update_noteq hu, setMoved_players, if_neg hu]

/-- What `Player::move` does to the mover's record: `moved` is set and, when the
move is carried out, the coordinates advance by the distance used; every other
member is as before. -/
theorem move_self (w w' : World n) (self : Fin n) (direction squares : Int) (roll : ℚ)
    (out : MoveOutcome) (h : Player.move w self direction squares roll = some (out, w')) :
    (out.isSuccess = false ∧ w'.players self = { w.players self with moved := true }) ∨
    (out.isSuccess = true ∧ ∃ dx dy : Int, directionDelta direction = some (dx, dy) ∧
      w'.players self = { w.players self with
        moved := true,
        x := (w.players self).x + dx * (w.players self).autoSquares squares roll,
        y := (w.players self).y + dy * (w.players self).autoSquares squares roll }) := by
  have hauto : ((w.setMoved self).players self).autoSquares squares roll
      = (w.players self).autoSquares squares roll := by
    simp [Player.autoSquares, setMoved_fast]
  rcases move_result w w' self direction squares roll out h with
    ⟨hf, rfl⟩ | ⟨dx, dy, hd, -, -, hrel⟩
  · left
    refine ⟨hf, ?_⟩
    rw [setMoved_players, if_pos rfl]
  · right
    obtain ⟨c0, c1, -, -, hout, hp, -⟩ := relocate_spec _ _ _ _ _ _ _ hrel
    refine ⟨by rw [hout]; rfl, dx, dy, hd, ?_⟩
    rw [hp, Function.update_same, hauto]
    simp [Player.setPosition, setMoved_players]

/-- On a rectangular board, with the mover standing on the board, `Player::move`
returns for every direction and every distance that is not negative (or is the
automatic-mode sentinel). -/
theorem move_returns (w : World n) (self : Fin n) (direction squares : Int) (roll : ℚ)
    (hrect : RectBoard w.board)
    (hon : outOfBounds w.board (w.players self).x (w.players self).y = false)
    (hsq : 0 ≤ squares ∨ squares = -1) :
    (Player.move w self direction squares roll).isSome = true := by
  have hx := setMoved_x w self self
  have hy := setMoved_y w self self
  have hb := setMoved_board w self
  have hrect1 : RectBoard (w.setMoved self).board := by rw [hb]; exact hrect
  have hauto : 0 ≤ ((w.setMoved self).players self).autoSquares squares roll := by
    unfold Player.autoSquares
    split_ifs <;> omega
  unfold Player.move
  simp only
  generalize ((w.setMoved self).players self).autoSquares squares roll = sq at hauto ⊢
  by_cases hc : sq > ((w.setMoved self).players self).maxMovement
  · rw [if_pos hc]; rfl
  · rw [if_neg hc]
    cases hd : directionDelta direction with
    | none => rfl
    | some d =>
      obtain ⟨dx, dy⟩ := d
      simp only
      have hsome := moveLoop_isSome (w.setMoved self) self dx dy sq hrect1 sq.toNat 1
      cases hl : Player.moveLoop (w.setMoved self) self dx dy sq sq.toNat 1 with
      | none => rw [hl] at hsome; cases hsome
      | some r =>
        cases r with
        | some r => rfl
        | none =>
          simp only
          obtain ⟨c0, hc0⟩ := cellAt_of_inBounds (w.setMoved self).board hrect1
            ((w.setMoved self).players self).x ((w.setMoved self).players self).y
            (by rw [hb, hx, hy]; exact hon)
          unfold Player.relocate
          simp only [hc0, Player.setPosition]
          by_cases hz : sq = 0
          · subst hz
            simp only [mul_zero, add_zero]
            rw [cellAt_setCell_self _ _ _ c0 _ hc0]
            rfl
          · obtain ⟨-, c1, hc1, -, -⟩ := moveLoop_pass (w.setMoved self) self dx dy sq
              sq.toNat 1 (by omega) hl sq (by omega) (le_refl _)
            have hne : ¬ (((w.setMoved self).players self).x + dx * sq
                  = ((w.setMoved self).players self).x ∧
                ((w.setMoved self).players self).y + dy * sq
                  = ((w.setMoved self).players self).y) := by
              rintro ⟨h1, h2⟩
              have h1' : dx * sq = 0 := by omega
              have h2' : dy * sq = 0 := by omega
              rcases directionDelta_some _ _ _ hd with
                ⟨-, rfl, rfl⟩ | ⟨-, rfl, rfl⟩ | ⟨-, rfl, rfl⟩ | ⟨-, rfl, rfl⟩ <;> omega
            rw [cellAt_setCell_ne _ _ _ _ _ c0 _ hc0 hne, hc1]
            rfl

/-- The attack loop returns when every square from `i` to the target square
exists. -/
theorem attackLoop_isSome (w : World n) (self : Fin n) (dx dy squares : Int) (hitRoll : ℚ) :
    ∀ (fuel : Nat) (i : Int),
      (∀ j : Int, i ≤ j → j < i + fuel →
        ∃ c, cellAt w.board ((w.players self).x + dx * j) ((w.players self).y + dy * j)
          = some c) →
      (Player.attackLoop w self dx dy squares hitRoll fuel i).isSome = true := by
  intro fuel
  induction fuel with
  | zero => intro i _; rfl
  | succ k ih =>
    intro i hpath
    obtain ⟨c, hc⟩ := hpath i (le_refl i) (by push_cast; omega)
    have hrec := ih (i + 1) (fun j hj hjk => hpath j (by omega) (by push_cast; omega))
    unfold Player.attackLoop
    rw [hc]
    simp only
    split_ifs
    · rfl
    · split
      · rfl
      · exact hrec
    · rfl
    · exact hrec

/-- On a rectangular board, with the attacker standing on the board,
`Player::attack` returns for every direction, range and pair of rolls. -/
theorem attack_returns (w : World n) (self : Fin n) (direction squares : Int)
    (rangeRoll hitRoll : ℚ) (hrect : RectBoard w.board)
    (hon : outOfBounds w.board (w.players self).x (w.players self).y = false) :
    (Player.attack w self direction squares rangeRoll hitRoll).isSome = true := by
  have hx := setMoved_x w self self
  have hy := setMoved_y w self self
  have hb := setMoved_board w self
  have hrect1 : RectBoard (w.setMoved self).board := by rw [hb]; exact hrect
  unfold Player.attack
  simp only
  cases hd : directionDelta direction with
  | none => rfl
  | some d =>
    obtain ⟨dx, dy⟩ := d
    simp only
    generalize (if ((w.setMoved self).players self).expert = true then (2 : Int) else 1) = mr
    by_cases h1 : squares ≠ -1 ∧ (squares > mr ∨ squares < 1)
    · rw [if_pos h1]; rfl
    · rw [if_neg h1]
      generalize ((w.setMoved self).players self).autoRange squares rangeRoll = sq
      by_cases h2 : outOfBounds (w.setMoved self).board
          (((w.setMoved self).players self).x + dx * sq)
          (((w.setMoved self).players self).y + dy * sq) = true
      · rw [if_pos h2]; rfl
      · rw [if_neg h2]
        rw [Bool.not_eq_true] at h2
        have hsome := attackLoop_isSome (w.setMoved self) self dx dy sq hitRoll sq.toNat 1 (by
          intro j hj hjs
          refine cellAt_of_inBounds _ hrect1 _ _ ?_
          rw [hb, hx, hy] at h2 ⊢
          rw [outOfBounds_eq_false_iff] at h2 hon ⊢
          have hjs' : j ≤ sq := by omega
          rcases directionDelta_some _ _ _ hd with
            ⟨-, rfl, rfl⟩ | ⟨-, rfl, rfl⟩ | ⟨-, rfl, rfl⟩ | ⟨-, rfl, rfl⟩ <;>
            refine ⟨?_, ?_, ?_, ?_⟩ <;> omega)
        cases hl : Player.attackLoop (w.setMoved self) self dx dy sq hitRoll sq.toNat 1 with
        | none => rw [hl] at hsome; cases hsome
        | some r =>
          cases r with
          | some r => rfl
          | none => rfl

/-! ## The acted-this-round flag -/

/-- C21: the acted flag.  For every unit, direction, distance or range argument
and rolls, a call of `Player::move` or `Player::attack` that returns leaves the
unit's `moved` flag true, whatever the outcome; on a rectangular board with the
unit standing on the board `Player::attack` returns for all arguments and
`Player::move` for every distance that is not negative (or is the automatic
sentinel).  `Game::resetPlayersMovedFlag` leaves the flag false for every unit
of either roster, eliminated or not, and changes nothing but `moved` flags. -/
theorem acted_flag (w : World n) (self : Fin n) (direction squares : Int)
    (roll rangeRoll hitRoll : ℚ) (g : Game n) :
    (∀ out w', Player.move w self direction squares roll = some (out, w') →
      (w'.players self).moved = true) ∧
    (∀ out w', Player.attack w self direction squares rangeRoll hitRoll = some (out, w') →
      (w'.players self).moved = true) ∧
    (RectBoard w.board → outOfBounds w.board (w.players self).x (w.players self).y = false →
      (Player.attack w self direction squares rangeRoll hitRoll).isSome = true ∧
      (0 ≤ squares ∨ squares = -1 → (Player.move w self direction squares roll).isSome = true)) ∧
    (∀ p : Fin n, p ∈ g.redTeam ∨ p ∈ g.blueTeam →
      (g.resetPlayersMovedFlag.world.players p).moved = false) ∧
    g.world.SameButMoved g.resetPlayersMovedFlag.world := by
  refine ⟨?_, ?_, ?_, ?_, ?_⟩
  · intro out w' h
    rcases move_self w w' self direction squares roll out h with
      ⟨-, hp⟩ | ⟨-, dx, dy, -, hp⟩ <;> rw [hp]
  · intro out w' h
    exact (attack_frame w w' self direction squares rangeRoll hitRoll out h).2.2
  · intro hrect hon
    exact ⟨attack_returns w self direction squares rangeRoll hitRoll hrect hon,
      fun hsq => move_returns w self direction squares roll hrect hon hsq⟩
  · intro p hp
    simp only [Game.resetPlayersMovedFlag]
    rw [if_pos hp]
  · refine ⟨rfl, fun u => ?_⟩
    simp only [Game.resetPlayersMovedFlag]
    split_ifs <;> rfl

/-- Instance of C21: in `duel` the rejected move of Red's unit to the left and the
failed shot of Blue's unit to the left each leave the caller's flag set; in
`duelActed` the reset clears the flag of Red's unit, which had acted. -/
theorem acted_flag_witness :
    ((duel.world.setMoved 0).players 0).moved = true ∧
    ((duel.world.setMoved 1).players 1).moved = true ∧
    (duelActed.world.players 0).moved = true ∧
    (duelActed.resetPlayersMovedFlag.world.players 0).moved = false :=
  ⟨(acted_flag duel.world 0 LEFT 1 0 0 0 duelActed).1 MoveOutcome.outOfBounds _ rfl,
   (acted_flag duel.world 1 LEFT 1 0 0 0 duelActed).2.1 AttackOutcome.noValidTarget _ rfl,
   rfl,
   (acted_flag duel.world 0 LEFT 1 0 0 0 duelActed).2.2.2.1 0 (by decide)⟩

/-! ## The extremity-hit invariant -/

theorem hitsInvariant_of_same (w w' : World n)
    (h : ∀ u : Fin n, (w'.players u).hitsToExtremities = (w.players u).hitsToExtremities ∧
      (w'.players u).eliminated = (w.players u).eliminated)
    (hinv : w.HitsInvariant) : w'.HitsInvariant := by
  intro u
  rw [(h u).1, (h u).2]
  exact hinv u

/-- `Player::move` changes no unit's extremity hits or elimination state. -/
theorem move_keeps_hits (w w' : World n) (self : Fin n) (direction squares : Int) (roll : ℚ)
    (out : MoveOutcome) (h : Player.move w self direction squares roll = some (out, w'))
    (u : Fin n) :
    (w'.players u).hitsToExtremities = (w.players u).hitsToExtremities ∧
    (w'.players u).eliminated = (w.players u).eliminated := by
  by_cases hu : u = self
  · subst hu
    rcases move_self w w' u direction squares roll out h with
      ⟨-, hp⟩ | ⟨-, dx, dy, -, hp⟩ <;> rw [hp] <;> exact ⟨rfl, rfl⟩
  · rw [move_other w w' self u direction squares roll out h hu]
    exact ⟨rfl, rfl⟩

/-- Hit resolution against a non-eliminated target keeps the extremity-hit
invariant. -/
theorem resolveHit_hitsInvariant (w : World n) (self t : Fin n) (r : ℚ)
    (hlive : (w.players t).eliminated = false) (hinv : w.HitsInvariant) :
    (Player.resolveHit w self t r).2.HitsInvariant := by
  have ht := hinv t
  have hlt : (w.players t).hitsToExtremities ≤ 2 := by
    by_contra hc
    have h3 : (w.players t).hitsToExtremities = 3 := by omega
    rw [ht.2.2 h3] at hlive
    cases hlive
  unfold Player.resolveHit
  simp only
  split_ifs
  all_goals
    intro u
    have hu := hinv u
    simp only
    first
      | exact hu
      | (by_cases hs : u = self
         · subst hs
           by_cases hst : u = t
           · subst hst
             simp [Player.setEliminated]
             omega
           · simp [Function.update_noteq hst, Player.setEliminated]
             first | omega | tauto
         · by_cases hut : u = t
           · subst hut
             simp [Function.update_noteq hs, Player.setEliminated]
             omega
           · simp [Function.update_noteq hs, Function.update_noteq hut]
             first | omega | tauto)

theorem setMoved_hitsInvariant (w : World n) (self : Fin n) (hinv : w.HitsInvariant) :
    (w.setMoved self).HitsInvariant :=
  hitsInvariant_of_same w _ (fun u => ⟨setMoved_hits w self u, setMoved_eliminated w self u⟩) hinv

theorem attack_hitsInvariant (w w' : World n) (self : Fin n) (direction squares : Int)
    (rangeRoll hitRoll : ℚ) (out : AttackOutcome)
    (h : Player.attack w self direction squares rangeRoll hitRoll = some (out, w'))
    (hinv : w.HitsInvariant) : w'.HitsInvariant := by
  rcases attack_result w w' self direction squares rangeRoll hitRoll out h with
    ⟨-, -, rfl⟩ | ⟨t, hv, hres⟩
  · exact setMoved_hitsInvariant w self hinv
  · have hinv' := resolveHit_hitsInvariant (w.setMoved self) self t hitRoll
      (validTarget_ne _ _ _ hv).2 (setMoved_hitsInvariant w self hinv)
    rw [hres] at hinv'
    exact hinv'

/-! ## The cell-capacity invariant -/

theorem length_addPlayer (heap : Fin n → Player) (c : Cell n) (p : Fin n) :
    (c.addPlayer heap p).players.length = c.players.length + 1 := by
  simp [Cell.addPlayer, List.length_insertionSort]

theorem length_removePlayer (c : Cell n) (p : Fin n) :
    (c.removePlayer p).players.length ≤ c.players.length := by
  simp only [Cell.removePlayer]
  exact List.length_filter_le _ _

/-- With an effective distance of at least 1, a call of `Player::move` that
returns keeps the cell-capacity invariant. -/
theorem move_cellsWithinCap (w w' : World n) (self : Fin n) (direction squares : Int) (roll : ℚ)
    (out : MoveOutcome) (hsq : 1 ≤ squares ∨ squares = -1) (hcap : w.CellsWithinCap)
    (h : Player.move w self direction squares roll = some (out, w')) : w'.CellsWithinCap := by
  have hauto : 1 ≤ ((w.setMoved self).players self).autoSquares squares roll := by
    unfold Player.autoSquares
    split_ifs <;> omega
  rcases move_result w w' self direction squares roll out h with
    ⟨-, rfl⟩ | ⟨dx, dy, hd, -, hloop, hrel⟩
  · exact hcap
  · generalize ((w.setMoved self).players self).autoSquares squares roll = sq at hauto hloop hrel
    obtain ⟨c0, c1, h0, h1, -, -, hb⟩ := relocate_spec _ _ _ _ _ _ _ hrel
    obtain ⟨-, c, hc, -, hlen⟩ := moveLoop_pass (w.setMoved self) self dx dy sq
      sq.toNat 1 (by omega) hloop sq hauto (le_refl _)
    have hne : ¬ (((w.setMoved self).players self).x + dx * sq
          = ((w.setMoved self).players self).x ∧
        ((w.setMoved self).players self).y + dy * sq
          = ((w.setMoved self).players self).y) := by
      rintro ⟨h1', h2'⟩
      have e1 : dx * sq = 0 := by omega
      have e2 : dy * sq = 0 := by omega
      rcases directionDelta_some _ _ _ hd with
        ⟨-, rfl, rfl⟩ | ⟨-, rfl, rfl⟩ | ⟨-, rfl, rfl⟩ | ⟨-, rfl, rfl⟩ <;> omega
    rw [cellAt_setCell_ne _ _ _ _ _ c0 _ h0 hne, hc] at h1
    obtain rfl := Option.some.inj h1
    intro x y c' hc'
    rw [hb] at hc'
    have h1b : cellAt (setCell (w.setMoved self).board ((w.setMoved self).players self).x
        ((w.setMoved self).players self).y (c0.removePlayer self))
        (((w.setMoved self).players self).x + dx * sq)
        (((w.setMoved self).players self).y + dy * sq) = some c := by
      rw [cellAt_setCell_ne _ _ _ _ _ c0 _ h0 hne, hc]
    by_cases hdst : x = ((w.setMoved self).players self).x + dx * sq ∧
        y = ((w.setMoved self).players self).y + dy * sq
    · obtain ⟨rfl, rfl⟩ := hdst
      rw [cellAt_setCell_self _ _ _ c _ h1b] at hc'
      obtain rfl := Option.some.inj hc'
      rw [length_addPlayer]
      have := hlen rfl
      omega
    · rw [cellAt_setCell_ne _ _ _ _ _ c _ h1b hdst] at hc'
      by_cases hsrc : x = ((w.setMoved self).players self).x ∧
          y = ((w.setMoved self).players self).y
      · obtain ⟨rfl, rfl⟩ := hsrc
        rw [cellAt_setCell_self _ _ _ c0 _ h0] at hc'
        obtain rfl := Option.some.inj hc'
        exact le_trans (length_removePlayer c0 self) (hcap _ _ c0 h0)
      · rw [cellAt_setCell_ne _ _ _ _ _ c0 _ h0 hsrc] at hc'
        exact hcap x y c' hc'

theorem cellsWithinCap_of_rows (w : World n)
    (h : ∀ row ∈ w.board, ∀ c ∈ row, c.players.length ≤ 4) : w.CellsWithinCap := by
  intro x y c hc
  obtain ⟨-, -, row, hr, hcx⟩ := (cellAt_eq_some_iff w.board x y c).1 hc
  obtain ⟨hy, hrow⟩ := List.getElem?_eq_some.1 hr
  obtain ⟨hxn, hcell⟩ := List.getElem?_eq_some.1 hcx
  exact h row (hrow ▸ List.getElem_mem hy) c (hcell ▸ List.getElem_mem hxn)

/-! ## Expert attackers and the miss branch -/

/-- The outcome of hit resolution is a miss exactly when the roll is below none
of the three cumulative thresholds; every other outcome carries the success flag. -/
theorem resolveHit_missed_iff (w : World n) (self t : Fin n) (r : ℚ) :
    ((Player.resolveHit w self t r).1.drewHitRoll = true) ∧
    ((Player.resolveHit w self t r).1.success = false ↔
      (Player.resolveHit w self t r).1 = AttackOutcome.missed (w.players self).id) ∧
    ((Player.resolveHit w self t r).1 = AttackOutcome.missed (w.players self).id ↔
      ¬ r < (w.players self).headHitChance ∧
      ¬ r < doubleAdd (w.players self).headHitChance (w.players self).torsoHitChance ∧
      ¬ r < doubleAdd
        (doubleAdd (w.players self).headHitChance (w.players self).torsoHitChance)
        (w.players self).extremityHitChance) := by
  unfold Player.resolveHit
  simp only
  split_ifs
  all_goals simp [AttackOutcome.drewHitRoll, AttackOutcome.success, *]

/-- C26: an expert attacker never misses.  For an attacker with the thresholds
the constructor assigns to its class and a hit roll below 1: if the attacker is
an expert the cumulative extremity threshold the program computes,
`0.05 + 0.60 + 0.85` in doubles, is exactly `1.5`, and an attack that reaches hit
resolution returns the success flag (a head, torso or extremity hit); an attack
that returns a miss was made by a novice with a roll of at least the double
`0.85`, which is the novice's cumulative threshold `0.25 + 0.1 + 0.5` in doubles,
and a novice's attack that reaches hit resolution with such a roll is a miss. -/
theorem expert_never_misses (w w' : World n) (self : Fin n) (direction squares : Int)
    (rangeRoll hitRoll : ℚ) (out : AttackOutcome)
    (hprof : (w.players self).ClassProfile) (hroll : hitRoll < 1)
    (h : Player.attack w self direction squares rangeRoll hitRoll = some (out, w')) :
    ((w.players self).expert = true →
      doubleAdd (doubleAdd (w.players self).headHitChance (w.players self).torsoHitChance)
        (w.players self).extremityHitChance = 3 / 2 ∧
      (out.drewHitRoll = true → out.success = true ∧ ∀ id : Int, out ≠ AttackOutcome.missed id)) ∧
    (∀ id : Int, out = AttackOutcome.missed id →
      (w.players self).expert = false ∧ binary64 (85 / 100) ≤ hitRoll) ∧
    ((w.players self).expert = false →
      doubleAdd (doubleAdd (w.players self).headHitChance (w.players self).torsoHitChance)
        (w.players self).extremityHitChance = binary64 (85 / 100) ∧
      (out.drewHitRoll = true → binary64 (85 / 100) ≤ hitRoll →
        out = AttackOutcome.missed (w.players self).id)) := by
  have hinc := thresholds_increase (w.players self) hprof
  obtain ⟨-, -, hhead, htorso, hext⟩ := hprof
  have hkey : out.drewHitRoll = true →
      (out.success = false ↔ out = AttackOutcome.missed (w.players self).id) ∧
      (out = AttackOutcome.missed (w.players self).id ↔
        ¬ hitRoll < (w.players self).headHitChance ∧
        ¬ hitRoll < doubleAdd (w.players self).headHitChance (w.players self).torsoHitChance ∧
        ¬ hitRoll < doubleAdd
          (doubleAdd (w.players self).headHitChance (w.players self).torsoHitChance)
          (w.players self).extremityHitChance) := by
    intro hdrew
    rcases attack_result w w' self direction squares rangeRoll hitRoll out h with
      ⟨-, hnd, -⟩ | ⟨t, -, hres⟩
    · rw [hnd] at hdrew; cases hdrew
    · have hm := resolveHit_missed_iff (w.setMoved self) self t hitRoll
      rw [hres, setMoved_head, setMoved_torso, setMoved_extremity, setMoved_id] at hm
      exact hm.2
  have hmissed : ∀ id : Int, out = AttackOutcome.missed id →
      out = AttackOutcome.missed (w.players self).id := by
    intro id hid
    have hdrew : out.drewHitRoll = true := by rw [hid]; rfl
    exact ((hkey hdrew).1).1 (by rw [hid]; rfl)
  have hexpert : (w.players self).expert = true →
      doubleAdd (doubleAdd (w.players self).headHitChance (w.players self).torsoHitChance)
        (w.players self).extremityHitChance = 3 / 2 := by
    intro hexp
    rw [hhead, htorso, hext, hexp]
    exact expert_thresholds.2.2.1
  have hnovice : (w.players self).expert = false →
      doubleAdd (doubleAdd (w.players self).headHitChance (w.players self).torsoHitChance)
        (w.players self).extremityHitChance = binary64 (85 / 100) := by
    intro hexp
    rw [hhead, htorso, hext, hexp]
    exact novice_thresholds.2.2.1
  refine ⟨?_, ?_, ?_⟩
  · intro hexp
    refine ⟨hexpert hexp, ?_⟩
    intro hdrew
    have hnot : out ≠ AttackOutcome.missed (w.players self).id := by
      intro hm
      have h3 := (((hkey hdrew).2).1 hm).2.2
      rw [hexpert hexp] at h3
      apply h3
      linarith
    refine ⟨?_, fun id hid => hnot (hmissed id hid)⟩
    by_contra hs
    rw [Bool.not_eq_true] at hs
    exact hnot (((hkey hdrew).1).1 hs)
  · intro id hid
    have hdrew : out.drewHitRoll = true := by rw [hid]; rfl
    have h3 := (((hkey hdrew).2).1 (hmissed id hid)).2.2
    cases hexp : (w.players self).expert with
    | true =>
      rw [hexpert hexp] at h3
      exact absurd (by linarith) h3
    | false =>
      rw [hnovice hexp] at h3
      exact ⟨rfl, not_lt.1 h3⟩
  · intro hexp
    refine ⟨hnovice hexp, ?_⟩
    intro hdrew hge
    refine ((hkey hdrew).2).2 ?_
    have h3 : ¬ hitRoll < doubleAdd
        (doubleAdd (w.players self).headHitChance (w.players self).torsoHitChance)
        (w.players self).extremityHitChance := by
      rw [hnovice hexp]; exact not_lt.2 hge
    have h2 : ¬ hitRoll < doubleAdd (w.players self).headHitChance
        (w.players self).torsoHitChance :=
      not_lt.2 (le_trans hinc.2 (not_lt.1 h3))
    exact ⟨not_lt.2 (le_trans hinc.1 (not_lt.1 h2)), h2, h3⟩

/-- Instance of C26: in `faceoff` Red's novice 0 shoots to the right at range 1
with a roll equal to the double `0.85`, the novice's cumulative threshold; the
roll is not below the threshold and the shot is a miss.  In `skirmish` the
expert player 0 shoots at range 2 with the roll `63/64`, above every novice
threshold, and the shot is an extremity hit. -/
theorem expert_never_misses_witness :
    binary64 (85 / 100) = 7656119366529843 / 9007199254740992 ∧
    Player.attack skirmish 0 RIGHT 2 0 (63 / 64)
      = some (AttackOutcome.extremity 0 1 3, skirmishThirdHit) ∧
    ((AttackOutcome.extremity 0 1 3).success = true ∧
      ∀ id : Int, AttackOutcome.extremity 0 1 3 ≠ AttackOutcome.missed id) ∧
    ((faceoff.world.players 0).expert = true →
      doubleAdd (doubleAdd (faceoff.world.players 0).headHitChance
          (faceoff.world.players 0).torsoHitChance)
        (faceoff.world.players 0).extremityHitChance = 3 / 2 ∧
      ((AttackOutcome.missed 0).drewHitRoll = true →
        (AttackOutcome.missed 0).success = true ∧
        ∀ id : Int, AttackOutcome.missed 0 ≠ AttackOutcome.missed id)) ∧
    (∀ id : Int, AttackOutcome.missed 0 = AttackOutcome.missed id →
      (faceoff.world.players 0).expert = false ∧ binary64 (85 / 100) ≤ binary64 (85 / 100)) ∧
    ((faceoff.world.players 0).expert = false →
      doubleAdd (doubleAdd (faceoff.world.players 0).headHitChance
          (faceoff.world.players 0).torsoHitChance)
        (faceoff.world.players 0).extremityHitChance = binary64 (85 / 100) ∧
      ((AttackOutcome.missed 0).drewHitRoll = true →
        binary64 (85 / 100) ≤ binary64 (85 / 100) →
        AttackOutcome.missed 0 = AttackOutcome.missed (faceoff.world.players 0).id)) :=
  ⟨novice_thresholds.2.2.2.2, by with_unfolding_all rfl,
   ((expert_never_misses skirmish skirmishThirdHit 0 RIGHT 2 0 (63 / 64)
     (AttackOutcome.extremity 0 1 3) ⟨rfl, rfl, rfl, rfl, rfl⟩ (by norm_num)
     (by with_unfolding_all rfl)).1 rfl).2 rfl,
   expert_never_misses faceoff.world (faceoff.world.setMoved 0) 0 RIGHT 1 0
     (binary64 (85 / 100)) (AttackOutcome.missed 0) ⟨rfl, rfl, rfl, rfl, rfl⟩
     (by rw [novice_thresholds.2.2.2.2]; norm_num) (by with_unfolding_all rfl)⟩

/-! ## One unit per team: the first action ends the game -/

/-- A move that is carried out: the mover's record afterwards, and, when the
distance used is at least 1, the destination differs from the origin and its cell
listed only units of the mover's team before the call. -/
theorem move_success_facts (w w' : World n) (self : Fin n) (direction squares : Int) (roll : ℚ)
    (out : MoveOutcome) (h : Player.move w self direction squares roll = some (out, w'))
    (hs : out.isSuccess = true) :
    ∃ dx dy : Int, directionDelta direction = some (dx, dy) ∧
      (w'.players self).x = (w.players self).x + dx * (w.players self).autoSquares squares roll ∧
      (w'.players self).y = (w.players self).y + dy * (w.players self).autoSquares squares roll ∧
      ((w.players self).autoSquares squares roll ≠ 0 →
        ¬ ((w'.players self).x = (w.players self).x ∧ (w'.players self).y = (w.players self).y)) ∧
      (1 ≤ (w.players self).autoSquares squares roll →
        outOfBounds w.board (w'.players self).x (w'.players self).y = false ∧
        ∃ c, cellAt w.board (w'.players self).x (w'.players self).y = some c ∧
          c.players.length < 4 ∧
          ∀ q ∈ c.players, (w.players q).team = (w.players self).team) := by
  have hauto : ((w.setMoved self).players self).autoSquares squares roll
      = (w.players self).autoSquares squares roll := by
    simp [Player.autoSquares, setMoved_fast]
  rcases move_result w w' self direction squares roll out h with
    ⟨hf, -⟩ | ⟨dx, dy, hd, -, hloop, hrel⟩
  · rw [hf] at hs; cases hs
  · obtain ⟨c0, c1, -, -, -, hp, -⟩ := relocate_spec _ _ _ _ _ _ _ hrel
    rw [hauto] at hloop hp
    rw [setMoved_x, setMoved_y] at hp
    have hx : (w'.players self).x
        = (w.players self).x + dx * (w.players self).autoSquares squares roll := by
      rw [hp, Function.update_same]; rfl
    have hy : (w'.players self).y
        = (w.players self).y + dy * (w.players self).autoSquares squares roll := by
      rw [hp, Function.update_same]; rfl
    refine ⟨dx, dy, hd, hx, hy, ?_, ?_⟩
    · rw [hx, hy]
      generalize (w.players self).autoSquares squares roll = sq
      intro hne hsame
      have e1 : dx * sq = 0 := by omega
      have e2 : dy * sq = 0 := by omega
      rcases directionDelta_some _ _ _ hd with
        ⟨-, rfl, rfl⟩ | ⟨-, rfl, rfl⟩ | ⟨-, rfl, rfl⟩ | ⟨-, rfl, rfl⟩ <;> omega
    · intro h1
      obtain ⟨hin, c, hc, hteam, hlen⟩ := moveLoop_pass (w.setMoved self) self dx dy
        ((w.players self).autoSquares squares roll)
        ((w.players self).autoSquares squares roll).toNat 1 (by omega) hloop
        ((w.players self).autoSquares squares roll) h1 (le_refl _)
      rw [setMoved_board, setMoved_x, setMoved_y] at hin hc
      rw [hx, hy]
      refine ⟨hin, c, hc, hlen rfl, ?_⟩
      intro q hq
      have := hteam q hq
      rw [setMoved_team, setMoved_team] at this
      exact this

/-- With one unit per roster the evaluator returns true whenever one of the two
units is at the coordinates of its own flag. -/
theorem checkEnd_of_home (g : Game n) (r b : Fin n) (hR : g.redTeam = [r])
    (hB : g.blueTeam = [b])
    (hhome : ((g.world.players r).x = g.redFlag.1 ∧ (g.world.players r).y = g.redFlag.2) ∨
      ((g.world.players b).x = g.blueFlag.1 ∧ (g.world.players b).y = g.blueFlag.2)) :
    g.checkEndConditions.1 = true := by
  have hne : g.endReason ≠ none := by
    rw [endReason_eq]
    split_ifs with h1 h2 h3 h4 h5 h6
    all_goals first
      | exact fun hc => Option.noConfusion hc
      | skip
    rcases hhome with h | h
    · exfalso
      apply h5
      intro p hp _
      rw [hR, List.mem_singleton] at hp
      subst hp
      exact h
    · exfalso
      apply h6
      intro p hp _
      rw [hB, List.mem_singleton] at hp
      subst hp
      exact h
  cases he : g.endReason with
  | none => exact absurd he hne
  | some reason => exact (checkEnd_of_reason g reason he).1

/-- The branch of the evaluator in a game with one live unit per roster and
different flag squares: Red's "retreat" when Red's unit is on its own flag and
Blue's unit is not on Red's flag; Blue's "retreat" when Red's unit is on neither
flag and Blue's unit is on its own. -/
theorem oneOnOne_endReason (g : Game n) (r b : Fin n) (hR : g.redTeam = [r])
    (hB : g.blueTeam = [b]) (hflags : g.redFlag ≠ g.blueFlag)
    (hr : (g.world.players r).eliminated = false) (hb : (g.world.players b).eliminated = false) :
    (((g.world.players r).x = g.redFlag.1 ∧ (g.world.players r).y = g.redFlag.2) →
      ¬ ((g.world.players b).x = g.redFlag.1 ∧ (g.world.players b).y = g.redFlag.2) →
      g.endReason = some EndReason.redRetreat) ∧
    (¬ ((g.world.players r).x = g.redFlag.1 ∧ (g.world.players r).y = g.redFlag.2) →
      ¬ ((g.world.players r).x = g.blueFlag.1 ∧ (g.world.players r).y = g.blueFlag.2) →
      ((g.world.players b).x = g.blueFlag.1 ∧ (g.world.players b).y = g.blueFlag.2) →
      g.endReason = some EndReason.blueRetreat) := by
  have hliveR : g.HasLive g.redTeam := ⟨r, by rw [hR]; simp, hr⟩
  have hliveB : g.HasLive g.blueTeam := ⟨b, by rw [hB]; simp, hb⟩
  have hdiff : ∀ x y : Int, (x = g.redFlag.1 ∧ y = g.redFlag.2) →
      ¬ (x = g.blueFlag.1 ∧ y = g.blueFlag.2) := by
    rintro x y ⟨h1, h2⟩ ⟨h3, h4⟩
    exact hflags (Prod.ext (by rw [← h1, h3]) (by rw [← h2, h4]))
  constructor
  · intro hrHome hbNot
    rw [endReason_eq]
    rw [if_neg, if_neg, if_neg (not_not.2 hliveR), if_neg (not_not.2 hliveB), if_pos]
    · intro p hp _
      rw [hR, List.mem_singleton] at hp
      subst hp
      exact hrHome
    · rintro ⟨p, hp, -, hpos⟩
      rw [hB, List.mem_singleton] at hp
      subst hp
      exact hbNot hpos
    · rintro ⟨p, hp, -, hpos⟩
      rw [hR, List.mem_singleton] at hp
      subst hp
      exact hdiff _ _ hrHome hpos
  · intro hrAway hrNot hbHome
    rw [endReason_eq]
    rw [if_neg, if_neg, if_neg (not_not.2 hliveR), if_neg (not_not.2 hliveB), if_neg, if_pos]
    · intro p hp _
      rw [hB, List.mem_singleton] at hp
      subst hp
      exact hbHome
    · intro hall
      exact hrAway (hall r (by rw [hR]; simp) hr)
    · rintro ⟨p, hp, -, hpos⟩
      rw [hB, List.mem_singleton] at hp
      subst hp
      exact hdiff _ _ hpos hbHome
    · rintro ⟨p, hp, -, hpos⟩
      rw [hR, List.mem_singleton] at hp
      subst hp
      exact hrNot hpos

theorem autoSquares_pos (p : Player) (squares : Int) (roll : ℚ)
    (h : 1 ≤ squares ∨ squares = -1) : 1 ≤ p.autoSquares squares roll := by
  unfold Player.autoSquares
  split_ifs <;> omega

/-- The first action of a one-unit-per-team game.  From a start with one live
unit per team, each on its own flag, and different flag squares, after any single
call of `Player::move` or `Player::attack` by either unit that returns, with any
direction, distance or range and rolls, successful or not,
`Game::checkEndConditions` returns true.  After a successful first move of at
least one square (a requested distance of at least 1, or the automatic sentinel)
on a board that lists every unit in the cell at its position, the mover's team is
declared the winner by the other team's "retreat".  A call with distance 0 that
passes for a successful move leaves the mover on its flag, and the evaluator then
names Blue the winner by Red's "retreat", whichever unit moved.  On a rectangular
board with the acting unit on the board the attack returns for all arguments and
the move for every distance that is not negative. -/
theorem first_action_ends_game (g : Game n) (r b self : Fin n) (direction squares : Int)
    (roll rangeRoll hitRoll : ℚ) (hstart : g.OneOnOne r b) (hself : self = r ∨ self = b) :
    (∀ (out : MoveOutcome) (w' : World n),
      Player.move g.world self direction squares roll = some (out, w') →
      ({ g with world := w' } : Game n).checkEndConditions.1 = true) ∧
    (∀ (out : AttackOutcome) (w' : World n),
      Player.attack g.world self direction squares rangeRoll hitRoll = some (out, w') →
      ({ g with world := w' } : Game n).checkEndConditions.1 = true) ∧
    (∀ (out : MoveOutcome) (w' : World n),
      Player.move g.world self direction squares roll = some (out, w') →
      out.isSuccess = true → (1 ≤ squares ∨ squares = -1) → g.world.Consistent →
      (g.world.players r).team ≠ (g.world.players b).team →
      (self = r →
        ({ g with world := w' } : Game n).endReason = some EndReason.blueRetreat ∧
        ({ g with world := w' } : Game n).checkEndConditions.2.winner = "Red Team") ∧
      (self = b →
        ({ g with world := w' } : Game n).endReason = some EndReason.redRetreat ∧
        ({ g with world := w' } : Game n).checkEndConditions.2.winner = "Blue Team")) ∧
    (∀ (out : MoveOutcome) (w' : World n),
      Player.move g.world self direction squares roll = some (out, w') →
      out.isSuccess = true → squares = 0 →
      ({ g with world := w' } : Game n).endReason = some EndReason.redRetreat ∧
      ({ g with world := w' } : Game n).checkEndConditions.2.winner = "Blue Team") ∧
    (RectBoard g.world.board →
      outOfBounds g.world.board (g.world.players self).x (g.world.players self).y = false →
      (Player.attack g.world self direction squares rangeRoll hitRoll).isSome = true ∧
      (0 ≤ squares ∨ squares = -1 →
        (Player.move g.world self direction squares roll).isSome = true)) := by
  obtain ⟨hR, hB, hrb, hflags, hr, hb, hrx, hry, hbx, hby⟩ := hstart
  have hdiff : ¬ (g.blueFlag.1 = g.redFlag.1 ∧ g.blueFlag.2 = g.redFlag.2) := by
    rintro ⟨h1, h2⟩
    exact hflags (Prod.ext h1.symm h2.symm)
  have hwin : ∀ (w' : World n) (reason : EndReason),
      ({ g with world := w' } : Game n).endReason = some reason →
      ({ g with world := w' } : Game n).endReason = some reason ∧
      ({ g with world := w' } : Game n).checkEndConditions.2.winner = reason.winner :=
    fun w' reason h => ⟨h, (checkEnd_of_reason _ reason h).2.1⟩
  refine ⟨?_, ?_, ?_, ?_, fun hrect hon =>
    ⟨attack_returns g.world self direction squares rangeRoll hitRoll hrect hon,
      fun hsq => move_returns g.world self direction squares roll hrect hon hsq⟩⟩
  · intro out w' h
    refine checkEnd_of_home _ r b hR hB ?_
    by_cases hs : r = self
    · right
      have hbs : b ≠ self := fun hbs => hrb (hs.trans hbs.symm)
      have hp := move_other g.world w' self b direction squares roll out h hbs
      simp only [hp]
      exact ⟨hbx, hby⟩
    · left
      have hp := move_other g.world w' self r direction squares roll out h hs
      simp only [hp]
      exact ⟨hrx, hry⟩
  · intro out w' h
    refine checkEnd_of_home _ r b hR hB (Or.inl ?_)
    obtain ⟨-, hpos, -⟩ := attack_frame g.world w' self direction squares rangeRoll hitRoll out h
    simp only [(hpos r).1, (hpos r).2]
    exact ⟨hrx, hry⟩
  · intro out w' h hs hsq hcons hteams
    obtain ⟨dx, dy, -, hx, hy, hmoved, hdest⟩ :=
      move_success_facts g.world w' self direction squares roll out h hs
    have hauto := autoSquares_pos (g.world.players self) squares roll hsq
    have hnz : (g.world.players self).autoSquares squares roll ≠ 0 := fun hz => by
      rw [hz] at hauto
      exact absurd hauto (by decide)
    have hne := hmoved hnz
    obtain ⟨-, c, hc, -, hteam⟩ := hdest hauto
    have hkeep := move_keeps_hits g.world w' self direction squares roll out h
    constructor
    · intro hsr
      subst hsr
      have hpb := move_other g.world w' self b direction squares roll out h (Ne.symm hrb)
      have h2 := (oneOnOne_endReason ({ g with world := w' } : Game n) self b hR hB hflags
        (by simp only [(hkeep self).2]; exact hr) (by simp only [hpb]; exact hb)).2
      have hres := h2 (by simpa only [← hrx, ← hry] using hne)
        (by
          rintro ⟨e1, e2⟩
          have e1' : (w'.players self).x = g.blueFlag.1 := e1
          have e2' : (w'.players self).y = g.blueFlag.2 := e2
          have hmem : b ∈ c.players :=
            (hcons b _ _ c hc).2 ⟨by rw [e1', hbx], by rw [e2', hby]⟩
          exact hteams (hteam b hmem).symm)
        (by simp only [hpb]; exact ⟨hbx, hby⟩)
      exact hwin w' _ hres
    · intro hsb
      subst hsb
      have hpr := move_other g.world w' self r direction squares roll out h hrb
      have h1 := (oneOnOne_endReason ({ g with world := w' } : Game n) r self hR hB hflags
        (by simp only [hpr]; exact hr) (by simp only [(hkeep self).2]; exact hb)).1
      have hres := h1 (by simp only [hpr]; exact ⟨hrx, hry⟩)
        (by
          rintro ⟨e1, e2⟩
          have e1' : (w'.players self).x = g.redFlag.1 := e1
          have e2' : (w'.players self).y = g.redFlag.2 := e2
          have hmem : r ∈ c.players :=
            (hcons r _ _ c hc).2 ⟨by rw [e1', hrx], by rw [e2', hry]⟩
          exact hteams (hteam r hmem))
      exact hwin w' _ hres
  · intro out w' h hs hz
    subst hz
    obtain ⟨dx, dy, -, hx, hy, -, -⟩ :=
      move_success_facts g.world w' self direction 0 roll out h hs
    have hauto : (g.world.players self).autoSquares 0 roll = 0 := by
      simp [Player.autoSquares]
    rw [hauto, mul_zero, add_zero] at hx hy
    have hkeep := move_keeps_hits g.world w' self direction 0 roll out h
    have hpos : ∀ u : Fin n, (w'.players u).x = (g.world.players u).x ∧
        (w'.players u).y = (g.world.players u).y := by
      intro u
      by_cases hu : u = self
      · subst hu; exact ⟨hx, hy⟩
      · rw [move_other g.world w' self u direction 0 roll out h hu]
        exact ⟨rfl, rfl⟩
    have h1 := (oneOnOne_endReason ({ g with world := w' } : Game n) r b hR hB hflags
      (by simp only [(hkeep r).2]; exact hr) (by simp only [(hkeep b).2]; exact hb)).1
    have hres := h1 (by simp only [(hpos r).1, (hpos r).2]; exact ⟨hrx, hry⟩)
      (by
        simp only [(hpos b).1, (hpos b).2]
        rw [hbx, hby]
        exact hdiff)
    exact hwin w' _ hres

/-- A board is consistent with the positions when this holds cell by cell, over
the rows and columns the board has. -/
theorem consistent_of_cells (w : World n)
    (h : ∀ y ∈ List.range w.board.length,
      ∀ x ∈ List.range ((w.board[y]?).getD []).length, ∀ q : Fin n,
        (q ∈ ((cellAt w.board x y).getD ⟨[]⟩).players ↔
          ((w.players q).x = x ∧ (w.players q).y = y))) : w.Consistent := by
  intro q cx cy c hc
  obtain ⟨hx, hy, row, hr, hcell⟩ := (cellAt_eq_some_iff _ _ _ _).1 hc
  obtain ⟨hyl, -⟩ := List.getElem?_eq_some.1 hr
  obtain ⟨hxl, -⟩ := List.getElem?_eq_some.1 hcell
  have hcx : ((cx.toNat : Nat) : Int) = cx := Int.toNat_of_nonneg hx
  have hcy : ((cy.toNat : Nat) : Int) = cy := Int.toNat_of_nonneg hy
  have := h cy.toNat (List.mem_range.2 hyl) cx.toNat
    (List.mem_range.2 (by rw [hr]; exact hxl)) q
  rw [hcx, hcy, hc] at this
  exact this

theorem duel_consistent : duel.world.Consistent :=
  consistent_of_cells duel.world (by decide)

theorem duel_oneOnOne : duel.OneOnOne 0 1 :=
  ⟨rfl, rfl, by decide, by decide, rfl, rfl, rfl, rfl, rfl, rfl⟩

/-- In `duel` Red's unit moves one square to the right, off its flag; the
evaluator returns true and declares Red the winner by Blue's "retreat". -/
theorem first_action_ends_game_witness :
    Player.move duel.world 0 RIGHT 1 0 = some (MoveOutcome.moved 0 1 0, duelFirstMove) ∧
    ({ duel with world := duelFirstMove } : Game 2).checkEndConditions.1 = true ∧
    ({ duel with world := duelFirstMove } : Game 2).endReason = some EndReason.blueRetreat ∧
    ({ duel with world := duelFirstMove } : Game 2).checkEndConditions.2.winner = "Red Team" :=
  ⟨rfl,
   (first_action_ends_game duel 0 1 0 RIGHT 1 0 0 0 duel_oneOnOne (Or.inl rfl)).1 _ _ rfl,
   ((first_action_ends_game duel 0 1 0 RIGHT 1 0 0 0 duel_oneOnOne (Or.inl rfl)).2.2.1
     (MoveOutcome.moved 0 1 0) duelFirstMove rfl rfl (Or.inl (by decide)) duel_consistent
     (by decide)).1 rfl⟩

/-- Evaluation at the failing input of C27: in `duel` (one live unit per team,
each on its own flag) Red's unit is asked to move 0 squares to the right.
`Player::move` tests only `squares > maxMovement`, so it rejects nothing and
reports "Player 0 moved to (0, 0).", a successful move; the unit is still on
Red's flag, and the evaluator declares Blue, not the mover's team, the winner by
Red's "retreat". -/
theorem first_move_of_zero_squares :
    duel.OneOnOne 0 1 ∧
    (Player.move duel.world 0 RIGHT 0 0).map
        (fun p => (p.1, p.1.isSuccess, p.1.message,
          ({ duel with world := p.2 } : Game 2).endReason,
          ({ duel with world := p.2 } : Game 2).checkEndConditions.1,
          ({ duel with world := p.2 } : Game 2).checkEndConditions.2.winner)) =
      some (MoveOutcome.moved 0 0 0, true, "Player 0 moved to (0, 0).",
        some EndReason.redRetreat, true, "Blue Team") :=
  ⟨duel_oneOnOne, by decide⟩

/-! ## The calls of the opponent strategy, one after the other -/

theorem plays_append (flag : Int × Int) :
    ∀ (l1 l2 : List (Call n)) (w w1 w2 : World n), World.Plays flag w l1 w1 →
      World.Plays flag w1 l2 w2 → World.Plays flag w (l1 ++ l2) w2 := by
  intro l1
  induction l1 with
  | nil =>
    intro l2 w w1 w2 h1 h2
    simp only [World.Plays] at h1
    subst h1
    exact h2
  | cons c cs ih =>
    intro l2 w w1 w2 h1 h2
    obtain ⟨hp, wm, hr, hrest⟩ := h1
    exact ⟨hp, wm, hr, ih l2 wm w1 w2 hrest h2⟩

theorem plays_single (flag : Int × Int) (w w' : World n) (c : Call n)
    (hp : c.Planned flag w) (hr : c.Runs w w') : World.Plays flag w [c] w' :=
  ⟨hp, w', hr, rfl⟩

theorem sameButMoved_maxMovement (w w' : World n) (h : w.SameButMoved w') (u : Fin n) :
    (w'.players u).maxMovement = (w.players u).maxMovement ∧
    (w'.players u).fast = (w.players u).fast := by
  have hu := h.2 u
  have h1 := congrArg Player.maxMovement hu
  have h2 := congrArg Player.fast hu
  exact ⟨h1, h2⟩

theorem turn_attack_runs (t t1 : Turn n) (rng : Nat → ℚ) (self : Fin n) (dir range : Int)
    (out : AttackOutcome) (h : t.attack rng self dir range = some (out, t1)) :
    (Call.attack self dir range out).Runs t.world t1.world := by
  unfold Turn.attack at h
  simp only at h
  split at h
  · cases h
  · rename_i o w hatt
    cases h
    exact ⟨_, _, hatt⟩

theorem turn_move_runs (t t1 : Turn n) (rng : Nat → ℚ) (self : Fin n) (dir squares : Int)
    (out : MoveOutcome) (h : t.move rng self dir squares = some (out, t1)) :
    (Call.move self dir squares out).Runs t.world t1.world := by
  unfold Turn.move at h
  split at h
  · cases h
  · rename_i o w hmv
    cases h
    exact ⟨_, hmv⟩

theorem scanRanges_plays (rng : Nat → ℚ) (flag : Int × Int) (self : Fin n) (dir : Int)
    (hdir : dir ∈ [UP, DOWN, LEFT, RIGHT]) :
    ∀ (fuel : Nat) (range : Int) (t t' : Turn n) (b : Bool),
      Game.scanRanges rng self dir fuel range t = some (b, t') → 1 ≤ range →
      (fuel ≠ 0 → range + fuel ≤ (t.world.players self).range + 1) →
      ∃ new, t'.calls = t.calls ++ new ∧ World.Plays flag t.world new t'.world := by
  intro fuel
  induction fuel with
  | zero =>
    intro range t t' b h _ _
    simp only [Game.scanRanges, Option.some.injEq, Prod.mk.injEq] at h
    obtain ⟨-, rfl⟩ := h
    exact ⟨[], by simp, rfl⟩
  | succ k ih =>
    intro range t t' b h hr hfuel
    unfold Game.scanRanges at h
    cases hatt : t.attack rng self dir range with
    | none => rw [hatt] at h; cases h
    | some p =>
      obtain ⟨out, t1⟩ := p
      rw [hatt] at h
      simp only at h
      have hstep := turn_attack_step t t1 rng self dir range out hatt
      have hruns := turn_attack_runs t t1 rng self dir range out hatt
      have hbound := hfuel (by omega)
      have hplan : (Call.attack self dir range out).Planned flag t.world :=
        ⟨hdir, hr, by push_cast at hbound; omega⟩
      have hone := plays_single flag t.world t1.world _ hplan hruns
      by_cases hs : out.success = true
      · rw [if_pos hs] at h
        simp only [Option.some.injEq, Prod.mk.injEq] at h
        obtain ⟨-, rfl⟩ := h
        exact ⟨_, hstep.1, hone⟩
      · rw [if_neg hs] at h
        rw [Bool.not_eq_true] at hs
        rw [hs] at hstep
        have hsame := (hstep.2.1 rfl).2
        obtain ⟨-, -, -, -, -, hrg, -⟩ := sameButMoved_fields _ _ hsame self
        obtain ⟨new, hcalls, hplays⟩ := ih (range + 1) t1 t' b h (by omega) (by
          intro hk
          rw [hrg]
          push_cast at hbound
          omega)
        exact ⟨_ :: new, by rw [hcalls, hstep.1, List.append_assoc]; rfl,
          plays_append flag [_] new _ _ _ hone hplays⟩

theorem scanDirections_plays (rng : Nat → ℚ) (flag : Int × Int) (self : Fin n) :
    ∀ (dirs : List Int) (t t' : Turn n) (b : Bool),
      (∀ d ∈ dirs, d ∈ [UP, DOWN, LEFT, RIGHT]) →
      Game.scanDirections rng self dirs t = some (b, t') →
      ∃ new, t'.calls = t.calls ++ new ∧ World.Plays flag t.world new t'.world := by
  intro dirs
  induction dirs with
  | nil =>
    intro t t' b _ h
    simp only [Game.scanDirections, Option.some.injEq, Prod.mk.injEq] at h
    obtain ⟨-, rfl⟩ := h
    exact ⟨[], by simp, rfl⟩
  | cons dir rest ih =>
    intro t t' b hdirs h
    unfold Game.scanDirections at h
    cases hscan : Game.scanRanges rng self dir (t.world.players self).range.toNat 1 t with
    | none => rw [hscan] at h; cases h
    | some p =>
      obtain ⟨b1, t1⟩ := p
      rw [hscan] at h
      obtain ⟨new1, hcalls1, hplays1⟩ := scanRanges_plays rng flag self dir
        (hdirs dir (List.mem_cons_self _ _)) _ _ _ _ _ hscan (le_refl _) (by
          intro hne
          have : 0 < (t.world.players self).range.toNat := Nat.pos_of_ne_zero hne
          have h0 : 0 < (t.world.players self).range := by
            by_contra hc
            rw [Int.toNat_eq_zero.2 (by omega)] at this
            exact absurd this (by decide)
          rw [Int.toNat_of_nonneg (le_of_lt h0)]
          omega)
      cases b1 with
      | true =>
        simp only [Option.some.injEq, Prod.mk.injEq] at h
        obtain ⟨-, rfl⟩ := h
        exact ⟨new1, hcalls1, hplays1⟩
      | false =>
        simp only at h
        obtain ⟨new2, hcalls2, hplays2⟩ := ih t1 t' b
          (fun d hd => hdirs d (List.mem_cons_of_mem _ hd)) h
        exact ⟨new1 ++ new2, by rw [hcalls2, hcalls1, List.append_assoc],
          plays_append flag new1 new2 _ _ _ hplays1 hplays2⟩

theorem tryMoves_plays (rng : Nat → ℚ) (flag : Int × Int) (self : Fin n) (maxSteps : Int) :
    ∀ (dirs : List Int) (t t' : Turn n) (b : Bool),
      (∀ d ∈ dirs, d ∈ Game.moveDirections (flag.1 - (t.world.players self).x)
        (flag.2 - (t.world.players self).y)) →
      maxSteps = (t.world.players self).maxMovement →
      Game.tryMoves rng self maxSteps dirs t = some (b, t') →
      ∃ new, t'.calls = t.calls ++ new ∧ World.Plays flag t.world new t'.world := by
  intro dirs
  induction dirs with
  | nil =>
    intro t t' b _ _ h
    simp only [Game.tryMoves, Option.some.injEq, Prod.mk.injEq] at h
    obtain ⟨-, rfl⟩ := h
    exact ⟨[], by simp, rfl⟩
  | cons dir rest ih =>
    intro t t' b hdirs hmax h
    unfold Game.tryMoves at h
    cases hmv : t.move rng self dir maxSteps with
    | none => rw [hmv] at h; cases h
    | some p =>
      obtain ⟨out, t1⟩ := p
      rw [hmv] at h
      simp only at h
      have hstep := turn_move_step t t1 rng self dir maxSteps out hmv
      have hruns := turn_move_runs t t1 rng self dir maxSteps out hmv
      have hplan : (Call.move self dir maxSteps out).Planned flag t.world :=
        ⟨hdirs dir (List.mem_cons_self _ _), hmax⟩
      have hone := plays_single flag t.world t1.world _ hplan hruns
      by_cases hs : out.isSuccess = true
      · rw [if_pos hs] at h
        simp only [Option.some.injEq, Prod.mk.injEq] at h
        obtain ⟨-, rfl⟩ := h
        exact ⟨_, hstep.1, hone⟩
      · rw [if_neg hs] at h
        rw [Bool.not_eq_true] at hs
        rw [hs] at hstep
        have hsame := (hstep.2.1 rfl).2
        obtain ⟨hx, hy, -⟩ := sameButMoved_fields _ _ hsame self
        obtain ⟨hmm, -⟩ := sameButMoved_maxMovement _ _ hsame self
        obtain ⟨new, hcalls, hplays⟩ := ih t1 t' b
          (by rw [hx, hy]; exact fun d hd => hdirs d (List.mem_cons_of_mem _ hd))
          (by rw [hmm]; exact hmax) h
        exact ⟨_ :: new, by rw [hcalls, hstep.1, List.append_assoc]; rfl,
          plays_append flag [_] new _ _ _ hone hplays⟩

theorem attackDirections_mem : ∀ d ∈ [UP, DOWN, LEFT, RIGHT], d ∈ [UP, DOWN, LEFT, RIGHT] :=
  fun _ hd => hd

theorem programUnit_plays (rng : Nat → ℚ) (flag : Int × Int) (self : Fin n) (t t' : Turn n)
    (b : Bool) (h : Game.programUnit rng flag self t = some (b, t')) :
    ∃ new, t'.calls = t.calls ++ new ∧ World.Plays flag t.world new t'.world := by
  unfold Game.programUnit at h
  simp only at h
  cases hscan : Game.scanDirections rng self [UP, DOWN, LEFT, RIGHT] t with
  | none => rw [hscan] at h; cases h
  | some p =>
    obtain ⟨b1, t1⟩ := p
    rw [hscan] at h
    obtain ⟨new1, hcalls1, hplays1⟩ :=
      scanDirections_plays rng flag self _ _ _ _ attackDirections_mem hscan
    obtain ⟨new1', hstep1, -, -⟩ := scanDirections_step rng self _ _ _ _ hscan
    cases b1 with
    | true =>
      simp only [Option.some.injEq, Prod.mk.injEq] at h
      obtain ⟨-, rfl⟩ := h
      exact ⟨new1, hcalls1, hplays1⟩
    | false =>
      simp only at h
      have hsame := (hstep1.2.1 rfl).2
      obtain ⟨hx, hy, -⟩ := sameButMoved_fields _ _ hsame self
      cases hmv : Game.tryMoves rng self (t1.world.players self).maxMovement
          (Game.moveDirections (flag.1 - (t.world.players self).x)
            (flag.2 - (t.world.players self).y)) t1 with
      | none => rw [hmv] at h; cases h
      | some p2 =>
        obtain ⟨b2, t2⟩ := p2
        rw [hmv] at h
        obtain ⟨new2, hcalls2, hplays2⟩ := tryMoves_plays rng flag self _ _ _ _ _
          (by rw [hx, hy]; exact fun d hd => hd) rfl hmv
        cases b2 with
        | true =>
          simp only [Option.some.injEq, Prod.mk.injEq] at h
          obtain ⟨-, rfl⟩ := h
          exact ⟨new1 ++ new2, by rw [hcalls2, hcalls1, List.append_assoc],
            plays_append flag new1 new2 _ _ _ hplays1 hplays2⟩
        | false =>
          simp only at h
          obtain ⟨new3, hcalls3, hplays3⟩ :=
            scanDirections_plays rng flag self _ _ _ _ attackDirections_mem h
          exact ⟨new1 ++ new2 ++ new3,
            by rw [hcalls3, hcalls2, hcalls1, List.append_assoc, List.append_assoc,
              List.append_assoc],
            plays_append flag (new1 ++ new2) new3 _ _ _
              (plays_append flag new1 new2 _ _ _ hplays1 hplays2) hplays3⟩

theorem programLoop_plays (rng : Nat → ℚ) (flag : Int × Int) :
    ∀ (l : List (Fin n)) (t t' : Turn n) (b : Bool),
      Game.programLoop rng flag l t = some (b, t') →
      ∃ new, t'.calls = t.calls ++ new ∧ World.Plays flag t.world new t'.world := by
  intro l
  induction l with
  | nil =>
    intro t t' b h
    simp only [Game.programLoop, Option.some.injEq, Prod.mk.injEq] at h
    obtain ⟨-, rfl⟩ := h
    exact ⟨[], by simp, rfl⟩
  | cons player rest ih =>
    intro t t' b h
    unfold Game.programLoop at h
    by_cases hel : (t.world.players player).eliminated = true
    · rw [if_pos hel] at h
      exact ih _ _ _ h
    · rw [if_neg hel] at h
      cases hunit : Game.programUnit rng flag player t with
      | none => rw [hunit] at h; cases h
      | some p =>
        obtain ⟨b1, t1⟩ := p
        rw [hunit] at h
        obtain ⟨new1, hcalls1, hplays1⟩ := programUnit_plays rng flag player _ _ _ hunit
        cases b1 with
        | true =>
          simp only [Option.some.injEq, Prod.mk.injEq] at h
          obtain ⟨-, rfl⟩ := h
          exact ⟨new1, hcalls1, hplays1⟩
        | false =>
          simp only at h
          obtain ⟨new2, hcalls2, hplays2⟩ := ih _ _ _ h
          exact ⟨new1 ++ new2, by rw [hcalls2, hcalls1, List.append_assoc],
            plays_append flag new1 new2 _ _ _ hplays1 hplays2⟩

/-- The flag `Game::programTurn` aims at is the human's when the rosters differ. -/
theorem targetFlag_eq_enemyFlag (g : Game n) (hteams : g.redTeam ≠ g.blueTeam) :
    (if g.programTeam = g.redTeam then g.blueFlag else g.redFlag) = g.enemyFlag := by
  unfold Game.programTeam Game.enemyFlag
  by_cases hu : g.userTeam = 'R'
  · rw [if_pos hu, if_pos hu, if_neg (fun h => hteams h.symm)]
  · rw [if_neg hu, if_neg hu, if_pos rfl]

/-- The calls recorded by `Game::programTurn` are made one after the other from
the world of the game to the world of the game it leaves, each with the
arguments the strategy passes. -/
theorem programTurn_plays (g : Game n) (rng : Nat → ℚ) (r : TurnResult n)
    (h : g.programTurn rng = some r) :
    World.Plays (if g.programTeam = g.redTeam then g.blueFlag else g.redFlag)
      g.world r.calls r.game.world := by
  unfold Game.programTurn at h
  by_cases hempty : g.programTeam.filter (fun p => !(g.world.players p).eliminated) = []
  · rw [if_pos hempty] at h
    cases h
    rfl
  · rw [if_neg hempty] at h
    simp only at h
    cases hloop : Game.programLoop rng
        (if g.programTeam = g.redTeam then g.blueFlag else g.redFlag) g.candidates
        { world := g.world, drawn := 0, calls := [] } with
    | none => rw [hloop] at h; cases h
    | some p =>
      obtain ⟨b, t⟩ := p
      rw [hloop] at h
      simp only [Option.some.injEq] at h
      subst h
      obtain ⟨new, hcalls, hplays⟩ := programLoop_plays rng _ _ _ _ _ hloop
      simp only [List.nil_append] at hcalls
      simp only
      rw [hcalls]
      exact hplays

/-! ## Game::programTurn: candidate order -/

/-- The loop over the candidates calls a resolver first for its first player, when
this one is not eliminated and has a range of at least 1. -/
theorem programLoop_first (rng : Nat → ℚ) (flag : Int × Int) (p : Fin n) (rest : List (Fin n))
    (t t' : Turn n) (b : Bool)
    (h : Game.programLoop rng flag (p :: rest) t = some (b, t'))
    (hlive : (t.world.players p).eliminated = false) (hr : 1 ≤ (t.world.players p).range) :
    ∃ c cs, t'.calls = t.calls ++ c :: cs ∧ c.unit = p := by
  unfold Game.programLoop at h
  rw [if_neg (by rw [hlive]; decide)] at h
  cases hunit : Game.programUnit rng flag p t with
  | none => rw [hunit] at h; cases h
  | some q =>
    obtain ⟨b1, t1⟩ := q
    rw [hunit] at h
    obtain ⟨new1, hstep1, hunits1, hne1⟩ := programUnit_step rng flag p _ _ _ hunit
    obtain ⟨c, cs, hnew⟩ := List.exists_cons_of_ne_nil (hne1 hr)
    have hc : c.unit = p := hunits1 c (by rw [hnew]; exact List.mem_cons_self _ _)
    cases b1 with
    | true =>
      simp only [Option.some.injEq, Prod.mk.injEq] at h
      obtain ⟨-, rfl⟩ := h
      exact ⟨c, cs, by rw [hstep1.1, hnew], hc⟩
    | false =>
      simp only at h
      obtain ⟨new2, hstep2, -⟩ := programLoop_step rng flag _ _ _ _ h
      exact ⟨c, cs ++ new2, by rw [hstep2.1, hstep1.1, hnew, List.append_assoc]; rfl, hc⟩

/-- The first element of a list sorted by insertion on a key has the least key. -/
theorem insertionSort_head_le {α : Type} (f : α → Nat) (l : List α) (p : α) (rest : List α)
    (h : List.insertionSort (fun a b => f a ≤ f b) l = p :: rest) :
    ∀ q ∈ l, f p ≤ f q := by
  haveI : IsTotal α (fun a b => f a ≤ f b) := ⟨fun a b => Nat.le_total (f a) (f b)⟩
  haveI : IsTrans α (fun a b => f a ≤ f b) := ⟨fun a b c hab hbc => Nat.le_trans hab hbc⟩
  have hsorted := List.sorted_insertionSort (fun a b => f a ≤ f b) l
  rw [h] at hsorted
  intro q hq
  have hq' : q ∈ p :: rest := by
    rw [← h]
    exact (List.mem_insertionSort _).2 hq
  rcases List.mem_cons.1 hq' with rfl | hq''
  · exact le_refl _
  · exact List.rel_of_sorted_cons hsorted q hq''

/-! ## Game::programTurn: the choice of the move -/

theorem moveDirections_eq_spec (deltaX deltaY : Int) :
    Game.moveDirections deltaX deltaY = Game.specMoveDirections deltaX deltaY := by
  have hX : (if deltaX > 0 then [RIGHT] else if deltaX < 0 then [LEFT] else [])
      = (Game.specTowardFlag true deltaX).toList := by
    unfold Game.specTowardFlag
    rcases lt_trichotomy deltaX 0 with h | h | h
    · simp [h, not_lt.2 (le_of_lt h), ne_of_lt h]
    · simp [h]
    · simp [h, ne_of_gt h]
  have hY : (if deltaY > 0 then [DOWN] else if deltaY < 0 then [UP] else [])
      = (Game.specTowardFlag false deltaY).toList := by
    unfold Game.specTowardFlag
    rcases lt_trichotomy deltaY 0 with h | h | h
    · simp [h, not_lt.2 (le_of_lt h), ne_of_lt h]
    · simp [h]
    · simp [h, ne_of_gt h]
  unfold Game.moveDirections Game.specMoveDirections
  simp only
  rw [hX, hY]
  by_cases hle : deltaY.natAbs ≤ deltaX.natAbs
  · rw [if_pos hle, if_neg (not_lt.2 hle)]
  · rw [if_neg hle, if_pos (not_le.1 hle)]

/-- The moves `Game::programTurn` attempts for a unit: the directions of the list
are tried in order with the same distance, every attempt but the last one made
fails, and the loop ends at the first success or at the end of the list. -/
theorem tryMoves_trace (rng : Nat → ℚ) (self : Fin n) (m : Int) :
    ∀ (dirs : List Int) (t t' : Turn n) (b : Bool),
      Game.tryMoves rng self m dirs t = some (b, t') →
      ∃ fails : List MoveOutcome, (∀ o ∈ fails, o.isSuccess = false) ∧
        ((b = false ∧ fails.length = dirs.length ∧
            t'.calls = t.calls ++ List.zipWith (fun d o => Call.move self d m o) dirs fails ∧
            t.world.SameButMoved t'.world) ∨
         (b = true ∧ ∃ (d : Int) (o : MoveOutcome) (wmid : World n) (roll : ℚ),
            dirs[fails.length]? = some d ∧ o.isSuccess = true ∧
            t'.calls = t.calls ++ List.zipWith (fun d o => Call.move self d m o) dirs fails
              ++ [Call.move self d m o] ∧
            t.world.SameButMoved wmid ∧
            Player.move wmid self d m roll = some (o, t'.world))) := by
  intro dirs
  induction dirs with
  | nil =>
    intro t t' b h
    simp only [Game.tryMoves, Option.some.injEq, Prod.mk.injEq] at h
    obtain ⟨rfl, rfl⟩ := h
    exact ⟨[], by simp, Or.inl ⟨rfl, rfl, by simp, sameButMoved_refl _⟩⟩
  | cons dir rest ih =>
    intro t t' b h
    unfold Game.tryMoves at h
    cases hmv : t.move rng self dir m with
    | none => rw [hmv] at h; cases h
    | some p =>
      obtain ⟨out, t1⟩ := p
      rw [hmv] at h
      simp only at h
      have hstep := turn_move_step t t1 rng self dir m out hmv
      obtain ⟨roll, hruns⟩ := turn_move_runs t t1 rng self dir m out hmv
      by_cases hs : out.isSuccess = true
      · rw [if_pos hs] at h
        simp only [Option.some.injEq, Prod.mk.injEq] at h
        obtain ⟨rfl, rfl⟩ := h
        exact ⟨[], by simp, Or.inr ⟨rfl, dir, out, t.world, roll, by simp, hs, by
          simpa using hstep.1, sameButMoved_refl _, hruns⟩⟩
      · rw [if_neg hs] at h
        rw [Bool.not_eq_true] at hs
        rw [hs] at hstep
        have hsame := (hstep.2.1 rfl).2
        obtain ⟨fails, hfails, hcase⟩ := ih t1 t' b h
        refine ⟨out :: fails, ?_, ?_⟩
        · intro o ho
          rcases List.mem_cons.1 ho with rfl | ho'
          · exact hs
          · exact hfails o ho'
        · rcases hcase with ⟨hb, hlen, hcalls, hsame'⟩ | ⟨hb, d, o, wmid, roll', hd, ho, hcalls, hsame', hmove⟩
          · refine Or.inl ⟨hb, by simp [hlen], ?_, sameButMoved_trans _ _ _ hsame hsame'⟩
            rw [hcalls, hstep.1]
            simp
          · refine Or.inr ⟨hb, d, o, wmid, roll', by simpa using hd, ho, ?_,
              sameButMoved_trans _ _ _ hsame hsame', hmove⟩
            rw [hcalls, hstep.1]
            simp

/-! ## Game::programTurn: a fast unit next to the flag it aims at -/

/-- A path loop of two squares whose second square is off the board ends with the
out-of-bounds or the blocked-by-opponent rejection (or reads a missing cell). -/
theorem moveLoop_two_offboard (w : World n) (self : Fin n) (dx dy : Int)
    (hoff : outOfBounds w.board ((w.players self).x + dx * 2) ((w.players self).y + dy * 2)
      = true) :
    Player.moveLoop w self dx dy 2 2 1 = none ∨
    Player.moveLoop w self dx dy 2 2 1 = some (some MoveOutcome.outOfBounds) ∨
    Player.moveLoop w self dx dy 2 2 1 = some (some MoveOutcome.blockedByOpponent) := by
  unfold Player.moveLoop
  simp only
  split_ifs with h1
  · exact Or.inr (Or.inl rfl)
  · split
    · exact Or.inl rfl
    · split_ifs with h2 h3
      · exact Or.inr (Or.inr rfl)
      · exact absurd h3.1 (by decide)
      · unfold Player.moveLoop
        simp only
        have e : (1 : Int) + 1 = 2 := rfl
        rw [e, if_pos hoff]
        exact Or.inr (Or.inl rfl)

/-- The move the strategy plans for a fast unit next to a corner flag: the one
direction of the list points at the flag, the distance is 2, and the call is
rejected as out of bounds or as blocked by an opponent. -/
theorem adjacent_move_fails (w w1 : World n) (flag : Int × Int) (u : Fin n) (d s : Int)
    (out : MoveOutcome) (hnext : w.NextToCornerFlag flag u)
    (hplan : (Call.move u d s out).Planned flag w) (hruns : (Call.move u d s out).Runs w w1) :
    s = 2 ∧ directionDelta d = some (flag.1 - (w.players u).x, flag.2 - (w.players u).y) ∧
    (out = MoveOutcome.outOfBounds ∨ out = MoveOutcome.blockedByOpponent) := by
  obtain ⟨hcorner, hmax, hon, hdist⟩ := hnext
  obtain ⟨hd, hs⟩ := hplan
  obtain ⟨roll, hmove⟩ := hruns
  rw [hmax] at hs
  subst hs
  rw [outOfBounds_eq_false_iff] at hon
  obtain ⟨hx0, hy0, hyH, hxW⟩ := hon
  have hvec : directionDelta d = some (flag.1 - (w.players u).x, flag.2 - (w.players u).y) ∧
      outOfBounds w.board ((w.players u).x + (flag.1 - (w.players u).x) * 2)
        ((w.players u).y + (flag.2 - (w.players u).y) * 2) = true := by
    have hoob : ∀ x y : Int, (x < 0 ∨ y < 0 ∨ (w.board.length : Int) ≤ y ∨
        ((w.board.headD []).length : Int) ≤ x) → outOfBounds w.board x y = true := by
      intro x y hxy
      by_contra hc
      rw [Bool.not_eq_true, outOfBounds_eq_false_iff] at hc
      omega
    generalize hA : flag.1 - (w.players u).x = a at hd ⊢
    generalize hB : flag.2 - (w.players u).y = b at hd ⊢
    have hab : a.natAbs + b.natAbs = 1 := by
      have e1 : ((w.players u).x - flag.1).natAbs = a.natAbs := by
        rw [← hA, ← Int.natAbs_neg]; congr 1; ring
      have e2 : ((w.players u).y - flag.2).natAbs = b.natAbs := by
        rw [← hB, ← Int.natAbs_neg]; congr 1; ring
      rw [← e1, ← e2]
      exact hdist
    have hcases : (a = 1 ∧ b = 0) ∨ (a = -1 ∧ b = 0) ∨ (a = 0 ∧ b = 1) ∨ (a = 0 ∧ b = -1) := by
      omega
    rcases hcases with ⟨rfl, rfl⟩ | ⟨rfl, rfl⟩ | ⟨rfl, rfl⟩ | ⟨rfl, rfl⟩
    all_goals
      simp only [Game.moveDirections] at hd
      norm_num at hd
      subst hd
      refine ⟨rfl, hoob _ _ ?_⟩
      rcases hcorner with hf | hf
      all_goals
        rw [hf] at hA hB
        simp only at hA hB
        omega
  obtain ⟨hdelta, hoff⟩ := hvec
  refine ⟨rfl, hdelta, ?_⟩
  unfold Player.move at hmove
  simp only [autoSquares_of_ne _ _ _ (show (2 : Int) ≠ -1 by decide), setMoved_maxMovement,
    hmax, hdelta] at hmove
  rw [if_neg (by decide), show Int.toNat 2 = 2 from rfl] at hmove
  have hloop := moveLoop_two_offboard (w.setMoved u) u (flag.1 - (w.players u).x)
    (flag.2 - (w.players u).y) (by rw [setMoved_board, setMoved_x, setMoved_y]; exact hoff)
  rcases hloop with hl | hl | hl
  · rw [hl] at hmove; cases hmove
  · rw [hl] at hmove
    simp only [Option.some.injEq, Prod.mk.injEq] at hmove
    exact Or.inl hmove.1.symm
  · rw [hl] at hmove
    simp only [Option.some.injEq, Prod.mk.injEq] at hmove
    exact Or.inr hmove.1.symm

theorem nextToCornerFlag_of_same (w w' : World n) (flag : Int × Int) (u : Fin n)
    (h : w.SameButMoved w') (hn : w.NextToCornerFlag flag u) : w'.NextToCornerFlag flag u := by
  obtain ⟨hx, hy, -⟩ := sameButMoved_fields _ _ h u
  obtain ⟨hmm, -⟩ := sameButMoved_maxMovement _ _ h u
  unfold World.NextToCornerFlag
  rw [h.1, hx, hy, hmm]
  exact hn

/-- A failed resolver call changes at most `moved` flags. -/
theorem runs_failed_same (w w1 : World n) (c : Call n) (hruns : c.Runs w w1)
    (hf : c.success = false) : w.SameButMoved w1 := by
  cases c with
  | attack v d r out =>
    obtain ⟨rr, hr, hatt⟩ := hruns
    rw [attack_failed_world w w1 v d r rr hr out hatt hf]
    exact sameButMoved_setMoved _ _
  | move v d s out =>
    obtain ⟨roll, hmv⟩ := hruns
    rw [move_rejected_world w w1 v d s roll out hmv hf]
    exact sameButMoved_setMoved _ _

/-- A resolver call that is not a successful move of `u` leaves `u` where it is. -/
theorem runs_position (w w1 : World n) (c : Call n) (u : Fin n) (hruns : c.Runs w w1)
    (hf : c.unit = u → c.isMove = true → c.success = false) :
    (w1.players u).x = (w.players u).x ∧ (w1.players u).y = (w.players u).y := by
  cases c with
  | attack v d r out =>
    obtain ⟨rr, hr, hatt⟩ := hruns
    exact (attack_frame w w1 v d r rr hr out hatt).2.1 u
  | move v d s out =>
    obtain ⟨roll, hmv⟩ := hruns
    by_cases hv : u = v
    · subst hv
      have hfail := hf rfl rfl
      rw [move_rejected_world w w1 u d s roll out hmv hfail]
      exact ⟨setMoved_x w u u, setMoved_y w u u⟩
    · rw [move_other w w1 v u d s roll out hmv hv]
      exact ⟨rfl, rfl⟩

/-- Along the calls of a turn in which every call but the last fails, every move
attempted for a fast unit next to the corner flag is rejected, and the unit stays
where it is. -/
theorem plays_adjacent (flag : Int × Int) (u : Fin n) :
    ∀ (l : List (Call n)) (w w' : World n), w.NextToCornerFlag flag u →
      World.Plays flag w l w' → (∀ c ∈ l.dropLast, c.success = false) →
      (∀ c ∈ l, c.unit = u → c.isMove = true →
        c.success = false ∧ ∃ (d : Int) (out : MoveOutcome), c = Call.move u d 2 out ∧
          directionDelta d = some (flag.1 - (w.players u).x, flag.2 - (w.players u).y) ∧
          (out = MoveOutcome.outOfBounds ∨ out = MoveOutcome.blockedByOpponent)) ∧
      (w'.players u).x = (w.players u).x ∧ (w'.players u).y = (w.players u).y := by
  intro l
  induction l with
  | nil =>
    intro w w' _ hplays _
    simp only [World.Plays] at hplays
    subst hplays
    exact ⟨by simp, rfl, rfl⟩
  | cons c cs ih =>
    intro w w' hnext hplays hfails
    obtain ⟨hplan, w1, hruns, hrest⟩ := hplays
    have hc : c.unit = u → c.isMove = true →
        c.success = false ∧ ∃ (d : Int) (out : MoveOutcome), c = Call.move u d 2 out ∧
          directionDelta d = some (flag.1 - (w.players u).x, flag.2 - (w.players u).y) ∧
          (out = MoveOutcome.outOfBounds ∨ out = MoveOutcome.blockedByOpponent) := by
      intro hcu hcm
      cases c with
      | attack v d r out => cases hcm
      | move v d s out =>
        have hv : v = u := hcu
        subst hv
        obtain ⟨hs, hdelta, hout⟩ := adjacent_move_fails w w1 flag v d s out hnext hplan hruns
        subst hs
        refine ⟨?_, d, out, rfl, hdelta, hout⟩
        rcases hout with rfl | rfl <;> rfl
    have hpos1 := runs_position w w1 c u hruns (fun h1 h2 => (hc h1 h2).1)
    by_cases hcs : cs = []
    · subst hcs
      simp only [World.Plays] at hrest
      subst hrest
      refine ⟨?_, hpos1⟩
      intro c' hc'
      rw [List.mem_singleton] at hc'
      subst hc'
      exact hc
    · rw [List.dropLast_cons_of_ne_nil hcs] at hfails
      have hcf : c.success = false := hfails c (List.mem_cons_self _ _)
      have hsame := runs_failed_same w w1 c hruns hcf
      obtain ⟨hall, hx, hy⟩ := ih w1 w' (nextToCornerFlag_of_same w w1 flag u hsame hnext) hrest
        (fun c' hc' => hfails c' (List.mem_cons_of_mem _ hc'))
      refine ⟨?_, by rw [hx, hpos1.1], by rw [hy, hpos1.2]⟩
      intro c' hc'
      rcases List.mem_cons.1 hc' with rfl | hc''
      · exact hc
      · intro h1 h2
        have := hall c' hc'' h1 h2
        rw [hpos1.1, hpos1.2] at this
        exact this

/-! ## The turns of a game stay within the reachable worlds -/

/-- Hit resolution changes no unit's class members. -/
theorem resolveHit_static (w : World n) (self t : Fin n) (r : ℚ) (u : Fin n) :
    ((Player.resolveHit w self t r).2.players u).maxMovement = (w.players u).maxMovement ∧
    ((Player.resolveHit w self t r).2.players u).fast = (w.players u).fast ∧
    ((Player.resolveHit w self t r).2.players u).range = (w.players u).range ∧
    ((Player.resolveHit w self t r).2.players u).team = (w.players u).team := by
  unfold Player.resolveHit
  simp only
  split_ifs
  all_goals
    first
      | exact ⟨rfl, rfl, rfl, rfl⟩
      | (by_cases hs : u = self
         · subst hs
           by_cases hst : u = t
           · subst hst
             simp [Player.setEliminated]
           · simp [Function.update_noteq hst, Player.setEliminated]
         · by_cases hut : u = t
           · subst hut
             simp [Function.update_noteq hs, Player.setEliminated]
           · simp [Function.update_noteq hs, Function.update_noteq hut])

/-- `Player::attack` changes no unit's class members. -/
theorem attack_static (w w' : World n) (self : Fin n) (direction squares : Int)
    (rangeRoll hitRoll : ℚ) (out : AttackOutcome)
    (h : Player.attack w self direction squares rangeRoll hitRoll = some (out, w')) (u : Fin n) :
    (w'.players u).maxMovement = (w.players u).maxMovement ∧
    (w'.players u).fast = (w.players u).fast ∧
    (w'.players u).range = (w.players u).range ∧
    (w'.players u).team = (w.players u).team := by
  have hset : ((w.setMoved self).players u).maxMovement = (w.players u).maxMovement ∧
      ((w.setMoved self).players u).fast = (w.players u).fast ∧
      ((w.setMoved self).players u).range = (w.players u).range ∧
      ((w.setMoved self).players u).team = (w.players u).team := by
    obtain ⟨-, -, -, -, -, hrg, htm⟩ :=
      sameButMoved_fields _ _ (sameButMoved_setMoved w self) u
    exact ⟨setMoved_maxMovement w self u, setMoved_fast w self u, hrg, htm⟩
  rcases attack_result w w' self direction squares rangeRoll hitRoll out h with
    ⟨-, -, rfl⟩ | ⟨t, -, hres⟩
  · exact hset
  · have hst := resolveHit_static (w.setMoved self) self t hitRoll u
    rw [hres] at hst
    simp only at hst
    rw [hst.1, hst.2.1, hst.2.2.1, hst.2.2.2]
    exact hset

/-- `Player::move` changes no unit's class members. -/
theorem move_static (w w' : World n) (self : Fin n) (direction squares : Int) (roll : ℚ)
    (out : MoveOutcome) (h : Player.move w self direction squares roll = some (out, w'))
    (u : Fin n) :
    (w'.players u).maxMovement = (w.players u).maxMovement ∧
    (w'.players u).fast = (w.players u).fast ∧
    (w'.players u).range = (w.players u).range ∧
    (w'.players u).team = (w.players u).team := by
  by_cases hu : u = self
  · subst hu
    rcases move_self w w' u direction squares roll out h with
      ⟨-, hp⟩ | ⟨-, dx, dy, -, hp⟩ <;> rw [hp] <;> exact ⟨rfl, rfl, rfl, rfl⟩
  · rw [move_other w w' self u direction squares roll out h hu]
    exact ⟨rfl, rfl, rfl, rfl⟩

theorem reachable_trans (w0 w1 w2 : World n) (h01 : World.Reachable w0 w1)
    (h12 : World.Reachable w1 w2) : World.Reachable w0 w2 := by
  induction h12 with
  | start => exact h01
  | move w w' self direction squares roll out _ hsq hmv ih =>
    exact World.Reachable.move w w' self direction squares roll out ih hsq hmv
  | attack w w' self direction squares rangeRoll hitRoll out _ hatt ih =>
    exact World.Reachable.attack w w' self direction squares rangeRoll hitRoll out ih hatt
  | flags w w' _ hsame ih => exact World.Reachable.flags w w' ih hsame

/-- The calls of the opponent strategy lead to a reachable world, when every
unit has a movement capacity of at least 1, as the constructor assigns. -/
theorem plays_reachable (flag : Int × Int) :
    ∀ (l : List (Call n)) (w w' : World n), (∀ u : Fin n, 1 ≤ (w.players u).maxMovement) →
      World.Plays flag w l w' → World.Reachable w w' := by
  intro l
  induction l with
  | nil =>
    intro w w' _ hplays
    simp only [World.Plays] at hplays
    subst hplays
    exact World.Reachable.start
  | cons c cs ih =>
    intro w w' hcap hplays
    obtain ⟨hplan, w1, hruns, hrest⟩ := hplays
    cases c with
    | attack v d r out =>
      obtain ⟨rr, hr, hatt⟩ := hruns
      have h1 : World.Reachable w w1 :=
        World.Reachable.attack w w1 v d r rr hr out World.Reachable.start hatt
      have hcap1 : ∀ u : Fin n, 1 ≤ (w1.players u).maxMovement := fun u => by
        rw [(attack_static w w1 v d r rr hr out hatt u).1]; exact hcap u
      exact reachable_trans w w1 w' h1 (ih w1 w' hcap1 hrest)
    | move v d s out =>
      obtain ⟨roll, hmv⟩ := hruns
      have hs : 1 ≤ s := by rw [hplan.2]; exact hcap v
      have h1 : World.Reachable w w1 :=
        World.Reachable.move w w1 v d s roll out World.Reachable.start (Or.inl hs) hmv
      have hcap1 : ∀ u : Fin n, 1 ≤ (w1.players u).maxMovement := fun u => by
        rw [(move_static w w1 v d s roll out hmv u).1]; exact hcap u
      exact reachable_trans w w1 w' h1 (ih w1 w' hcap1 hrest)

theorem reachable_capacity (w0 w : World n) (h : World.Reachable w0 w)
    (hcap : ∀ u : Fin n, 1 ≤ (w0.players u).maxMovement) :
    ∀ u : Fin n, 1 ≤ (w.players u).maxMovement := by
  induction h with
  | start => exact hcap
  | move w1 w2 self direction squares roll out _ _ hmv ih =>
    intro u
    rw [(move_static w1 w2 self direction squares roll out hmv u).1]; exact ih u
  | attack w1 w2 self direction squares rangeRoll hitRoll out _ hatt ih =>
    intro u
    rw [(attack_static w1 w2 self direction squares rangeRoll hitRoll out hatt u).1]; exact ih u
  | flags w1 w2 _ hsame ih =>
    intro u
    rw [(sameButMoved_maxMovement _ _ hsame u).1]; exact ih u

/-- The world after `Game::programTurn` is reachable from the world before it. -/
theorem programTurn_reachable (g : Game n) (rng : Nat → ℚ) (r : TurnResult n)
    (hcap : ∀ u : Fin n, 1 ≤ (g.world.players u).maxMovement)
    (h : g.programTurn rng = some r) : World.Reachable g.world r.game.world :=
  plays_reachable _ r.calls g.world r.game.world hcap (programTurn_plays g rng r h)

/-- The world after `Game::userTurn` is reachable from the world before it. -/
theorem userTurn_reachable (rng : Nat → ℚ) :
    ∀ (keys rest : List (UserInput n)) (g : Game n) (r : TurnResult n),
      g.userTurn rng keys = some (r, rest) → World.Reachable g.world r.game.world := by
  intro keys
  induction keys with
  | nil =>
    intro rest g r h
    unfold Game.userTurn at h
    split_ifs at h <;> cases h <;> exact World.Reachable.start
  | cons input keys ih =>
    intro rest g r h
    unfold Game.userTurn at h
    by_cases hact : g.userActive = []
    · rw [if_pos hact] at h
      cases h
      exact World.Reachable.start
    · rw [if_neg hact] at h
      cases input with
      | escape =>
        simp only at h
        have hih := ih rest _ r h
        exact hih
      | act player action direction squares =>
        simp only at h
        by_cases hacc : g.accepts player direction squares = true
        · rw [if_pos hacc] at h
          have hsq : squares = 1 ∨ squares = 2 := by
            unfold Game.accepts at hacc
            simp only [Bool.and_eq_true, Bool.or_eq_true, decide_eq_true_eq] at hacc
            exact hacc.2
          by_cases hm : action = 'm'
          · rw [if_pos hm] at h
            cases hmv : Player.move g.world player direction
                (if (g.world.players player).maxMovement > 1 then squares else 1) (rng 0) with
            | none => rw [hmv] at h; cases h
            | some p =>
              obtain ⟨out, w⟩ := p
              rw [hmv] at h
              simp only [Option.some.injEq, Prod.mk.injEq] at h
              obtain ⟨rfl, -⟩ := h
              have hw : (g.markTeamMoved w player).world = w := by
                unfold Game.markTeamMoved
                split_ifs <;> rfl
              simp only [hw]
              refine World.Reachable.move g.world w player direction _ (rng 0) out
                World.Reachable.start (Or.inl ?_) hmv
              split_ifs <;> omega
          · rw [if_neg hm] at h
            by_cases ha : action = 'a'
            · rw [if_pos ha] at h
              cases hatt : Player.attack g.world player direction
                  (if (g.world.players player).expert = true then squares else 1)
                  (rng 0) (rng 0) with
              | none => rw [hatt] at h; cases h
              | some p =>
                obtain ⟨out, w⟩ := p
                rw [hatt] at h
                simp only [Option.some.injEq, Prod.mk.injEq] at h
                obtain ⟨rfl, -⟩ := h
                exact World.Reachable.attack g.world w player direction _ (rng 0) (rng 0) out
                  World.Reachable.start hatt
            · rw [if_neg ha] at h
              exact ih rest _ r h
        · rw [if_neg hacc] at h
          exact ih rest _ r h

theorem endsAfterTurn_world (g : Game n) : g.endsAfterTurn.2.world = g.world := by
  unfold Game.endsAfterTurn
  split_ifs
  · rfl
  · unfold Game.checkEndConditions
    split <;> rfl

/-- The world after an iteration of the loop of `Game::play` is reachable from
the world before it. -/
theorem playIteration_reachable (g g1 : Game n) (c team : Char) (input : PlayInput n) (b : Bool)
    (hcap : ∀ u : Fin n, 1 ≤ (g.world.players u).maxMovement)
    (h : g.playIteration c input = some (b, g1, team)) : World.Reachable g.world g1.world := by
  have hreset : World.Reachable g.world g.resetPlayersMovedFlag.world := by
    refine World.Reachable.flags g.world _ World.Reachable.start ⟨rfl, fun u => ?_⟩
    simp only [Game.resetPlayersMovedFlag]
    split_ifs <;> rfl
  have hcap1 : ∀ u : Fin n, 1 ≤ (g.resetPlayersMovedFlag.world.players u).maxMovement :=
    reachable_capacity _ _ hreset hcap
  unfold Game.playIteration at h
  simp only at h
  by_cases hc : c = g.resetPlayersMovedFlag.userTeam
  · rw [if_pos hc] at h
    cases hu : g.resetPlayersMovedFlag.userTurn input.rng input.keys with
    | none => rw [hu] at h; cases h
    | some p =>
      obtain ⟨r, rest⟩ := p
      rw [hu] at h
      simp only at h
      have hturn := userTurn_reachable input.rng _ _ _ _ hu
      have hall := reachable_trans _ _ _ hreset hturn
      by_cases hvalid : r.actionTaken = true
      · rw [if_pos hvalid] at h
        by_cases hend : r.game.endsAfterTurn.1 = true
        · rw [if_pos hend] at h
          cases h
          rw [endsAfterTurn_world]
          exact hall
        · rw [if_neg hend] at h
          cases h
          exact hall
      · rw [if_neg hvalid] at h
        cases h
  · rw [if_neg hc] at h
    cases hp : g.resetPlayersMovedFlag.programTurn input.rng with
    | none => rw [hp] at h; cases h
    | some r =>
      rw [hp] at h
      simp only at h
      have hturn := programTurn_reachable _ _ _ hcap1 hp
      have hall := reachable_trans _ _ _ hreset hturn
      by_cases hend : r.game.endsAfterTurn.1 = true
      · rw [if_pos hend] at h
        cases h
        rw [endsAfterTurn_world]
        exact hall
      · rw [if_neg hend] at h
        cases h
        exact hall

/-- Every world the loop of `Game::play` gets to is reachable from the world it
starts in, when every unit has a movement capacity of at least 1. -/
theorem playLoop_reachable :
    ∀ (inputs : List (PlayInput n)) (g g' : Game n) (c c' : Char),
      (∀ u : Fin n, 1 ≤ (g.world.players u).maxMovement) →
      Game.playLoop inputs g c = some (g', c') → World.Reachable g.world g'.world := by
  intro inputs
  induction inputs with
  | nil =>
    intro g g' c c' _ h
    simp only [Game.playLoop, Option.some.injEq, Prod.mk.injEq] at h
    rw [← h.1]
    exact World.Reachable.start
  | cons input rest ih =>
    intro g g' c c' hcap h
    unfold Game.playLoop at h
    by_cases hg : g.gameEnded = true
    · rw [if_pos hg] at h
      simp only [Option.some.injEq, Prod.mk.injEq] at h
      rw [← h.1]
      exact World.Reachable.start
    · rw [if_neg hg] at h
      cases hit : g.playIteration c input with
      | none => rw [hit] at h; cases h
      | some p =>
        obtain ⟨b, g1, team⟩ := p
        rw [hit] at h
        have hstep := playIteration_reachable g g1 c team input b hcap hit
        cases b with
        | true =>
          simp only at h
          exact reachable_trans _ _ _ hstep
            (ih _ _ _ _ (reachable_capacity _ _ hstep hcap) h)
        | false =>
          simp only [Option.some.injEq, Prod.mk.injEq] at h
          rw [← h.1]
          exact hstep

/-! ## The two invariants along a game -/

/-- C24: the extremity-hit invariant.  The predicate "every unit has between 0
and 3 extremity hits, and a unit with 3 is eliminated" holds in every world whose
units are as the constructor `Player::Player` leaves them (placed anywhere), is
preserved by every call of `Player::move` and of `Player::attack` that returns,
for any unit, direction, distance or range and rolls, and therefore holds in
every world reachable from one in which it holds; in particular in every world
the loop of `Game::play` gets to, for units with a movement capacity of at least
1. -/
theorem hits_invariant_preserved :
    (∀ w : World n,
      (∀ u : Fin n, ∃ (id : Int) (team : Char) (fast expert : Bool) (sx sy x y : Int),
        w.players u = (Player.new id team fast expert sx sy).setPosition x y) →
      w.HitsInvariant) ∧
    (∀ (w w' : World n) (self : Fin n) (direction squares : Int) (roll : ℚ) (out : MoveOutcome),
      w.HitsInvariant → Player.move w self direction squares roll = some (out, w') →
      w'.HitsInvariant) ∧
    (∀ (w w' : World n) (self : Fin n) (direction squares : Int) (rangeRoll hitRoll : ℚ)
      (out : AttackOutcome),
      w.HitsInvariant → Player.attack w self direction squares rangeRoll hitRoll = some (out, w') →
      w'.HitsInvariant) ∧
    (∀ w0 w : World n, w0.HitsInvariant → World.Reachable w0 w → w.HitsInvariant) ∧
    (∀ (inputs : List (PlayInput n)) (g g' : Game n) (c c' : Char),
      (∀ u : Fin n, 1 ≤ (g.world.players u).maxMovement) → g.world.HitsInvariant →
      Game.playLoop inputs g c = some (g', c') → g'.world.HitsInvariant) := by
  have hmove : ∀ (w w' : World n) (self : Fin n) (direction squares : Int) (roll : ℚ)
      (out : MoveOutcome), w.HitsInvariant →
      Player.move w self direction squares roll = some (out, w') → w'.HitsInvariant :=
    fun w w' self direction squares roll out hinv h =>
      hitsInvariant_of_same w w' (move_keeps_hits w w' self direction squares roll out h) hinv
  have hreach : ∀ w0 w : World n, w0.HitsInvariant → World.Reachable w0 w →
      w.HitsInvariant := by
    intro w0 w hinv hreach
    induction hreach with
    | start => exact hinv
    | move w1 w2 self direction squares roll out _ _ hmv ih =>
      exact hmove w1 w2 self direction squares roll out ih hmv
    | attack w1 w2 self direction squares rangeRoll hitRoll out _ hatt ih =>
      exact attack_hitsInvariant w1 w2 self direction squares rangeRoll hitRoll out hatt ih
    | flags w1 w2 _ hsame ih =>
      refine hitsInvariant_of_same w1 w2 (fun u => ?_) ih
      obtain ⟨-, -, he, -, hh, -, -⟩ := sameButMoved_fields _ _ hsame u
      exact ⟨hh, he⟩
  refine ⟨?_, hmove, ?_, hreach, ?_⟩
  · intro w hfresh u
    obtain ⟨id, team, fast, expert, sx, sy, x, y, hu⟩ := hfresh u
    rw [hu]
    simp [Player.new, Player.setPosition]
  · intro w w' self direction squares rangeRoll hitRoll out hinv h
    exact attack_hitsInvariant w w' self direction squares rangeRoll hitRoll out h hinv
  · intro inputs g g' c c' hcap hinv h
    exact hreach g.world g'.world hinv (playLoop_reachable inputs g g' c c' hcap h)

/-- Instance of C24: `skirmish` satisfies the invariant with player 1 at two
extremity hits; after the extremity hit of player 0's shot player 1 has three
hits and the invariant holds again (player 1 is eliminated). -/
theorem hits_invariant_preserved_witness :
    skirmish.HitsInvariant ∧ (skirmish.players 1).hitsToExtremities = 2 ∧
    (skirmishThirdHit.players 1).hitsToExtremities = 3 ∧ skirmishThirdHit.HitsInvariant :=
  ⟨by decide, rfl, by with_unfolding_all rfl,
   (@hits_invariant_preserved 3).2.2.1 skirmish skirmishThirdHit 0 RIGHT 2 0 (7 / 10)
     (AttackOutcome.extremity 0 1 3) (by decide) (by with_unfolding_all rfl)⟩

/-- C25: the cell-capacity invariant.  If every cell of the board lists at most 4
units before a call of `Player::move` with a requested distance of at least 1,
then every cell lists at most 4 units after the call, whether the move was
carried out or rejected; hence no world reachable from a world with at most 4
units per cell has a cell listing 5 or more units, in particular no world the
loop of `Game::play` gets to, for units with a movement capacity of at least 1. -/
theorem cell_capacity_invariant :
    (∀ (w w' : World n) (self : Fin n) (direction squares : Int) (roll : ℚ) (out : MoveOutcome),
      w.CellsWithinCap → 1 ≤ squares →
      Player.move w self direction squares roll = some (out, w') → w'.CellsWithinCap) ∧
    (∀ w0 w : World n, w0.CellsWithinCap → World.Reachable w0 w →
      w.CellsWithinCap ∧
      ¬ ∃ (x y : Int) (c : Cell n), cellAt w.board x y = some c ∧ 5 ≤ c.players.length) ∧
    (∀ (inputs : List (PlayInput n)) (g g' : Game n) (c c' : Char),
      (∀ u : Fin n, 1 ≤ (g.world.players u).maxMovement) → g.world.CellsWithinCap →
      Game.playLoop inputs g c = some (g', c') →
      ¬ ∃ (x y : Int) (cell : Cell n),
        cellAt g'.world.board x y = some cell ∧ 5 ≤ cell.players.length) := by
  have hreach : ∀ w0 w : World n, w0.CellsWithinCap → World.Reachable w0 w →
      w.CellsWithinCap := by
    intro w0 w hcap hr
    induction hr with
    | start => exact hcap
    | move w1 w2 self direction squares roll out _ hsq hmv ih =>
      exact move_cellsWithinCap w1 w2 self direction squares roll out hsq ih hmv
    | attack w1 w2 self direction squares rangeRoll hitRoll out _ hatt ih =>
      intro x y c hc
      rw [(attack_frame w1 w2 self direction squares rangeRoll hitRoll out hatt).1] at hc
      exact ih x y c hc
    | flags w1 w2 _ hsame ih =>
      intro x y c hc
      rw [hsame.1] at hc
      exact ih x y c hc
  refine ⟨?_, ?_, ?_⟩
  · intro w w' self direction squares roll out hcap hsq h
    exact move_cellsWithinCap w w' self direction squares roll out (Or.inl hsq) hcap h
  · intro w0 w hcap hr
    refine ⟨hreach w0 w hcap hr, ?_⟩
    rintro ⟨x, y, c, hc, hlen⟩
    have := hreach w0 w hcap hr x y c hc
    omega
  · rintro inputs g g' c c' hmax hcap h ⟨x, y, cell, hc, hlen⟩
    have := hreach g.world g'.world hcap (playLoop_reachable inputs g g' c c' hmax h) x y cell hc
    omega

/-- Instance of C25: in `stack` the cell `(1,0)` lists 4 units and every cell
lists at most 4; player 0's request to move one square onto it is rejected and
every cell still lists at most 4. -/
theorem cell_capacity_invariant_witness :
    stack.CellsWithinCap ∧ cellAt stack.board 1 0 = some ⟨[1, 2, 3, 4]⟩ ∧
    Player.move stack 0 RIGHT 1 0 = some (MoveOutcome.destinationFull, stack.setMoved 0) ∧
    (stack.setMoved 0).CellsWithinCap :=
  ⟨cellsWithinCap_of_rows stack (by decide), rfl, rfl,
   (@cell_capacity_invariant 5).1 stack (stack.setMoved 0) 0 RIGHT 1 0
     MoveOutcome.destinationFull (cellsWithinCap_of_rows stack (by decide)) (by decide) rfl⟩

/-! ## The turns return on the worlds of a game in progress -/

/-- Writing a cell that exists keeps the dimensions of the board and its
rectangular shape. -/
theorem setCell_dims (b : List (List (Cell n))) (x y : Int) (c c0 : Cell n)
    (h : cellAt b x y = some c0) :
    (setCell b x y c).length = b.length ∧
    ((setCell b x y c).headD []).length = (b.headD []).length ∧
    (RectBoard b → RectBoard (setCell b x y c)) := by
  obtain ⟨hx, hy, row, hr, hc⟩ := (cellAt_eq_some_iff b x y c0).1 h
  have hset : setCell b x y c = b.set y.toNat (row.set x.toNat c) := by
    simp [setCell, hr]
  have hhead : ((b.set y.toNat (row.set x.toNat c)).headD []).length = (b.headD []).length := by
    cases b with
    | nil => simp at hr
    | cons r rs =>
      cases hn : y.toNat with
      | zero =>
        rw [hn] at hr
        simp only [List.getElem?_cons_zero, Option.some.injEq] at hr
        subst hr
        simp
      | succ k => simp
  rw [hset]
  refine ⟨List.length_set _ _ _, hhead, ?_⟩
  intro hrect row' hrow'
  rw [hhead]
  obtain ⟨hyl, hrow⟩ := List.getElem?_eq_some.1 hr
  rcases List.mem_or_eq_of_mem_set hrow' with hmem | rfl
  · exact hrect row' hmem
  · rw [List.length_set]
    exact hrect row (hrow ▸ List.getElem_mem hyl)

theorem outOfBounds_congr (b b' : List (List (Cell n))) (x y : Int)
    (hlen : b'.length = b.length) (hhead : (b'.headD []).length = (b.headD []).length) :
    outOfBounds b' x y = outOfBounds b x y := by
  unfold outOfBounds
  rw [hlen, hhead]

theorem attack_wellPlaced (w w' : World n) (self : Fin n) (direction squares : Int)
    (rangeRoll hitRoll : ℚ) (out : AttackOutcome) (hw : w.WellPlaced)
    (h : Player.attack w self direction squares rangeRoll hitRoll = some (out, w')) :
    w'.WellPlaced := by
  obtain ⟨hb, hpos, -⟩ := attack_frame w w' self direction squares rangeRoll hitRoll out h
  refine ⟨by rw [hb]; exact hw.1, fun u => ?_⟩
  rw [hb, (hpos u).1, (hpos u).2,
    (attack_static w w' self direction squares rangeRoll hitRoll out h u).1]
  exact hw.2 u

theorem move_wellPlaced (w w' : World n) (self : Fin n) (direction squares : Int) (roll : ℚ)
    (out : MoveOutcome) (hw : w.WellPlaced)
    (h : Player.move w self direction squares roll = some (out, w')) : w'.WellPlaced := by
  have hstat := move_static w w' self direction squares roll out h
  rcases move_result w w' self direction squares roll out h with
    ⟨-, rfl⟩ | ⟨dx, dy, -, -, -, hrel⟩
  · refine ⟨hw.1, fun u => ?_⟩
    rw [setMoved_board, setMoved_x, setMoved_y, setMoved_maxMovement]
    exact hw.2 u
  · obtain ⟨c0, c1, h0, h1, -, hp, hb⟩ := relocate_spec _ _ _ _ _ _ _ hrel
    rw [setMoved_board] at h0 h1 hb
    obtain ⟨hl1, hh1, hr1⟩ := setCell_dims w.board _ _ (c0.removePlayer self) c0 h0
    obtain ⟨hl2, hh2, hr2⟩ := setCell_dims _ _ _ (c1.addPlayer w'.players self) c1 h1
    have hrect1 := hr1 hw.1
    have hdims : ∀ x y : Int, outOfBounds w'.board x y = outOfBounds w.board x y := by
      intro x y
      rw [hb]
      exact outOfBounds_congr _ _ x y (by rw [hl2, hl1]) (by rw [hh2, hh1])
    refine ⟨by rw [hb]; exact hr2 hrect1, fun u => ?_⟩
    rw [hdims, (hstat u).1]
    refine ⟨?_, (hw.2 u).2⟩
    by_cases hu : u = self
    · subst hu
      have hin := inBounds_of_cellAt _ hrect1 _ _ c1 h1
      rw [outOfBounds_congr _ _ _ _ hl1 hh1] at hin
      rw [hp, Function.update_same]
      exact hin
    · rw [move_other w w' self u direction squares roll out h hu]
      exact (hw.2 u).1

theorem turn_attack_returns (t : Turn n) (rng : Nat → ℚ) (self : Fin n) (dir range : Int)
    (hw : t.world.WellPlaced) :
    ∃ out t1, t.attack rng self dir range = some (out, t1) ∧ t1.world.WellPlaced := by
  unfold Turn.attack
  simp only
  generalize hro : (if (directionDelta dir).isSome = true ∧ range = -1
    ∧ (t.world.players self).expert = true then 1 else 0) = rd
  have hsome := attack_returns t.world self dir range (rng t.drawn) (rng (t.drawn + rd))
    hw.1 (hw.2 self).1
  cases hatt : Player.attack t.world self dir range (rng t.drawn) (rng (t.drawn + rd)) with
  | none => rw [hatt] at hsome; cases hsome
  | some p =>
    obtain ⟨out, w⟩ := p
    exact ⟨out, _, rfl, attack_wellPlaced _ _ _ _ _ _ _ _ hw hatt⟩

theorem turn_move_returns (t : Turn n) (rng : Nat → ℚ) (self : Fin n) (dir squares : Int)
    (hw : t.world.WellPlaced) (hsq : 0 ≤ squares) :
    ∃ out t1, t.move rng self dir squares = some (out, t1) ∧ t1.world.WellPlaced := by
  unfold Turn.move
  have hsome := move_returns t.world self dir squares (rng t.drawn) hw.1 (hw.2 self).1
    (Or.inl hsq)
  cases hmv : Player.move t.world self dir squares (rng t.drawn) with
  | none => rw [hmv] at hsome; cases hsome
  | some p =>
    obtain ⟨out, w⟩ := p
    exact ⟨out, _, rfl, move_wellPlaced _ _ _ _ _ _ _ hw hmv⟩

theorem scanRanges_returns (rng : Nat → ℚ) (self : Fin n) (dir : Int) :
    ∀ (fuel : Nat) (range : Int) (t : Turn n), t.world.WellPlaced →
      ∃ b t', Game.scanRanges rng self dir fuel range t = some (b, t') ∧ t'.world.WellPlaced := by
  intro fuel
  induction fuel with
  | zero => intro range t hw; exact ⟨false, t, rfl, hw⟩
  | succ k ih =>
    intro range t hw
    obtain ⟨out, t1, hatt, hw1⟩ := turn_attack_returns t rng self dir range hw
    unfold Game.scanRanges
    rw [hatt]
    simp only
    by_cases hs : out.success = true
    · rw [if_pos hs]
      exact ⟨true, t1, rfl, hw1⟩
    · rw [if_neg hs]
      exact ih _ t1 hw1

theorem scanDirections_returns (rng : Nat → ℚ) (self : Fin n) :
    ∀ (dirs : List Int) (t : Turn n), t.world.WellPlaced →
      ∃ b t', Game.scanDirections rng self dirs t = some (b, t') ∧ t'.world.WellPlaced := by
  intro dirs
  induction dirs with
  | nil => intro t hw; exact ⟨false, t, rfl, hw⟩
  | cons dir rest ih =>
    intro t hw
    obtain ⟨b1, t1, hscan, hw1⟩ := scanRanges_returns rng self dir
      (t.world.players self).range.toNat 1 t hw
    unfold Game.scanDirections
    rw [hscan]
    cases b1 with
    | true => exact ⟨true, t1, rfl, hw1⟩
    | false => exact ih t1 hw1

theorem tryMoves_returns (rng : Nat → ℚ) (self : Fin n) (maxSteps : Int) (hsteps : 0 ≤ maxSteps) :
    ∀ (dirs : List Int) (t : Turn n), t.world.WellPlaced →
      ∃ b t', Game.tryMoves rng self maxSteps dirs t = some (b, t') ∧ t'.world.WellPlaced := by
  intro dirs
  induction dirs with
  | nil => intro t hw; exact ⟨false, t, rfl, hw⟩
  | cons dir rest ih =>
    intro t hw
    obtain ⟨out, t1, hmv, hw1⟩ := turn_move_returns t rng self dir maxSteps hw hsteps
    unfold Game.tryMoves
    rw [hmv]
    simp only
    by_cases hs : out.isSuccess = true
    · rw [if_pos hs]
      exact ⟨true, t1, rfl, hw1⟩
    · rw [if_neg hs]
      exact ih t1 hw1

/-- On the worlds of a game in progress the loop body of `Game::programTurn`
returns, and leaves such a world. -/
theorem programUnit_returns (rng : Nat → ℚ) (flag : Int × Int) (self : Fin n) (t : Turn n)
    (hw : t.world.WellPlaced) :
    ∃ b t', Game.programUnit rng flag self t = some (b, t') ∧ t'.world.WellPlaced := by
  obtain ⟨b1, t1, hscan, hw1⟩ := scanDirections_returns rng self [UP, DOWN, LEFT, RIGHT] t hw
  unfold Game.programUnit
  simp only
  rw [hscan]
  cases b1 with
  | true => exact ⟨true, t1, rfl, hw1⟩
  | false =>
    simp only
    obtain ⟨b2, t2, hmv, hw2⟩ := tryMoves_returns rng self (t1.world.players self).maxMovement
      (le_trans (by decide) (hw1.2 self).2)
      (Game.moveDirections (flag.1 - (t.world.players self).x)
        (flag.2 - (t.world.players self).y)) t1 hw1
    rw [hmv]
    cases b2 with
    | true => exact ⟨true, t2, rfl, hw2⟩
    | false => exact scanDirections_returns rng self [UP, DOWN, LEFT, RIGHT] t2 hw2

theorem programLoop_returns (rng : Nat → ℚ) (flag : Int × Int) :
    ∀ (l : List (Fin n)) (t : Turn n), t.world.WellPlaced →
      ∃ b t', Game.programLoop rng flag l t = some (b, t') ∧ t'.world.WellPlaced := by
  intro l
  induction l with
  | nil => intro t hw; exact ⟨false, t, rfl, hw⟩
  | cons player rest ih =>
    intro t hw
    unfold Game.programLoop
    by_cases hel : (t.world.players player).eliminated = true
    · rw [if_pos hel]
      exact ih t hw
    · rw [if_neg hel]
      obtain ⟨b1, t1, hunit, hw1⟩ := programUnit_returns rng flag player t hw
      rw [hunit]
      cases b1 with
      | true => exact ⟨true, t1, rfl, hw1⟩
      | false => exact ih t1 hw1

/-- On the worlds of a game in progress `Game::programTurn` returns, and leaves
such a world. -/
theorem programTurn_returns (g : Game n) (rng : Nat → ℚ) (hw : g.world.WellPlaced) :
    ∃ r : TurnResult n, g.programTurn rng = some r ∧ r.game.world.WellPlaced := by
  unfold Game.programTurn
  by_cases hempty : g.programTeam.filter (fun p => !(g.world.players p).eliminated) = []
  · rw [if_pos hempty]
    exact ⟨_, rfl, hw⟩
  · rw [if_neg hempty]
    simp only
    obtain ⟨b, t, hloop, hwt⟩ := programLoop_returns rng
      (if g.programTeam = g.redTeam then g.blueFlag else g.redFlag) g.candidates
      { world := g.world, drawn := 0, calls := [] } hw
    rw [hloop]
    exact ⟨_, rfl, hwt⟩

/-! ## The opponent strategy on the worlds of a game in progress -/

/-- C22: candidate order of `Game::programTurn`.  In a game whose rosters differ
and whose controlled units have the range the constructor assigns: when some
controlled unit is not eliminated, a turn that returns has made at least one
resolver call, and the unit of the first call is a non-eliminated controlled
unit whose Manhattan distance to the enemy flag is least among the
non-eliminated controlled units; when every controlled unit is eliminated the
turn returns the game unchanged without any resolver call.  On a rectangular
board with every unit on the board the turn does return. -/
theorem programTurn_candidate_order (g : Game n) (rng : Nat → ℚ)
    (hteams : g.redTeam ≠ g.blueTeam)
    (hprof : ∀ p ∈ g.programTeam, (g.world.players p).ClassProfile) :
    ((∃ p ∈ g.programTeam, (g.world.players p).eliminated = false) →
      ∀ r : TurnResult n, g.programTurn rng = some r →
      ∃ c rest, r.calls = c :: rest ∧ c.unit ∈ g.programTeam ∧
        (g.world.players c.unit).eliminated = false ∧
        ∀ q ∈ g.programTeam, (g.world.players q).eliminated = false →
          ((g.world.players c.unit).x - g.enemyFlag.1).natAbs
              + ((g.world.players c.unit).y - g.enemyFlag.2).natAbs
            ≤ ((g.world.players q).x - g.enemyFlag.1).natAbs
              + ((g.world.players q).y - g.enemyFlag.2).natAbs) ∧
    ((∀ p ∈ g.programTeam, (g.world.players p).eliminated = true) →
      g.programTurn rng = some { game := g, actionTaken := false, calls := [] }) ∧
    (g.world.WellPlaced → ∃ r : TurnResult n, g.programTurn rng = some r) := by
  have hflag := targetFlag_eq_enemyFlag g hteams
  refine ⟨?_, ?_, fun hw => ?_⟩
  · rintro ⟨p0, hp0, hlive0⟩ r h
    have hne : g.programTeam.filter (fun p => !(g.world.players p).eliminated) ≠ [] := by
      intro hempty
      have hmem : p0 ∈ g.programTeam.filter (fun p => !(g.world.players p).eliminated) :=
        List.mem_filter.2 ⟨hp0, by simp [hlive0]⟩
      rw [hempty] at hmem
      cases hmem
    unfold Game.programTurn at h
    rw [if_neg hne] at h
    simp only at h
    have hcne : g.candidates ≠ [] := by
      intro hc
      have hmem := (mem_candidates g p0).2 ⟨hp0, hlive0⟩
      rw [hc] at hmem
      cases hmem
    obtain ⟨p, rest, hcand⟩ := List.exists_cons_of_ne_nil hcne
    obtain ⟨hpteam, hplive⟩ := (mem_candidates g p).1 (by rw [hcand]; exact List.mem_cons_self _ _)
    cases hloop : Game.programLoop rng
        (if g.programTeam = g.redTeam then g.blueFlag else g.redFlag) g.candidates
        { world := g.world, drawn := 0, calls := [] } with
    | none => rw [hloop] at h; cases h
    | some res =>
      obtain ⟨b, t⟩ := res
      rw [hloop] at h
      simp only [Option.some.injEq] at h
      subst h
      rw [hcand] at hloop
      have hrange : 1 ≤ (g.world.players p).range := by
        rw [(hprof p hpteam).2.1]
        split_ifs <;> decide
      obtain ⟨c, cs, hcalls, hcu⟩ := programLoop_first rng _ p rest _ _ _ hloop hplive hrange
      simp only [List.nil_append] at hcalls
      refine ⟨c, cs, hcalls, by rw [hcu]; exact hpteam, by rw [hcu]; exact hplive, ?_⟩
      intro q hq hqlive
      rw [hcu]
      have hsort := insertionSort_head_le
        (fun a => g.flagDistance (if g.programTeam = g.redTeam then g.blueFlag else g.redFlag) a)
        (g.programTeam.filter (fun p => !(g.world.players p).eliminated)) p rest hcand
        q (List.mem_filter.2 ⟨hq, by simp [hqlive]⟩)
      rw [hflag] at hsort
      exact hsort
  · intro hall
    have hempty : g.programTeam.filter (fun p => !(g.world.players p).eliminated) = [] := by
      rw [List.filter_eq_nil_iff]
      intro p hp
      simp [hall p hp]
    unfold Game.programTurn
    rw [if_pos hempty]
  · obtain ⟨r, h, -⟩ := programTurn_returns g rng hw
    exact ⟨r, h⟩

/-- Instance of C22: in `pinned`, a rectangular board with every unit on it, the
program plays Blue's units 1, at distance 1 from Red's flag, and 2, at distance
2; with every shot missing, the first resolver call of the turn is made for
unit 1. -/
theorem programTurn_candidate_order_witness :
    pinned.world.WellPlaced ∧ (pinnedTurn.calls.head?).map Call.unit = some 1 ∧
    ∃ c rest, pinnedTurn.calls = c :: rest ∧ c.unit ∈ pinned.programTeam ∧
      (pinned.world.players c.unit).eliminated = false ∧
      ∀ q ∈ pinned.programTeam, (pinned.world.players q).eliminated = false →
        ((pinned.world.players c.unit).x - pinned.enemyFlag.1).natAbs
            + ((pinned.world.players c.unit).y - pinned.enemyFlag.2).natAbs
          ≤ ((pinned.world.players q).x - pinned.enemyFlag.1).natAbs
            + ((pinned.world.players q).y - pinned.enemyFlag.2).natAbs :=
  ⟨by decide, by with_unfolding_all rfl,
   (programTurn_candidate_order pinned alwaysMiss (by decide)
     (fun p _ => by fin_cases p <;> exact ⟨rfl, rfl, rfl, rfl, rfl⟩)).1
     ⟨1, by decide, rfl⟩ pinnedTurn (eq_some_getD _ _ (by with_unfolding_all rfl))⟩

/-- C23: the move choice of `Game::programTurn`.  For a unit with the movement
capacity of its speed class (2 for fast, 1 for slow) whose first attack scan
finds no successful attack: the move attempts of the loop body are made for the
directions of the list described by the specification (toward the flag along the
axis with the greater absolute delta, the horizontal one on a tie, then along the
other axis, an axis with delta 0 skipped), in this order, each requesting the
full capacity.  Either every direction of the list is tried and fails, the
unit's position is unchanged and the body goes on with the second attack scan;
or the attempts stop at the first successful one, which is the last call of the
body, and the unit then stands exactly the capacity many squares further in that
direction.  On a rectangular board with every unit on the board the loop body
does return. -/
theorem programUnit_move_choice (rng : Nat → ℚ) (flag : Int × Int) (self : Fin n)
    (t : Turn n)
    (hcap : (t.world.players self).maxMovement = if (t.world.players self).fast then 2 else 1) :
    (t.world.WellPlaced → ∃ (b : Bool) (t' : Turn n),
      Game.programUnit rng flag self t = some (b, t')) ∧
    ∀ (t1 t' : Turn n) (b : Bool),
    Game.scanDirections rng self [UP, DOWN, LEFT, RIGHT] t = some (false, t1) →
    Game.programUnit rng flag self t = some (b, t') →
    ∃ fails : List MoveOutcome, (∀ o ∈ fails, o.isSuccess = false) ∧
      ((fails.length = (Game.specMoveDirections (flag.1 - (t.world.players self).x)
            (flag.2 - (t.world.players self).y)).length ∧
          ∃ t2 : Turn n,
            t2.calls = t1.calls ++ List.zipWith
              (fun d o => Call.move self d (if (t.world.players self).fast then 2 else 1) o)
              (Game.specMoveDirections (flag.1 - (t.world.players self).x)
                (flag.2 - (t.world.players self).y)) fails ∧
            (t2.world.players self).x = (t.world.players self).x ∧
            (t2.world.players self).y = (t.world.players self).y ∧
            Game.scanDirections rng self [UP, DOWN, LEFT, RIGHT] t2 = some (b, t')) ∨
       (b = true ∧ ∃ (d dx dy : Int) (o : MoveOutcome),
          (Game.specMoveDirections (flag.1 - (t.world.players self).x)
            (flag.2 - (t.world.players self).y))[fails.length]? = some d ∧
          directionDelta d = some (dx, dy) ∧ o.isSuccess = true ∧
          t'.calls = t1.calls ++ List.zipWith
              (fun d o => Call.move self d (if (t.world.players self).fast then 2 else 1) o)
              (Game.specMoveDirections (flag.1 - (t.world.players self).x)
                (flag.2 - (t.world.players self).y)) fails
            ++ [Call.move self d (if (t.world.players self).fast then 2 else 1) o] ∧
          (t'.world.players self).x = (t.world.players self).x
            + dx * (if (t.world.players self).fast then 2 else 1) ∧
          (t'.world.players self).y = (t.world.players self).y
            + dy * (if (t.world.players self).fast then 2 else 1))) := by
  refine ⟨fun hw => ?_, ?_⟩
  · obtain ⟨b, t', h, -⟩ := programUnit_returns rng flag self t hw
    exact ⟨b, t', h⟩
  intro t1 t' b hscan h
  obtain ⟨new1, hstep1, -, -⟩ := scanDirections_step rng self _ _ _ _ hscan
  have hsame1 := (hstep1.2.1 rfl).2
  obtain ⟨hx1, hy1, -⟩ := sameButMoved_fields _ _ hsame1 self
  obtain ⟨hmm1, -⟩ := sameButMoved_maxMovement _ _ hsame1 self
  unfold Game.programUnit at h
  simp only at h
  rw [hscan] at h
  simp only at h
  rw [hmm1, hcap, moveDirections_eq_spec] at h
  have hm : (if (t.world.players self).fast = true then (2 : Int) else 1) ≠ -1 := by
    split_ifs <;> decide
  generalize (if (t.world.players self).fast = true then (2 : Int) else 1) = m at h hm ⊢
  cases hmv : Game.tryMoves rng self m
      (Game.specMoveDirections (flag.1 - (t.world.players self).x)
        (flag.2 - (t.world.players self).y)) t1 with
  | none => rw [hmv] at h; cases h
  | some p2 =>
    obtain ⟨b2, t2⟩ := p2
    rw [hmv] at h
    obtain ⟨fails, hfails, hcase⟩ := tryMoves_trace rng self m _ _ _ _ hmv
    refine ⟨fails, hfails, ?_⟩
    rcases hcase with ⟨hb, hlen, hcalls, hsame2⟩ |
      ⟨hb, d, o, wmid, roll, hd, ho, hcalls, hsame2, hmove⟩
    · subst hb
      simp only at h
      obtain ⟨hx2, hy2, -⟩ := sameButMoved_fields _ _ hsame2 self
      exact Or.inl ⟨hlen, t2, hcalls, by rw [hx2, hx1], by rw [hy2, hy1], h⟩
    · subst hb
      simp only [Option.some.injEq, Prod.mk.injEq] at h
      obtain ⟨rfl, rfl⟩ := h
      obtain ⟨hxm, hym, -⟩ := sameButMoved_fields _ _ hsame2 self
      obtain ⟨dx, dy, hdd, hx', hy', -, -⟩ :=
        move_success_facts wmid t2.world self d m roll o hmove ho
      refine Or.inr ⟨rfl, d, dx, dy, o, hd, hdd, ho, hcalls, ?_, ?_⟩
      · rw [hx', hxm, hx1, autoSquares_of_ne _ _ _ hm]
      · rw [hy', hym, hy1, autoSquares_of_ne _ _ _ hm]

/-- Instance of C23: in `standoff`, a rectangular board with every unit on it,
Blue's slow unit 1 stands on `(3,0)`, three squares to the right of Red's flag;
its first attack scan fails, the only direction of the list is LEFT, and the
first move attempt, one square to the left, succeeds and ends the loop body with
the unit on `(2,0)`. -/
theorem programUnit_move_choice_witness :
    standoffStart.world.WellPlaced ∧
    Game.specMoveDirections ((0 : Int) - (standoffStart.world.players 1).x)
      ((0 : Int) - (standoffStart.world.players 1).y) = [LEFT] ∧
    standoffUnit.1 = true ∧ (standoffUnit.2.world.players 1).x = 2 ∧
    ∃ fails : List MoveOutcome, (∀ o ∈ fails, o.isSuccess = false) ∧
      ((fails.length = (Game.specMoveDirections ((0 : Int) - (standoffStart.world.players 1).x)
            ((0 : Int) - (standoffStart.world.players 1).y)).length ∧
          ∃ t2 : Turn 2,
            t2.calls = standoffScanned.calls ++ List.zipWith
              (fun d o => Call.move 1 d (if (standoffStart.world.players 1).fast then 2 else 1) o)
              (Game.specMoveDirections ((0 : Int) - (standoffStart.world.players 1).x)
                ((0 : Int) - (standoffStart.world.players 1).y)) fails ∧
            (t2.world.players 1).x = (standoffStart.world.players 1).x ∧
            (t2.world.players 1).y = (standoffStart.world.players 1).y ∧
            Game.scanDirections alwaysMiss 1 [UP, DOWN, LEFT, RIGHT] t2
              = some (standoffUnit.1, standoffUnit.2)) ∨
       (standoffUnit.1 = true ∧ ∃ (d dx dy : Int) (o : MoveOutcome),
          (Game.specMoveDirections ((0 : Int) - (standoffStart.world.players 1).x)
            ((0 : Int) - (standoffStart.world.players 1).y))[fails.length]? = some d ∧
          directionDelta d = some (dx, dy) ∧ o.isSuccess = true ∧
          standoffUnit.2.calls = standoffScanned.calls ++ List.zipWith
              (fun d o => Call.move 1 d (if (standoffStart.world.players 1).fast then 2 else 1) o)
              (Game.specMoveDirections ((0 : Int) - (standoffStart.world.players 1).x)
                ((0 : Int) - (standoffStart.world.players 1).y)) fails
            ++ [Call.move 1 d (if (standoffStart.world.players 1).fast then 2 else 1) o] ∧
          (standoffUnit.2.world.players 1).x = (standoffStart.world.players 1).x
            + dx * (if (standoffStart.world.players 1).fast then 2 else 1) ∧
          (standoffUnit.2.world.players 1).y = (standoffStart.world.players 1).y
            + dy * (if (standoffStart.world.players 1).fast then 2 else 1))) :=
  ⟨by decide, by decide, by with_unfolding_all rfl, by with_unfolding_all rfl,
   (programUnit_move_choice alwaysMiss (0, 0) 1 standoffStart rfl).2 standoffScanned
     standoffUnit.2 standoffUnit.1 (by with_unfolding_all rfl)
     (eq_some_getD _ (false, standoffStart) (by with_unfolding_all rfl))⟩

/-- C28: a fast opponent-controlled unit cannot step onto an adjacent enemy flag.
In a game whose rosters differ, with the enemy flag at the corner `(0,0)` or
`(columns - 1, rows - 1)` of the board, for a fast unit with the capacity of its
class that stands on the board at Manhattan distance 1 from that flag: every move
`Game::programTurn` attempts for the unit during a turn is a move of 2 squares in
the direction of the flag, it fails, rejected as out of bounds or as blocked by an
opponent, and the unit's position is the same after the turn as before it.  On
a rectangular board with every unit on the board the turn does return. -/
theorem fast_unit_next_to_flag (g : Game n) (rng : Nat → ℚ) (u : Fin n)
    (hteams : g.redTeam ≠ g.blueTeam)
    (hcorner : g.enemyFlag = (0, 0) ∨
      g.enemyFlag = (((g.world.board.headD []).length : Int) - 1, (g.world.board.length : Int) - 1))
    (hfast : (g.world.players u).fast = true) (hprof : (g.world.players u).ClassProfile)
    (hon : outOfBounds g.world.board (g.world.players u).x (g.world.players u).y = false)
    (hdist : ((g.world.players u).x - g.enemyFlag.1).natAbs
      + ((g.world.players u).y - g.enemyFlag.2).natAbs = 1) :
    (g.world.WellPlaced → ∃ r : TurnResult n, g.programTurn rng = some r) ∧
    ∀ r : TurnResult n, g.programTurn rng = some r →
    (∀ c ∈ r.calls, c.unit = u → c.isMove = true →
      c.success = false ∧ ∃ (d : Int) (out : MoveOutcome), c = Call.move u d 2 out ∧
        directionDelta d = some (g.enemyFlag.1 - (g.world.players u).x,
          g.enemyFlag.2 - (g.world.players u).y) ∧
        (out = MoveOutcome.outOfBounds ∨ out = MoveOutcome.blockedByOpponent)) ∧
    (r.game.world.players u).x = (g.world.players u).x ∧
    (r.game.world.players u).y = (g.world.players u).y := by
  refine ⟨fun hw => ?_, ?_⟩
  · obtain ⟨r, h, -⟩ := programTurn_returns g rng hw
    exact ⟨r, h⟩
  intro r h
  have hplays := programTurn_plays g rng r h
  rw [targetFlag_eq_enemyFlag g hteams] at hplays
  have hmax : (g.world.players u).maxMovement = 2 := by
    rw [hprof.1, hfast]
    rfl
  have hfails : ∀ c ∈ r.calls.dropLast, c.success = false := by
    intro c hc
    cases hb : r.actionTaken with
    | false => exact ((programTurn_calls g rng r h).1 hb).1 c (List.mem_of_mem_dropLast hc)
    | true =>
      obtain ⟨init, last, hcalls, -, hinit⟩ := (programTurn_calls g rng r h).2 hb
      rw [hcalls, List.dropLast_concat] at hc
      exact hinit c hc
  exact plays_adjacent g.enemyFlag u r.calls g.world r.game.world
    ⟨hcorner, hmax, hon, hdist⟩ hplays hfails

/-- Instance of C28: in `pinned` Blue's fast unit 1 stands on `(1,0)`, next to
Red's flag at the corner `(0,0)`; with every shot missing, its one move attempt
of the turn (2 squares to the left) is rejected and the unit is still on `(1,0)`
after the turn, in which unit 2 moves instead. -/
theorem fast_unit_next_to_flag_witness :
    pinnedTurn.calls.map (fun c => (c.unit, c.isMove, c.success))
      = [(1, false, false), (1, false, false), (1, false, false), (1, false, false),
         (1, true, false),
         (1, false, false), (1, false, false), (1, false, false), (1, false, false),
         (2, false, false), (2, false, false), (2, false, false), (2, false, false),
         (2, true, true)] ∧
    (∀ c ∈ pinnedTurn.calls, c.unit = 1 → c.isMove = true →
      c.success = false ∧ ∃ (d : Int) (out : MoveOutcome), c = Call.move 1 d 2 out ∧
        directionDelta d = some (pinned.enemyFlag.1 - (pinned.world.players 1).x,
          pinned.enemyFlag.2 - (pinned.world.players 1).y) ∧
        (out = MoveOutcome.outOfBounds ∨ out = MoveOutcome.blockedByOpponent)) ∧
    (pinnedTurn.game.world.players 1).x = (pinned.world.players 1).x ∧
    (pinnedTurn.game.world.players 1).y = (pinned.world.players 1).y :=
  ⟨by with_unfolding_all rfl,
   (fast_unit_next_to_flag pinned alwaysMiss 1 (by decide) (Or.inl rfl) rfl
     ⟨rfl, rfl, rfl, rfl, rfl⟩ (by decide) (by decide)).2 pinnedTurn
     (eq_some_getD _ _ (by with_unfolding_all rfl))⟩

/-! ## Game::programTurn: the units tried in a turn -/

/-- The loop over the candidates, run on non-eliminated players with a range of
at least 1: the calls it makes fall into one non-empty group per tried player,
the tried players are an initial segment of the list, every group but the last
holds failed calls only, and the loop stops before the end of the list only
after a successful call, which is the last call of the last group. -/
theorem programLoop_groups (rng : Nat → ℚ) (flag : Int × Int) :
    ∀ (l : List (Fin n)) (t t' : Turn n) (b : Bool),
      Game.programLoop rng flag l t = some (b, t') →
      (∀ u ∈ l, (t.world.players u).eliminated = false ∧ 1 ≤ (t.world.players u).range) →
      ∃ (tried rest : List (Fin n)) (groups : List (List (Call n))),
        l = tried ++ rest ∧
        List.Forall₂ (fun u cs => cs ≠ [] ∧ ∀ c ∈ cs, c.unit = u) tried groups ∧
        t'.calls = t.calls ++ groups.flatten ∧
        (∀ cs ∈ groups.dropLast, ∀ c ∈ cs, c.success = false) ∧
        (b = false → rest = []) ∧
        (b = true → ∃ init c, groups.getLast? = some (init ++ [c]) ∧ c.success = true ∧
          ∀ c' ∈ init, c'.success = false) := by
  intro l
  induction l with
  | nil =>
    intro t t' b h _
    simp only [Game.programLoop, Option.some.injEq, Prod.mk.injEq] at h
    obtain ⟨rfl, rfl⟩ := h
    exact ⟨[], [], [], rfl, List.Forall₂.nil, by simp, by simp, fun _ => rfl,
      fun hb => by cases hb⟩
  | cons player rest0 ih =>
    intro t t' b h hl
    unfold Game.programLoop at h
    have hlive := (hl player (List.mem_cons_self _ _)).1
    have hr := (hl player (List.mem_cons_self _ _)).2
    rw [if_neg (by rw [hlive]; decide)] at h
    cases hunit : Game.programUnit rng flag player t with
    | none => rw [hunit] at h; cases h
    | some p =>
      obtain ⟨b1, t1⟩ := p
      rw [hunit] at h
      obtain ⟨new1, hstep1, hunits1, hne1⟩ := programUnit_step rng flag player _ _ _ hunit
      cases b1 with
      | true =>
        simp only [Option.some.injEq, Prod.mk.injEq] at h
        obtain ⟨rfl, rfl⟩ := h
        refine ⟨[player], rest0, [new1], rfl,
          List.Forall₂.cons ⟨hne1 hr, hunits1⟩ List.Forall₂.nil, ?_, by simp, ?_, ?_⟩
        · rw [hstep1.1]; simp
        · intro hb; cases hb
        · intro _
          obtain ⟨init, c, hnew, hc, hinit⟩ := hstep1.2.2 rfl
          exact ⟨init, c, by rw [hnew]; rfl, hc, hinit⟩
      | false =>
        simp only at h
        obtain ⟨hall1, hsame⟩ := hstep1.2.1 rfl
        have hl1 : ∀ u ∈ rest0, (t1.world.players u).eliminated = false ∧
            1 ≤ (t1.world.players u).range := by
          intro u hu
          obtain ⟨-, -, he, -, -, hrg, -⟩ := sameButMoved_fields _ _ hsame u
          have hu0 := hl u (List.mem_cons_of_mem _ hu)
          exact ⟨by rw [he]; exact hu0.1, by rw [hrg]; exact hu0.2⟩
        obtain ⟨tried2, rest2, groups2, hsplit, hforall, hcalls, hdrop, hfalse, htrue⟩ :=
          ih _ _ _ h hl1
        refine ⟨player :: tried2, rest2, new1 :: groups2, by rw [hsplit]; rfl,
          List.Forall₂.cons ⟨hne1 hr, hunits1⟩ hforall, ?_, ?_, hfalse, ?_⟩
        · rw [hcalls, hstep1.1]; simp
        · intro cs hcs
          cases groups2 with
          | nil => simp at hcs
          | cons g2 gs =>
            rw [List.dropLast_cons₂] at hcs
            rcases List.mem_cons.1 hcs with rfl | hcs2
            · exact hall1
            · exact hdrop cs hcs2
        · intro hb
          obtain ⟨init, c, hlast, hc, hinit⟩ := htrue hb
          refine ⟨init, c, ?_, hc, hinit⟩
          cases groups2 with
          | nil => simp at hlast
          | cons g2 gs => rw [List.getLast?_cons_cons]; exact hlast

/-- Amended C17: `Game::programTurn` is not sticky; a candidate without a
successful action is followed by the next candidate.  For a turn that returns, in
a game whose units have a range of at least 1: the resolver calls of the turn
fall into consecutive non-empty groups, one per tried unit; the tried units are
an initial segment of the candidates, which are the non-eliminated units of the
program's team in non-decreasing distance to the target flag; every unit that is
followed by another one has failed all its calls, and a tried unit whose calls
all failed is followed by the next candidate whenever there is one.  When an
action is taken, the successful call is the last call of the last tried unit and
the calls before it failed.  The turn is reported as no action taken only when
every candidate has been tried and every call failed; then the board is
unchanged and no unit's position, elimination state or extremity hits changed.
On a rectangular board with every unit on the board the turn does return. -/
theorem programTurn_tries_every_unit (g : Game n) (rng : Nat → ℚ)
    (hrange : ∀ u : Fin n, 1 ≤ (g.world.players u).range) :
    (g.world.WellPlaced → ∃ r : TurnResult n, g.programTurn rng = some r) ∧
    (∀ u : Fin n, u ∈ g.candidates ↔
      u ∈ g.programTeam ∧ (g.world.players u).eliminated = false) ∧
    List.Pairwise
      (fun a b =>
        g.flagDistance (if g.programTeam = g.redTeam then g.blueFlag else g.redFlag) a
          ≤ g.flagDistance (if g.programTeam = g.redTeam then g.blueFlag else g.redFlag) b)
      g.candidates ∧
    ∀ r : TurnResult n, g.programTurn rng = some r →
      ∃ (tried rest : List (Fin n)) (groups : List (List (Call n))),
        g.candidates = tried ++ rest ∧
        List.Forall₂ (fun u cs => cs ≠ [] ∧ ∀ c ∈ cs, c.unit = u) tried groups ∧
        r.calls = groups.flatten ∧
        (∀ cs ∈ groups.dropLast, ∀ c ∈ cs, c.success = false) ∧
        (∀ i : Nat, i < tried.length → (∀ c ∈ groups.getD i [], c.success = false) →
          i + 1 < g.candidates.length → i + 1 < tried.length) ∧
        (r.actionTaken = true → ∃ init c, groups.getLast? = some (init ++ [c]) ∧
          c.success = true ∧ ∀ c' ∈ init, c'.success = false) ∧
        (r.actionTaken = false → rest = [] ∧
          (∀ u ∈ g.programTeam, (g.world.players u).eliminated = false →
            ∃ c ∈ r.calls, c.unit = u) ∧
          (∀ c ∈ r.calls, c.success = false) ∧
          r.game.world.board = g.world.board ∧
          ∀ u : Fin n, (r.game.world.players u).x = (g.world.players u).x ∧
            (r.game.world.players u).y = (g.world.players u).y ∧
            (r.game.world.players u).eliminated = (g.world.players u).eliminated ∧
            (r.game.world.players u).eliminationReason
              = (g.world.players u).eliminationReason ∧
            (r.game.world.players u).hitsToExtremities
              = (g.world.players u).hitsToExtremities) := by
  refine ⟨fun hw => ?_, mem_candidates g, ?_, ?_⟩
  · obtain ⟨r, h, -⟩ := programTurn_returns g rng hw
    exact ⟨r, h⟩
  · haveI : IsTotal (Fin n) (fun a b =>
        g.flagDistance (if g.programTeam = g.redTeam then g.blueFlag else g.redFlag) a
          ≤ g.flagDistance (if g.programTeam = g.redTeam then g.blueFlag else g.redFlag) b) :=
      ⟨fun a b => Nat.le_total _ _⟩
    haveI : IsTrans (Fin n) (fun a b =>
        g.flagDistance (if g.programTeam = g.redTeam then g.blueFlag else g.redFlag) a
          ≤ g.flagDistance (if g.programTeam = g.redTeam then g.blueFlag else g.redFlag) b) :=
      ⟨fun a b c hab hbc => Nat.le_trans hab hbc⟩
    exact List.sorted_insertionSort _ _
  · intro r h
    obtain ⟨hnone, -⟩ := programTurn_calls g rng r h
    have key : ∃ (tried rest : List (Fin n)) (groups : List (List (Call n))),
        g.candidates = tried ++ rest ∧
        List.Forall₂ (fun u cs => cs ≠ [] ∧ ∀ c ∈ cs, c.unit = u) tried groups ∧
        r.calls = groups.flatten ∧
        (∀ cs ∈ groups.dropLast, ∀ c ∈ cs, c.success = false) ∧
        (r.actionTaken = false → rest = []) ∧
        (r.actionTaken = true → ∃ init c, groups.getLast? = some (init ++ [c]) ∧
          c.success = true ∧ ∀ c' ∈ init, c'.success = false) := by
      unfold Game.programTurn at h
      by_cases hempty : g.programTeam.filter (fun p => !(g.world.players p).eliminated) = []
      · rw [if_pos hempty] at h
        cases h
        refine ⟨[], [], [], ?_, List.Forall₂.nil, rfl, by simp, fun _ => rfl,
          fun hb => by cases hb⟩
        simp [Game.candidates, hempty]
      · rw [if_neg hempty] at h
        simp only at h
        cases hloop : Game.programLoop rng
            (if g.programTeam = g.redTeam then g.blueFlag else g.redFlag) g.candidates
            { world := g.world, drawn := 0, calls := [] } with
        | none => rw [hloop] at h; cases h
        | some p =>
          obtain ⟨b, t⟩ := p
          rw [hloop] at h
          simp only [Option.some.injEq] at h
          subst h
          obtain ⟨tried, rest, groups, h1, h2, h3, h4, h5, h6⟩ :=
            programLoop_groups rng _ _ _ _ _ hloop
              (fun u hu => ⟨((mem_candidates g u).1 hu).2, hrange u⟩)
          exact ⟨tried, rest, groups, h1, h2, by simpa using h3, h4, h5, h6⟩
    obtain ⟨tried, rest, groups, h1, h2, h3, h4, h5, h6⟩ := key
    refine ⟨tried, rest, groups, h1, h2, h3, h4, ?_, h6, ?_⟩
    · intro i hi hfail hnext
      cases hb : r.actionTaken with
      | false =>
        have hrest := h5 hb
        rw [h1, hrest, List.append_nil] at hnext
        exact hnext
      | true =>
        obtain ⟨init, c, hlast, hc, -⟩ := h6 hb
        by_contra hlt
        have hlen := h2.length_eq
        have hi' : i = groups.length - 1 := by omega
        have hget : groups.getD i [] = init ++ [c] := by
          rw [List.getD_eq_getElem?_getD, hi', ← List.getLast?_eq_getElem?, hlast]
          rfl
        have hcf := hfail c (by rw [hget]; simp)
        rw [hc] at hcf
        cases hcf
    · intro hb
      obtain ⟨hall, hsame, htried⟩ := hnone hb
      refine ⟨h5 hb, fun u hu hlive => htried u hu hlive (hrange u), hall, hsame.1, ?_⟩
      intro u
      obtain ⟨e1, e2, e3, e4, e5, -, -⟩ := sameButMoved_fields _ _ hsame u
      exact ⟨e1, e2, e3, e4, e5⟩

/-- Instance of amended C17: in `pinned`, a rectangular board with every unit on
it, the candidates are Blue's units 1 and 2; with every shot missing, the calls
of the turn fall into a group of nine failed calls for unit 1 followed by a group
for unit 2 that ends with a successful move. -/
theorem programTurn_tries_every_unit_witness :
    pinned.world.WellPlaced ∧ pinned.candidates = [1, 2] ∧
    pinnedTurn.calls.map Call.unit = [1, 1, 1, 1, 1, 1, 1, 1, 1, 2, 2, 2, 2, 2] ∧
    ∃ (tried rest : List (Fin 3)) (groups : List (List (Call 3))),
      pinned.candidates = tried ++ rest ∧
      List.Forall₂ (fun u cs => cs ≠ [] ∧ ∀ c ∈ cs, c.unit = u) tried groups ∧
      pinnedTurn.calls = groups.flatten ∧
      (∀ cs ∈ groups.dropLast, ∀ c ∈ cs, c.success = false) ∧
      (∀ i : Nat, i < tried.length → (∀ c ∈ groups.getD i [], c.success = false) →
        i + 1 < pinned.candidates.length → i + 1 < tried.length) :=
  ⟨by decide, rfl, by with_unfolding_all rfl,
   match (programTurn_tries_every_unit pinned alwaysMiss (by decide)).2.2.2 pinnedTurn
       (eq_some_getD _ _ (by with_unfolding_all rfl)) with
   | ⟨tried, rest, groups, h1, h2, h3, h4, h5, _⟩ => ⟨tried, rest, groups, h1, h2, h3, h4, h5⟩⟩

/-- Counterexample to C17 as stated: in `pinned` the candidates are the units 1
and 2 in this order.  The nine resolver calls for the nearest unit 1 (attack scan,
move, second attack scan) all fail, yet the turn goes on to unit 2, whose fifth
call is a successful move from `(2,0)` to `(1,0)`; the turn reports an action. -/
theorem programTurn_not_sticky :
    pinned.candidates = [1, 2] ∧
    (pinned.programTurn alwaysMiss).map
        (fun r => (r.actionTaken, r.calls.map Call.unit, r.calls.map Call.success,
          (pinned.world.players 2).x, (r.game.world.players 2).x)) =
      some (true, [1, 1, 1, 1, 1, 1, 1, 1, 1, 2, 2, 2, 2, 2],
        [false, false, false, false, false, false, false, false, false,
         false, false, false, false, true], 2, 1) := by
  constructor
  · rfl
  · rfl

end Paintball
